import Mathlib

/-!
# MicroWeb page layout (`src/src/Page.cpp`): a shallow embedding

The page layout engine of `Page.cpp` is embedded as pure state-passing functions on a
`Page` record.  Conventions of the embedding:

* an index that is `-1` in the source is `none`; any other value is `some n`;
* `widgets[0 .. numWidgets)` is the list `Page.widgets`, so `numWidgets` is its length
  (the source only ever writes `widgets[numWidgets]` in `CreateWidget`, initialising every
  field, and never decrements `numWidgets`); likewise `styleStack[0 .. styleStackSize)` and
  `textBuffer[0 .. textBufferSize)`;
* a C string is the list of its characters before the terminating NUL, each character being
  the integer value `text[index]` is promoted to;
* integers are unbounded (`Page.h` / `Widget.h`, which fix the field widths, are not part of
  the sources at hand); glyph advances and line heights are unsigned;
* everything that `Page.cpp` takes from `Platform`, the fonts and the missing headers
  (viewport width, font metrics, the three capacities, the `FontStyle` constants, the
  allocator call of `SetWidgetURL`) is a field of `Env`; the copy of the scratch buffer that
  `FinishCurrentWidget` stores as the text of a widget is the list of the copied characters;
* every call `app.renderer.OnPageWidgetsLoaded(&widgets[s], count)` is recorded in the ghost
  field `Page.rendered` as the start index together with the widgets passed.
-/

namespace MicroWeb

/-- The `WidgetStyle` value: font style flags, font size selector, centre flag. -/
structure WidgetStyle where
  fontStyle : Nat
  fontSize : Nat
  center : Bool
deriving DecidableEq, Repr, Inhabited

/-- The `Widget` record. `text` and `linkURL` are `none` for `NULL`. -/
structure Widget where
  x : Int
  y : Int
  width : Int
  height : Int
  text : Option (List Int)
  linkURL : Option (List Int)
  style : WidgetStyle
deriving DecidableEq, Repr, Inhabited

/-- What `Page.cpp` reads from its collaborators and from the headers. -/
structure Env where
  /-- The value of `Platform::video->windowWidth`. -/
  windowWidth : Int
  /-- The table `Platform::video->GetFont(fontSize)->glyphWidth[i]`. -/
  fontGlyphWidth : Nat → Nat → Nat
  /-- The call `Platform::video->GetGlyphWidth(c, fontSize)`. -/
  getGlyphWidth : Int → Nat → Nat
  /-- The call `Platform::video->GetLineHeight(fontSize)`. -/
  getLineHeight : Nat → Nat
  /-- The constant `MAX_PAGE_WIDGETS`. -/
  maxPageWidgets : Nat
  /-- The constant `MAX_PAGE_STYLE_STACK_SIZE`. -/
  maxPageStyleStackSize : Nat
  /-- The constant `MAX_TEXT_BUFFER_SIZE`. -/
  maxTextBufferSize : Nat
  /-- The constant `FontStyle::Regular`. -/
  fontStyleRegular : Nat
  /-- The constant `FontStyle::Bold`. -/
  fontStyleBold : Nat
  /-- The call `allocator.AllocString(url)`: the handle of the copy it returns, `none` for a
  null pointer. -/
  allocString : List Int → Option (List Int)

/-- The state of a `Page`. -/
structure Page where
  currentLineStartWidgetIndex : Option Nat
  currentWidgetIndex : Option Nat
  submittedWidgetIndex : Nat
  pageWidth : Int
  pageHeight : Int
  widgets : List Widget
  cursorX : Int
  cursorY : Int
  needLeadingWhiteSpace : Bool
  pendingVerticalPadding : Int
  widgetURL : Option (List Int)
  styleStack : List WidgetStyle
  textBuffer : List Int
  rendered : List (Nat × List Widget)
deriving DecidableEq, Repr

/-- The member `numWidgets`. -/
def Page.numWidgets (p : Page) : Nat := p.widgets.length

/-- The member `styleStackSize`. -/
def Page.styleStackSize (p : Page) : Nat := p.styleStack.length

/-- The member `textBufferSize`. -/
def Page.textBufferSize (p : Page) : Nat := p.textBuffer.length

/-- Reading `widgets[i]`. -/
def wAt (ws : List Widget) (i : Nat) : Widget := (ws[i]?).getD default

/-- Writing through a reference to `widgets[i]`. -/
def wUpd (ws : List Widget) (i : Nat) (f : Widget → Widget) : List Widget :=
  ws.set i (f (wAt ws i))

/-- The page built by the constructor `Page::Page` when the scratch buffer is empty. The
constructor does not assign `textBufferSize`; `Page.init` is the general case. -/
def Page.fresh (cfg : Env) : Page :=
  { currentLineStartWidgetIndex := none
    currentWidgetIndex := none
    submittedWidgetIndex := 0
    pageWidth := cfg.windowWidth
    pageHeight := 0
    widgets := []
    cursorX := 0
    cursorY := 0
    needLeadingWhiteSpace := false
    pendingVerticalPadding := 0
    widgetURL := none
    styleStack := [⟨cfg.fontStyleRegular, 1, false⟩]
    textBuffer := []
    rendered := [] }

/-- The constructor `Page::Page` in general. It assigns every member that `Page.cpp` reads
except `textBufferSize`, so the scratch buffer of a new page is whatever the memory holds:
the list `buf`, whose length is the value of the unassigned member. `Page.fresh cfg` is the
case of an empty buffer. -/
def Page.init (cfg : Env) (buf : List Int) : Page :=
  { Page.fresh cfg with textBuffer := buf }

/-- The function `Page::GetStyleStackTop`. -/
def GetStyleStackTop (p : Page) : WidgetStyle := (p.styleStack.getLast?).getD default

/-- The function `Page::FinishCurrentWidget`. -/
def FinishCurrentWidget (p : Page) : Page :=
  match p.currentWidgetIndex with
  | none => p
  | some i =>
    { p with
      cursorX := p.cursorX + (wAt p.widgets i).width
      widgets := wUpd p.widgets i (fun w => { w with text := some p.textBuffer })
      textBuffer := []
      currentWidgetIndex := none }

/-- The function `Page::PushStyle`. -/
def PushStyle (cfg : Env) (p : Page) (style : WidgetStyle) : Page :=
  if p.styleStackSize < cfg.maxPageStyleStackSize then
    FinishCurrentWidget { p with styleStack := p.styleStack ++ [style] }
  else p

/-- The function `Page::PopStyle`. -/
def PopStyle (p : Page) : Page :=
  FinishCurrentWidget
    (if p.styleStackSize > 1 then { p with styleStack := p.styleStack.dropLast } else p)

/-- The function `Page::CreateWidget`; the returned pointer is the index of the widget. -/
def CreateWidget (cfg : Env) (p : Page) : Page × Option Nat :=
  let p := if p.currentWidgetIndex ≠ none then FinishCurrentWidget p else p
  if p.numWidgets < cfg.maxPageWidgets then
    let idx := p.numWidgets
    let style := GetStyleStackTop p
    let cursorX :=
      if p.needLeadingWhiteSpace then
        (if p.cursorX > 0 then p.cursorX + cfg.getGlyphWidth 32 style.fontSize else p.cursorX)
      else p.cursorX
    let cursorY := p.cursorY + p.pendingVerticalPadding
    let current : Widget :=
      { x := cursorX, y := cursorY, width := 0, height := cfg.getLineHeight style.fontSize,
        text := none, linkURL := p.widgetURL, style := style }
    ({ p with
        currentWidgetIndex := some idx
        widgets := p.widgets ++ [current]
        needLeadingWhiteSpace := false
        cursorX := cursorX
        cursorY := cursorY
        pendingVerticalPadding := 0
        currentLineStartWidgetIndex :=
          if p.currentLineStartWidgetIndex = none then some idx
          else p.currentLineStartWidgetIndex },
      some idx)
  else
    ({ p with currentWidgetIndex := none }, none)

/-- The first loop of `Page::FinishCurrentLine`: running `lineWidth` and `lineHeight`. -/
def lineLoop : Int → Int → List Widget → Int × Int
  | lineWidth, lineHeight, [] => (lineWidth, lineHeight)
  | lineWidth, lineHeight, w :: ws =>
    lineLoop (if w.x + w.width > lineWidth then w.x + w.width else lineWidth)
      (if w.height > lineHeight then w.height else lineHeight) ws

/-- The body of the second loop of `Page::FinishCurrentLine`. -/
def alignWidget (lineHeight centerAdjust : Int) (w : Widget) : Widget :=
  { w with
    y := w.y + (lineHeight - w.height)
    x := if w.style.center then w.x + centerAdjust else w.x }

/-- The function `Page::FinishCurrentLine`. `>> 1` is the arithmetic shift. -/
def FinishCurrentLine (cfg : Env) (p : Page) : Page :=
  let p := FinishCurrentWidget p
  let p :=
    match p.currentLineStartWidgetIndex with
    | none => p
    | some s =>
      let lineWidth := (lineLoop 0 0 (p.widgets.drop s)).1
      let lineHeight := (lineLoop 0 0 (p.widgets.drop s)).2
      let centerAdjust : Int := (cfg.windowWidth - lineWidth) >>> (1 : Nat)
      let ws := p.widgets.take s ++ (p.widgets.drop s).map (alignWidget lineHeight centerAdjust)
      { p with
        widgets := ws
        cursorY := p.cursorY + lineHeight
        pageHeight := p.cursorY + lineHeight
        rendered := p.rendered ++ [(s, ws.drop s)]
        currentLineStartWidgetIndex := none }
  { p with cursorX := 0 }

/-- The copy loops of `Page::AppendText`: each character goes to the scratch buffer while
there is room. -/
def copyChars (cfg : Env) (buf : List Int) (chars : List Int) : List Int :=
  chars.foldl (fun b c => if b.length < cfg.maxTextBufferSize then b ++ [c] else b) buf

/-- The locals of the scan loop of `Page::AppendText`, with the page. -/
structure Scan where
  page : Page
  current : Nat
  addedWidth : Int
  startIndex : Nat
  index : Nat
deriving DecidableEq, Repr

/-- One pass through the loop body ends at the loop increment or in `return`. -/
inductive Flow where
  | next (s : Scan)
  | ret (p : Page)
deriving DecidableEq, Repr

/-- The body of the scan loop of `Page::AppendText` on the character `c = text[index]`,
followed by the loop increment `index++` (so `index--; index++` leaves `index` as it is).
`fontSize` selects the font fetched on entry. -/
def scanBody (cfg : Env) (fontSize : Nat) (text : List Int) (s : Scan) (c : Int) : Flow :=
  if c < 32 ∨ c > 128 then
    .next { s with index := s.index + 1 }
  else
    let cur := wAt s.page.widgets s.current
    let glyphWidth : Int :=
      cfg.fontGlyphWidth fontSize (c - 32).toNat
        + (if cur.style.fontStyle &&& cfg.fontStyleBold ≠ 0 then 1 else 0)
    if cur.x + cur.width + s.addedWidth + glyphWidth < cfg.windowWidth then
      let addedWidth := s.addedWidth + glyphWidth
      if c = 32 then
        let buf := copyChars cfg s.page.textBuffer
          ((text.drop s.startIndex).take (s.index + 1 - s.startIndex))
        let ws := wUpd s.page.widgets s.current (fun w => { w with width := w.width + addedWidth })
        .next { s with
          page := { s.page with textBuffer := buf, widgets := ws }
          startIndex := s.index + 1
          addedWidth := 0
          index := s.index + 1 }
      else
        .next { s with addedWidth := addedWidth, index := s.index + 1 }
    else if cur.width = 0 then
      if cur.x = 0 then
        let buf := copyChars cfg s.page.textBuffer
          ((text.drop s.startIndex).take (s.index - s.startIndex))
        let ws := wUpd s.page.widgets s.current
          (fun w => { w with width := w.width + s.addedWidth })
        let p := FinishCurrentLine cfg { s.page with textBuffer := buf, widgets := ws }
        match CreateWidget cfg p with
        | (p, none) => .ret p
        | (p, some current) =>
          .next { page := p, current := current, addedWidth := 0, startIndex := s.index + 1,
                  index := s.index }
      else
        let oldCurrentWidgetIndex := s.page.currentWidgetIndex
        let p := FinishCurrentLine cfg { s.page with currentWidgetIndex := none }
        let p := { p with
          currentWidgetIndex := oldCurrentWidgetIndex
          currentLineStartWidgetIndex := oldCurrentWidgetIndex }
        let ws := wUpd p.widgets s.current (fun w => { w with x := p.cursorX, y := p.cursorY })
        .next { s with page := { p with widgets := ws }, index := s.index }
    else
      let p := FinishCurrentLine cfg s.page
      match CreateWidget cfg p with
      | (p, none) => .ret p
      | (p, some current) =>
        .next { s with page := p, current := current }

/-- The scan loop of `Page::AppendText`, run for at most `fuel` passes: `some (.next s)` when
the loop ends at the terminating NUL with locals `s`, `some (.ret p)` when the body returns,
`none` when the passes run out. -/
def scanLoop (cfg : Env) (fontSize : Nat) (text : List Int) : Nat → Scan → Option Flow
  | 0, _ => none
  | fuel + 1, s =>
    match text[s.index]? with
    | none => some (.next s)
    | some c =>
      match scanBody cfg fontSize text s c with
      | .next s' => scanLoop cfg fontSize text fuel s'
      | .ret p => some (.ret p)

/-- The number of passes given to the scan loop: every pass either consumes a character,
creates a widget (or fails to and returns), or moves an empty widget to `x = 0`. -/
def scanFuel (cfg : Env) (p : Page) (text : List Int) : Nat :=
  text.length + 2 * (cfg.maxPageWidgets - p.numWidgets) + 3

/-- The locals on entry to the scan loop. -/
def scanInit (p : Page) (current : Nat) : Scan :=
  { page := p, current := current, addedWidth := 0, startIndex := 0, index := 0 }

/-- The code after the scan loop of `Page::AppendText` ("Add whatever is left"). -/
def scanFlush (cfg : Env) (text : List Int) (s : Scan) : Page :=
  if s.addedWidth > 0 then
    { s.page with
      textBuffer := copyChars cfg s.page.textBuffer (text.drop s.startIndex)
      widgets := wUpd s.page.widgets s.current
        (fun w => { w with width := w.width + s.addedWidth }) }
  else s.page

/-- The function `Page::AppendText`; `none` only when the scan loop is cut short. -/
def AppendText (cfg : Env) (p : Page) (text : List Int) : Option Page :=
  let p := if p.currentWidgetIndex = none then (CreateWidget cfg p).1 else p
  match p.currentWidgetIndex with
  | none => some p
  | some current =>
    let fontSize := (wAt p.widgets current).style.fontSize
    match scanLoop cfg fontSize text (scanFuel cfg p text) (scanInit p current) with
    | none => none
    | some (.ret p) => some p
    | some (.next s) => some (scanFlush cfg text s)

/-- The function `Page::BreakLine`. -/
def BreakLine (cfg : Env) (p : Page) (padding : Int) : Page :=
  let p := FinishCurrentLine cfg p
  if padding > p.pendingVerticalPadding then { p with pendingVerticalPadding := padding } else p

/-- The loop of `Page::GetWidget` from index `n` on, over `widgets[n ..]`. -/
def getWidgetLoop (x y : Int) : Nat → List Widget → Option Nat
  | _, [] => none
  | n, widget :: rest =>
    if x ≥ widget.x ∧ y ≥ widget.y ∧ x < widget.x + widget.width
        ∧ y < widget.y + widget.height then some n
    else getWidgetLoop x y (n + 1) rest

/-- The function `Page::GetWidget`; the returned pointer is the index of the widget. The
function assigns to no member, so the page is not part of the result. -/
def GetWidget (p : Page) (x y : Int) : Option Nat := getWidgetLoop x y 0 p.widgets

/-- The function `Page::SetWidgetURL`. -/
def SetWidgetURL (cfg : Env) (p : Page) (url : List Int) : Page :=
  { p with widgetURL := cfg.allocString url }

/-- The function `Page::ClearWidgetURL`. -/
def ClearWidgetURL (p : Page) : Page := { p with widgetURL := none }

/-- The calls that drive the layout. -/
inductive Op where
  | pushStyle (style : WidgetStyle)
  | popStyle
  | appendText (text : List Int)
  | breakLine (padding : Int)
  | setWidgetURL (url : List Int)
  | clearWidgetURL
deriving DecidableEq, Repr

/-- One call on a page. -/
def applyOp (cfg : Env) (p : Page) : Op → Option Page
  | .pushStyle style => some (PushStyle cfg p style)
  | .popStyle => some (PopStyle p)
  | .appendText text => AppendText cfg p text
  | .breakLine padding => some (BreakLine cfg p padding)
  | .setWidgetURL url => some (SetWidgetURL cfg p url)
  | .clearWidgetURL => some (ClearWidgetURL p)

/-- A sequence of calls on a page. -/
def runOps (cfg : Env) : Page → List Op → Option Page
  | p, [] => some p
  | p, op :: ops =>
    match applyOp cfg p op with
    | none => none
    | some p' => runOps cfg p' ops

/-- A font with the same advance `g` for every glyph, line height `h`, viewport width `w`,
the capacities given, and an allocator that returns a copy of every string. -/
def uniformEnv (w : Int) (g h maxWidgets maxStack maxBuffer : Nat) : Env :=
  { windowWidth := w
    fontGlyphWidth := fun _ _ => g
    getGlyphWidth := fun _ _ => g
    getLineHeight := fun _ => h
    maxPageWidgets := maxWidgets
    maxPageStyleStackSize := maxStack
    maxTextBufferSize := maxBuffer
    fontStyleRegular := 0
    fontStyleBold := 1
    allocString := fun url => some url }

/-- The point `(px, py)` lies in the half-open box `[x, x+width) × [y, y+height)` of `w`. -/
def Widget.contains (w : Widget) (px py : Int) : Prop :=
  w.x ≤ px ∧ px < w.x + w.width ∧ w.y ≤ py ∧ py < w.y + w.height

instance (w : Widget) (px py : Int) : Decidable (w.contains px py) := by
  unfold Widget.contains
  infer_instance

/-- The boxes of two widgets have no point in common. -/
def Widget.disjoint (a b : Widget) : Prop :=
  ∀ px py : Int, ¬ (a.contains px py ∧ b.contains px py)

/-- The advance `AppendText` adds for the printable character `c` in a widget of style
`style`, the font being that of size `fontSize`. -/
def advance (cfg : Env) (fontSize : Nat) (style : WidgetStyle) (c : Int) : Int :=
  cfg.fontGlyphWidth fontSize (c - 32).toNat
    + (if style.fontStyle &&& cfg.fontStyleBold ≠ 0 then 1 else 0)

/-- The total rendered width of a text. -/
def textWidth (cfg : Env) (fontSize : Nat) (style : WidgetStyle) (text : List Int) : Int :=
  (text.map (advance cfg fontSize style)).sum

/-- The stored texts of the widgets, in index order, one after the other
(a `NULL` text counts as empty). -/
def storedText (p : Page) : List Int :=
  (p.widgets.map (fun w => w.text.getD [])).flatten

/-- The line height `FinishCurrentLine` uses on the page `p`. -/
def lineHeightOf (p : Page) : Int :=
  match p.currentLineStartWidgetIndex with
  | none => 0
  | some s => (lineLoop 0 0 (p.widgets.drop s)).2

/-- The line width `FinishCurrentLine` uses on the page `p`. -/
def lineWidthOf (p : Page) : Int :=
  match p.currentLineStartWidgetIndex with
  | none => 0
  | some s => (lineLoop 0 0 (p.widgets.drop s)).1

/-- The widget `CreateWidget` writes at `widgets[numWidgets]` on a page with no open widget. -/
def newWidget (cfg : Env) (q : Page) : Widget :=
  { x := if q.needLeadingWhiteSpace then
        (if q.cursorX > 0 then q.cursorX + cfg.getGlyphWidth 32 (GetStyleStackTop q).fontSize
          else q.cursorX)
      else q.cursorX
    y := q.cursorY + q.pendingVerticalPadding
    width := 0
    height := cfg.getLineHeight (GetStyleStackTop q).fontSize
    text := none
    linkURL := q.widgetURL
    style := GetStyleStackTop q }

/-- The quantity that decreases with every pass of the scan loop: characters left, twice the
widgets that can still be created, and one more while the current widget is not at the left
edge. -/
def scanMeasure (cfg : Env) (text : List Int) (s : Scan) : Nat :=
  (text.length - s.index) + 2 * (cfg.maxPageWidgets - s.page.widgets.length)
    + (if (wAt s.page.widgets s.current).x = 0 then 0 else 1)

/-- The page on which the scan of `AppendText` starts: the page itself when a widget is open,
else the page after `CreateWidget`. -/
def appendEntry (cfg : Env) (p : Page) : Page :=
  if p.currentWidgetIndex = none then (CreateWidget cfg p).1 else p

/-- The locals of the scan loop after `k` passes through its body, when the loop makes that
many passes. -/
def scanSteps (cfg : Env) (fontSize : Nat) (text : List Int) : Nat → Scan → Option Scan
  | 0, s => some s
  | k + 1, s =>
    match text[s.index]? with
    | none => none
    | some c =>
      match scanBody cfg fontSize text s c with
      | .next s' => scanSteps cfg fontSize text k s'
      | .ret _ => none

/-- The assignment `current->width += a` together with a new content of the scratch buffer. -/
def addWidth (p : Page) (current : Nat) (a : Int) (buf : List Int) : Page :=
  { p with
    textBuffer := buf
    widgets := wUpd p.widgets current (fun w => { w with width := w.width + a }) }

/-- The branch of `AppendText` that moves the empty current widget to the next line. -/
def relocate (cfg : Env) (p : Page) (current : Nat) : Page :=
  { FinishCurrentLine cfg { p with currentWidgetIndex := none } with
    currentWidgetIndex := p.currentWidgetIndex
    currentLineStartWidgetIndex := p.currentWidgetIndex
    widgets := wUpd (FinishCurrentLine cfg { p with currentWidgetIndex := none }).widgets
      current (fun w => { w with
        x := (FinishCurrentLine cfg { p with currentWidgetIndex := none }).cursorX
        y := (FinishCurrentLine cfg { p with currentWidgetIndex := none }).cursorY }) }

/-- Index and sign invariant of the page state. -/
structure Idx (p : Page) : Prop where
  need : p.needLeadingWhiteSpace = false
  cursorX_nonneg : 0 ≤ p.cursorX
  pending_nonneg : 0 ≤ p.pendingVerticalPadding
  pending_zero : ∀ s, p.currentLineStartWidgetIndex = some s → p.pendingVerticalPadding = 0
  open_last : ∀ i, p.currentWidgetIndex = some i → i + 1 = p.widgets.length
  open_line : ∀ i, p.currentWidgetIndex = some i →
    ∃ s, p.currentLineStartWidgetIndex = some s ∧ s ≤ i
  line_lt : ∀ s, p.currentLineStartWidgetIndex = some s → s < p.widgets.length
  open_x : ∀ i, p.currentWidgetIndex = some i → (wAt p.widgets i).x = p.cursorX
  width_nonneg : ∀ j, 0 ≤ (wAt p.widgets j).width
  height_nonneg : ∀ j, 0 ≤ (wAt p.widgets j).height

/-- Right-edge invariant of the page state: the cursor, and the right edge of the open
widget, are left of the viewport's right edge. -/
structure Edge (cfg : Env) (p : Page) : Prop where
  cursorX_lt : p.cursorX < cfg.windowWidth
  open_edge : ∀ i, p.currentWidgetIndex = some i →
    (wAt p.widgets i).x + (wAt p.widgets i).width < cfg.windowWidth

/-- Invariant of the scan loop of `AppendText`: the page invariants, `current` is the open
widget, and the pending width still fits on the line of the current widget. -/
structure ScanInv (cfg : Env) (s : Scan) : Prop where
  idx : Idx s.page
  edge : Edge cfg s.page
  cur : s.page.currentWidgetIndex = some s.current
  added_nonneg : 0 ≤ s.addedWidth
  fits : (wAt s.page.widgets s.current).x + (wAt s.page.widgets s.current).width
    + s.addedWidth < cfg.windowWidth

/-- The index of the first widget of the line in progress; `numWidgets` when no line is in
progress. -/
def lineBase (p : Page) : Nat :=
  match p.currentLineStartWidgetIndex with
  | none => p.widgets.length
  | some s => s

/-- Layout invariant of a page on which no style has the centre flag: the widgets of the
finished lines lie above the cursor and are separated from each other, the widgets of the
line in progress sit at the cursor's height, one after the other from left to right. -/
structure Lay (p : Page) : Prop where
  widget_not_center : ∀ j, (wAt p.widgets j).style.center = false
  stack_not_center : ∀ st ∈ p.styleStack, st.center = false
  old_above : ∀ j, j < lineBase p → (wAt p.widgets j).y + (wAt p.widgets j).height ≤ p.cursorY
  old_sep : ∀ i j, i < j → j < lineBase p →
    (wAt p.widgets i).x + (wAt p.widgets i).width ≤ (wAt p.widgets j).x ∨
      (wAt p.widgets i).y + (wAt p.widgets i).height ≤ (wAt p.widgets j).y
  line_y : ∀ j, lineBase p ≤ j → j < p.widgets.length → (wAt p.widgets j).y = p.cursorY
  line_order : ∀ i j, lineBase p ≤ i → i < j → j < p.widgets.length →
    (wAt p.widgets i).x + (wAt p.widgets i).width ≤ (wAt p.widgets j).x
  line_cursor : ∀ j, lineBase p ≤ j → j < p.widgets.length → p.currentWidgetIndex ≠ some j →
    (wAt p.widgets j).x + (wAt p.widgets j).width ≤ p.cursorX

/-- Invariant of the scan loop of `AppendText` for the layout invariant. -/
structure ScanLay (s : Scan) : Prop where
  idx : Idx s.page
  lay : Lay s.page
  cur : s.page.currentWidgetIndex = some s.current
  added_nonneg : 0 ≤ s.addedWidth

/-- No style pushed by the call has the centre flag. -/
def Op.notCenter : Op → Prop
  | .pushStyle style => style.center = false
  | _ => True

/-- The page `q` is the page `p` with its open widget `i` finalized: no widget is open, the
cursor has advanced by the widget's width, the widget's text is the content of the scratch
buffer, and the scratch buffer is empty. -/
def Finalized (p q : Page) (i : Nat) : Prop :=
  q.currentWidgetIndex = none ∧ q.cursorX = p.cursorX + (wAt p.widgets i).width ∧
    (wAt q.widgets i).text = some p.textBuffer ∧ q.textBuffer = []

/-- Capacity for one widget only: viewport width 100, advance 10, line height 8. -/
def oneWidgetEnv : Env := uniformEnv 100 10 8 1 32 128

/-- Style stack of capacity 2: viewport width 100, advance 10, line height 8. -/
def twoStyleEnv : Env := uniformEnv 100 10 8 2000 2 128

/-- The widget `i` is finished and keeps its text `t`. -/
def KeepsText (i : Nat) (t : Option (List Int)) (q : Page) : Prop :=
  i < q.widgets.length ∧ q.currentWidgetIndex ≠ some i ∧ (wAt q.widgets i).text = t

/-- The style at the bottom of the style stack of a fresh page. -/
def regularStyle (cfg : Env) : WidgetStyle := ⟨cfg.fontStyleRegular, 1, false⟩

/-- The first page state of `AppendText` on a fresh page: the page after `CreateWidget`. -/
def firstPage (cfg : Env) : Page :=
  { Page.fresh cfg with
    currentWidgetIndex := some 0
    widgets := [⟨0, 0, 0, cfg.getLineHeight 1, none, none, regularStyle cfg⟩]
    currentLineStartWidgetIndex := some 0 }

/-- The page after the first line of a fresh page, holding one widget of width `a` and
text `buf`, has been finished and a second widget has been created. -/
def secondPage (cfg : Env) (a : Int) (buf : List Int) : Page :=
  { Page.fresh cfg with
    currentWidgetIndex := some 1
    widgets := [⟨0, 0, a, cfg.getLineHeight 1, some buf, none, regularStyle cfg⟩,
      ⟨0, cfg.getLineHeight 1, 0, cfg.getLineHeight 1, none, none, regularStyle cfg⟩]
    currentLineStartWidgetIndex := some 1
    cursorY := cfg.getLineHeight 1
    pageHeight := cfg.getLineHeight 1
    rendered := [(0, [⟨0, 0, a, cfg.getLineHeight 1, some buf, none, regularStyle cfg⟩])] }

/-- Viewport width 640, advance 4, line height 8, a scratch buffer of 128 characters. -/
def wideEnv : Env := uniformEnv 640 4 8 2000 32 128

/-- The word of 100 `a`, a space, the word of 50 `b`. -/
def longWords : List Int := List.replicate 100 97 ++ 32 :: List.replicate 50 98

/-- Invariant of the scan loop of `AppendText` for the index invariant alone. -/
structure ScanIdx (s : Scan) : Prop where
  idx : Idx s.page
  cur : s.page.currentWidgetIndex = some s.current
  added_nonneg : 0 ≤ s.addedWidth

/-- Bounds of the style stack: between 1 and its capacity, the default style at the bottom. -/
structure StackOk (cfg : Env) (p : Page) : Prop where
  pos : 1 ≤ p.styleStackSize
  le : p.styleStackSize ≤ cfg.maxPageStyleStackSize
  base : p.styleStack[0]? = some (regularStyle cfg)

/-- The links of the widgets of `q` are the list `links` followed by copies of the current
URL `url` of `q`. -/
def LinkInv (links : List (Option (List Int))) (url : Option (List Int)) (q : Page) : Prop :=
  q.widgetURL = url ∧
    ∃ k, q.widgets.map (fun w => w.linkURL) = links ++ List.replicate k url

/-- The call is neither `SetWidgetURL` nor `ClearWidgetURL`. -/
def Op.keepsURL : Op → Prop
  | .setWidgetURL _ => False
  | .clearWidgetURL => False
  | _ => True

/-- A page of `wideEnv` whose line in progress, at `cursorY = 5`, holds a finished widget of
height 8 and an open widget of height 12. -/
def mixedLinePage : Page :=
  { Page.fresh wideEnv with
    widgets := [{ x := 0, y := 5, width := 20, height := 8, text := some [97], linkURL := none,
                  style := ⟨0, 1, false⟩ },
                { x := 20, y := 5, width := 12, height := 12, text := none, linkURL := none,
                  style := ⟨0, 2, false⟩ }]
    currentLineStartWidgetIndex := some 0
    currentWidgetIndex := some 1
    cursorX := 20
    cursorY := 5
    styleStack := [⟨0, 1, false⟩, ⟨0, 2, false⟩] }

/-- High-water invariant of the page height, relative to a lower bound `a`: the pending
padding is not negative and `a ≤ pageHeight ≤ cursorY`. -/
def High (a : Int) (q : Page) : Prop :=
  0 ≤ q.pendingVerticalPadding ∧ a ≤ q.pageHeight ∧ q.pageHeight ≤ q.cursorY

/-- Capacity invariant: the widget count is within its capacity, and the length of the
scratch buffer is at most the larger of `b` (its length on the new page) and its capacity. -/
def Caps (cfg : Env) (b : Nat) (q : Page) : Prop :=
  q.widgets.length ≤ cfg.maxPageWidgets ∧ q.textBuffer.length ≤ max b cfg.maxTextBufferSize

/-- Viewport width 100, advance 10 for every glyph, line height 8 times the font size. -/
def sizedEnv : Env :=
  { uniformEnv 100 10 8 2000 32 128 with getLineHeight := fun fontSize => 8 * fontSize }

/-- The quantity that grows with every pass of the scan loop: the scan index, the widget
count, and one more once the current widget is at the left edge. -/
def scanProgress (s : Scan) : Nat :=
  s.index + s.page.widgets.length + (if (wAt s.page.widgets s.current).x = 0 then 1 else 0)

/-- Viewport width 10 and advance 10 for every glyph, so that no glyph fits; capacity for
three widgets. -/
def noFitEnv : Env := uniformEnv 10 10 8 3 32 128

/-- The widget with the characters of its text taken out: a text that is set becomes the
empty string. -/
def Widget.noText (w : Widget) : Widget := { w with text := w.text.map (fun _ => []) }

/-- The layout of a page: the page with the characters of all stored text taken out (the
scratch buffer, the text of the widgets, and the text of the widgets in the record of
renderer calls). -/
def Page.layout (p : Page) : Page :=
  { p with
    textBuffer := []
    widgets := p.widgets.map Widget.noText
    rendered := p.rendered.map (fun b => (b.1, b.2.map Widget.noText)) }

/-- The character passes the filter at the head of the scan loop of `AppendText`. -/
def printable (c : Int) : Bool := !(decide (c < 32 ∨ c > 128))

/-- Invariant of the line in progress: its widgets start at or right of the left edge, and
each of them that is finished ends at or left of the cursor. -/
structure LineFit (p : Page) : Prop where
  line_x : ∀ j, lineBase p ≤ j → j < p.widgets.length → 0 ≤ (wAt p.widgets j).x
  line_cursor : ∀ j, lineBase p ≤ j → j < p.widgets.length → p.currentWidgetIndex ≠ some j →
    (wAt p.widgets j).x + (wAt p.widgets j).width ≤ p.cursorX

/-- The line in progress, if any, has a widget, and each of its widgets has its right edge
`x + width` at or right of 0 and left of the viewport's right edge. -/
def LineWithin (cfg : Env) (p : Page) : Prop :=
  ∀ s, p.currentLineStartWidgetIndex = some s →
    s < p.widgets.length ∧
    ∀ n, s ≤ n → n < p.widgets.length →
      0 ≤ (wAt p.widgets n).x + (wAt p.widgets n).width ∧
      (wAt p.widgets n).x + (wAt p.widgets n).width < cfg.windowWidth

/-- Scratch buffer of capacity 2: viewport width 100, advance 10, line height 8. -/
def tinyBufferEnv : Env := uniformEnv 100 10 8 2000 32 2

/-! ## Reading and writing widgets -/

@[simp] theorem wUpd_length (ws : List Widget) (i : Nat) (f : Widget → Widget) :
    (wUpd ws i f).length = ws.length := by
  simp [wUpd]

theorem wAt_wUpd_same (ws : List Widget) (i : Nat) (f : Widget → Widget) (h : i < ws.length) :
    wAt (wUpd ws i f) i = f (wAt ws i) := by
  simp [wUpd, wAt, h]

theorem wAt_wUpd_ne (ws : List Widget) (i j : Nat) (f : Widget → Widget) (h : i ≠ j) :
    wAt (wUpd ws i f) j = wAt ws j := by
  simp [wUpd, wAt, List.getElem?_set, h]

theorem wAt_append_left (ws : List Widget) (w : Widget) (i : Nat) (h : i < ws.length) :
    wAt (ws ++ [w]) i = wAt ws i := by
  simp [wAt, List.getElem?_append_left, h]

theorem wAt_append_right (ws : List Widget) (w : Widget) :
    wAt (ws ++ [w]) ws.length = w := by
  simp [wAt]

theorem wAt_of_le (ws : List Widget) (i : Nat) (h : ws.length ≤ i) : wAt ws i = default := by
  simp [wAt, List.getElem?_eq_none, h]

theorem wAt_take_map_drop (ws : List Widget) (s i : Nat) (f : Widget → Widget)
    (h : i < ws.length) :
    wAt (ws.take s ++ (ws.drop s).map f) i = if i < s then wAt ws i else f (wAt ws i) := by
  unfold wAt
  by_cases his : i < s
  · rw [List.getElem?_append_left (by simp; omega)]
    simp [his, List.getElem?_take]
  · have hs : s ≤ i := by omega
    rw [List.getElem?_append_right (by simp; omega)]
    simp [his, List.getElem?_drop]
    have : min s ws.length = s := by omega
    rw [this]
    have h2 : s + (i - s) = i := by omega
    rw [h2]
    simp [h]

theorem wAt_mem (ws : List Widget) (i : Nat) (h : i < ws.length) : wAt ws i ∈ ws := by
  have : wAt ws i = ws[i] := by simp [wAt, h]
  rw [this]
  exact List.getElem_mem h

theorem wAt_drop (ws : List Widget) (s k : Nat) : wAt (ws.drop s) k = wAt ws (s + k) := by
  simp [wAt, List.getElem?_drop]

theorem mem_drop_iff_wAt (ws : List Widget) (s : Nat) (w : Widget) :
    w ∈ ws.drop s ↔ ∃ n, s ≤ n ∧ n < ws.length ∧ w = wAt ws n := by
  constructor
  · intro h
    obtain ⟨k, hk, hw⟩ := List.getElem_of_mem h
    refine ⟨s + k, by omega, ?_, ?_⟩
    · simp at hk
      omega
    · rw [← wAt_drop]
      unfold wAt
      rw [List.getElem?_eq_getElem hk]
      simp [hw]
  · rintro ⟨n, hsn, hn, rfl⟩
    have : wAt ws n = wAt (ws.drop s) (n - s) := by
      rw [wAt_drop]
      congr 1
      omega
    rw [this]
    apply wAt_mem
    simp
    omega

/-! ## The first loop of `FinishCurrentLine` -/

theorem lineLoop_fst_ge (ws : List Widget) : ∀ a b : Int, a ≤ (lineLoop a b ws).1 := by
  induction ws with
  | nil => intro a b; simp [lineLoop]
  | cons w ws ih =>
    intro a b
    simp only [lineLoop]
    refine le_trans ?_ (ih _ _)
    split <;> omega

theorem lineLoop_snd_ge (ws : List Widget) : ∀ a b : Int, b ≤ (lineLoop a b ws).2 := by
  induction ws with
  | nil => intro a b; simp [lineLoop]
  | cons w ws ih =>
    intro a b
    simp only [lineLoop]
    refine le_trans ?_ (ih _ _)
    split <;> omega

theorem lineLoop_fst_mem (ws : List Widget) :
    ∀ a b : Int, ∀ w ∈ ws, w.x + w.width ≤ (lineLoop a b ws).1 := by
  induction ws with
  | nil => intro a b w hw; simp at hw
  | cons v ws ih =>
    intro a b w hw
    simp only [lineLoop]
    rcases List.mem_cons.mp hw with rfl | hw
    · refine le_trans ?_ (lineLoop_fst_ge ws _ _)
      split <;> omega
    · exact ih _ _ w hw

theorem lineLoop_snd_mem (ws : List Widget) :
    ∀ a b : Int, ∀ w ∈ ws, w.height ≤ (lineLoop a b ws).2 := by
  induction ws with
  | nil => intro a b w hw; simp at hw
  | cons v ws ih =>
    intro a b w hw
    simp only [lineLoop]
    rcases List.mem_cons.mp hw with rfl | hw
    · refine le_trans ?_ (lineLoop_snd_ge ws _ _)
      split <;> omega
    · exact ih _ _ w hw

theorem lineLoop_fst_cases (ws : List Widget) :
    ∀ a b : Int, (lineLoop a b ws).1 = a ∨ ∃ w ∈ ws, (lineLoop a b ws).1 = w.x + w.width := by
  induction ws with
  | nil => intro a b; simp [lineLoop]
  | cons v ws ih =>
    intro a b
    simp only [lineLoop]
    rcases ih (if v.x + v.width > a then v.x + v.width else a)
        (if v.height > b then v.height else b) with h | ⟨w, hw, h⟩
    · by_cases hv : v.x + v.width > a
      · right
        exact ⟨v, List.mem_cons_self _ _, by rw [h]; simp [hv]⟩
      · left
        rw [h]
        simp [hv]
    · right
      exact ⟨w, List.mem_cons_of_mem _ hw, h⟩

theorem lineLoop_snd_cases (ws : List Widget) :
    ∀ a b : Int, (lineLoop a b ws).2 = b ∨ ∃ w ∈ ws, (lineLoop a b ws).2 = w.height := by
  induction ws with
  | nil => intro a b; simp [lineLoop]
  | cons v ws ih =>
    intro a b
    simp only [lineLoop]
    rcases ih (if v.x + v.width > a then v.x + v.width else a)
        (if v.height > b then v.height else b) with h | ⟨w, hw, h⟩
    · by_cases hv : v.height > b
      · right
        exact ⟨v, List.mem_cons_self _ _, by rw [h]; simp [hv]⟩
      · left
        rw [h]
        simp [hv]
    · right
      exact ⟨w, List.mem_cons_of_mem _ hw, h⟩

theorem wUpd_wUpd (ws : List Widget) (i : Nat) (f g : Widget → Widget) :
    wUpd (wUpd ws i f) i g = wUpd ws i (fun w => g (f w)) := by
  by_cases h : i < ws.length
  · unfold wUpd
    rw [List.set_set]
    congr 1
    have := wAt_wUpd_same ws i f h
    unfold wUpd at this
    rw [this]
  · have h' : ws.length ≤ i := Nat.le_of_not_lt h
    simp [wUpd, List.set_eq_of_length_le, h']

theorem wUpd_congr (ws : List Widget) (i : Nat) (f g : Widget → Widget)
    (h : f (wAt ws i) = g (wAt ws i)) : wUpd ws i f = wUpd ws i g := by
  simp [wUpd, h]

theorem wUpd_of_le (ws : List Widget) (i : Nat) (f : Widget → Widget) (h : ws.length ≤ i) :
    wUpd ws i f = ws := by
  simp [wUpd, List.set_eq_of_length_le, h]

theorem textWidth_nil (cfg : Env) (fs : Nat) (style : WidgetStyle) :
    textWidth cfg fs style [] = 0 := by
  simp [textWidth]

theorem textWidth_cons (cfg : Env) (fs : Nat) (style : WidgetStyle) (c : Int)
    (cs : List Int) :
    textWidth cfg fs style (c :: cs) = advance cfg fs style c + textWidth cfg fs style cs := by
  simp [textWidth]

theorem textWidth_append (cfg : Env) (fs : Nat) (style : WidgetStyle) (as bs : List Int) :
    textWidth cfg fs style (as ++ bs) = textWidth cfg fs style as + textWidth cfg fs style bs := by
  simp [textWidth]

theorem advance_nonneg (cfg : Env) (fs : Nat) (style : WidgetStyle) (c : Int) :
    0 ≤ advance cfg fs style c := by
  unfold advance
  split <;> omega

theorem textWidth_nonneg (cfg : Env) (fs : Nat) (style : WidgetStyle) (cs : List Int) :
    0 ≤ textWidth cfg fs style cs := by
  induction cs with
  | nil => simp [textWidth]
  | cons c cs ih =>
    rw [textWidth_cons]
    have := advance_nonneg cfg fs style c
    omega

theorem wUpd_self (ws : List Widget) (i : Nat) (f : Widget → Widget)
    (h : f (wAt ws i) = wAt ws i) : wUpd ws i f = ws := by
  unfold wUpd
  rw [h]
  apply List.ext_getElem?
  intro j
  rw [List.getElem?_set]
  by_cases hij : i = j
  · subst hij
    by_cases hi : i < ws.length
    · simp [hi, wAt]
    · simp [hi, List.getElem?_eq_none, Nat.le_of_not_lt hi]
  · simp [hij]

theorem wAt_append (ws : List Widget) (w : Widget) (j : Nat) :
    wAt (ws ++ [w]) j =
      if j < ws.length then wAt ws j else if j = ws.length then w else default := by
  by_cases h1 : j < ws.length
  · simp [h1, wAt_append_left]
  · by_cases h2 : j = ws.length
    · subst h2
      simp [wAt_append_right]
    · simp only [h1, h2, ↓reduceIte]
      apply wAt_of_le
      simp
      omega

/-! ## Effects of the primitive operations -/

theorem wAt_wUpd (ws : List Widget) (i j : Nat) (f : Widget → Widget) :
    wAt (wUpd ws i f) j = if i = j ∧ j < ws.length then f (wAt ws j) else wAt ws j := by
  by_cases hij : i = j
  · subst hij
    by_cases hi : i < ws.length
    · simp [hi, wAt_wUpd_same]
    · simp [hi, wAt_of_le, Nat.le_of_not_lt hi]
  · simp [hij, wAt_wUpd_ne]

theorem FinishCurrentWidget_of_none (p : Page) (h : p.currentWidgetIndex = none) :
    FinishCurrentWidget p = p := by
  simp [FinishCurrentWidget, h]

@[simp] theorem FinishCurrentWidget_current (p : Page) :
    (FinishCurrentWidget p).currentWidgetIndex = none := by
  unfold FinishCurrentWidget
  split <;> simp_all

@[simp] theorem FinishCurrentWidget_length (p : Page) :
    (FinishCurrentWidget p).widgets.length = p.widgets.length := by
  unfold FinishCurrentWidget
  split <;> simp

@[simp] theorem FinishCurrentWidget_cursorY (p : Page) :
    (FinishCurrentWidget p).cursorY = p.cursorY := by
  unfold FinishCurrentWidget
  split <;> simp

@[simp] theorem FinishCurrentWidget_pending (p : Page) :
    (FinishCurrentWidget p).pendingVerticalPadding = p.pendingVerticalPadding := by
  unfold FinishCurrentWidget
  split <;> simp

@[simp] theorem FinishCurrentWidget_lineStart (p : Page) :
    (FinishCurrentWidget p).currentLineStartWidgetIndex = p.currentLineStartWidgetIndex := by
  unfold FinishCurrentWidget
  split <;> simp

@[simp] theorem FinishCurrentWidget_styleStack (p : Page) :
    (FinishCurrentWidget p).styleStack = p.styleStack := by
  unfold FinishCurrentWidget
  split <;> simp

@[simp] theorem FinishCurrentWidget_need (p : Page) :
    (FinishCurrentWidget p).needLeadingWhiteSpace = p.needLeadingWhiteSpace := by
  unfold FinishCurrentWidget
  split <;> simp

@[simp] theorem FinishCurrentWidget_pageHeight (p : Page) :
    (FinishCurrentWidget p).pageHeight = p.pageHeight := by
  unfold FinishCurrentWidget
  split <;> simp

@[simp] theorem FinishCurrentWidget_rendered (p : Page) :
    (FinishCurrentWidget p).rendered = p.rendered := by
  unfold FinishCurrentWidget
  split <;> simp

@[simp] theorem FinishCurrentWidget_widgetURL (p : Page) :
    (FinishCurrentWidget p).widgetURL = p.widgetURL := by
  unfold FinishCurrentWidget
  split <;> simp

theorem FinishCurrentWidget_cursorX (p : Page) :
    (FinishCurrentWidget p).cursorX =
      match p.currentWidgetIndex with
      | none => p.cursorX
      | some i => p.cursorX + (wAt p.widgets i).width := by
  unfold FinishCurrentWidget
  split <;> simp_all

theorem FinishCurrentWidget_wAt (p : Page) (j : Nat) :
    wAt (FinishCurrentWidget p).widgets j =
      if p.currentWidgetIndex = some j ∧ j < p.widgets.length then
        { wAt p.widgets j with text := some p.textBuffer }
      else wAt p.widgets j := by
  unfold FinishCurrentWidget
  split
  · simp_all
  · next i hi =>
    simp only [wAt_wUpd, hi, Option.some.injEq]

@[simp] theorem FinishCurrentWidget_wAt_x (p : Page) (j : Nat) :
    (wAt (FinishCurrentWidget p).widgets j).x = (wAt p.widgets j).x := by
  rw [FinishCurrentWidget_wAt]
  split <;> rfl

@[simp] theorem FinishCurrentWidget_wAt_y (p : Page) (j : Nat) :
    (wAt (FinishCurrentWidget p).widgets j).y = (wAt p.widgets j).y := by
  rw [FinishCurrentWidget_wAt]
  split <;> rfl

@[simp] theorem FinishCurrentWidget_wAt_width (p : Page) (j : Nat) :
    (wAt (FinishCurrentWidget p).widgets j).width = (wAt p.widgets j).width := by
  rw [FinishCurrentWidget_wAt]
  split <;> rfl

@[simp] theorem FinishCurrentWidget_wAt_height (p : Page) (j : Nat) :
    (wAt (FinishCurrentWidget p).widgets j).height = (wAt p.widgets j).height := by
  rw [FinishCurrentWidget_wAt]
  split <;> rfl

@[simp] theorem FinishCurrentWidget_wAt_style (p : Page) (j : Nat) :
    (wAt (FinishCurrentWidget p).widgets j).style = (wAt p.widgets j).style := by
  rw [FinishCurrentWidget_wAt]
  split <;> rfl

@[simp] theorem FinishCurrentWidget_wAt_linkURL (p : Page) (j : Nat) :
    (wAt (FinishCurrentWidget p).widgets j).linkURL = (wAt p.widgets j).linkURL := by
  rw [FinishCurrentWidget_wAt]
  split <;> rfl

/-- The line width computed by `FinishCurrentLine` for the line starting at `s`. -/
theorem lineWidth_spec (ws : List Widget) (s : Nat) :
    (∀ n, s ≤ n → n < ws.length →
        (wAt ws n).x + (wAt ws n).width ≤ (lineLoop 0 0 (ws.drop s)).1) ∧
      ((lineLoop 0 0 (ws.drop s)).1 = 0 ∨ ∃ n, s ≤ n ∧ n < ws.length ∧
        (lineLoop 0 0 (ws.drop s)).1 = (wAt ws n).x + (wAt ws n).width) := by
  constructor
  · intro n hs hn
    exact lineLoop_fst_mem _ 0 0 _ ((mem_drop_iff_wAt ws s _).mpr ⟨n, hs, hn, rfl⟩)
  · rcases lineLoop_fst_cases (ws.drop s) 0 0 with h | ⟨w, hw, h⟩
    · exact Or.inl h
    · obtain ⟨n, hs, hn, rfl⟩ := (mem_drop_iff_wAt ws s w).mp hw
      exact Or.inr ⟨n, hs, hn, h⟩

/-- The line height computed by `FinishCurrentLine` for the line starting at `s`. -/
theorem lineHeight_spec (ws : List Widget) (s : Nat) :
    (∀ n, s ≤ n → n < ws.length → (wAt ws n).height ≤ (lineLoop 0 0 (ws.drop s)).2) ∧
      ((lineLoop 0 0 (ws.drop s)).2 = 0 ∨ ∃ n, s ≤ n ∧ n < ws.length ∧
        (lineLoop 0 0 (ws.drop s)).2 = (wAt ws n).height) := by
  constructor
  · intro n hs hn
    exact lineLoop_snd_mem _ 0 0 _ ((mem_drop_iff_wAt ws s _).mpr ⟨n, hs, hn, rfl⟩)
  · rcases lineLoop_snd_cases (ws.drop s) 0 0 with h | ⟨w, hw, h⟩
    · exact Or.inl h
    · obtain ⟨n, hs, hn, rfl⟩ := (mem_drop_iff_wAt ws s w).mp hw
      exact Or.inr ⟨n, hs, hn, h⟩

/-- The part of `FinishCurrentLine` after `FinishCurrentWidget`, as a function of the page
`q = FinishCurrentWidget p`. -/
theorem FinishCurrentLine_eq (cfg : Env) (p : Page) :
    FinishCurrentLine cfg p =
      match (FinishCurrentWidget p).currentLineStartWidgetIndex with
      | none => { FinishCurrentWidget p with cursorX := 0 }
      | some s =>
        { FinishCurrentWidget p with
          widgets := (FinishCurrentWidget p).widgets.take s ++
            ((FinishCurrentWidget p).widgets.drop s).map
              (alignWidget (lineLoop 0 0 ((FinishCurrentWidget p).widgets.drop s)).2
                ((cfg.windowWidth - (lineLoop 0 0 ((FinishCurrentWidget p).widgets.drop s)).1)
                  >>> (1 : Nat)))
          cursorY := (FinishCurrentWidget p).cursorY
            + (lineLoop 0 0 ((FinishCurrentWidget p).widgets.drop s)).2
          pageHeight := (FinishCurrentWidget p).cursorY
            + (lineLoop 0 0 ((FinishCurrentWidget p).widgets.drop s)).2
          rendered := (FinishCurrentWidget p).rendered ++
            [(s, ((FinishCurrentWidget p).widgets.take s ++
              ((FinishCurrentWidget p).widgets.drop s).map
                (alignWidget (lineLoop 0 0 ((FinishCurrentWidget p).widgets.drop s)).2
                  ((cfg.windowWidth
                    - (lineLoop 0 0 ((FinishCurrentWidget p).widgets.drop s)).1) >>> (1 : Nat)))).drop s)]
          currentLineStartWidgetIndex := none
          cursorX := 0 } := by
  unfold FinishCurrentLine
  split <;> simp_all

@[simp] theorem FinishCurrentLine_current (cfg : Env) (p : Page) :
    (FinishCurrentLine cfg p).currentWidgetIndex = none := by
  rw [FinishCurrentLine_eq]
  split <;> simp

@[simp] theorem FinishCurrentLine_lineStart (cfg : Env) (p : Page) :
    (FinishCurrentLine cfg p).currentLineStartWidgetIndex = none := by
  rw [FinishCurrentLine_eq]
  split <;> simp_all

@[simp] theorem FinishCurrentLine_cursorX (cfg : Env) (p : Page) :
    (FinishCurrentLine cfg p).cursorX = 0 := by
  rw [FinishCurrentLine_eq]
  split <;> simp

@[simp] theorem FinishCurrentLine_length (cfg : Env) (p : Page) :
    (FinishCurrentLine cfg p).widgets.length = p.widgets.length := by
  rw [FinishCurrentLine_eq]
  split
  · simp
  · simp
    omega

@[simp] theorem FinishCurrentLine_pending (cfg : Env) (p : Page) :
    (FinishCurrentLine cfg p).pendingVerticalPadding = p.pendingVerticalPadding := by
  rw [FinishCurrentLine_eq]
  split <;> simp

@[simp] theorem FinishCurrentLine_styleStack (cfg : Env) (p : Page) :
    (FinishCurrentLine cfg p).styleStack = p.styleStack := by
  rw [FinishCurrentLine_eq]
  split <;> simp

@[simp] theorem FinishCurrentLine_need (cfg : Env) (p : Page) :
    (FinishCurrentLine cfg p).needLeadingWhiteSpace = p.needLeadingWhiteSpace := by
  rw [FinishCurrentLine_eq]
  split <;> simp

@[simp] theorem FinishCurrentLine_widgetURL (cfg : Env) (p : Page) :
    (FinishCurrentLine cfg p).widgetURL = p.widgetURL := by
  rw [FinishCurrentLine_eq]
  split <;> simp

@[simp] theorem FinishCurrentLine_textBuffer (cfg : Env) (p : Page) :
    (FinishCurrentLine cfg p).textBuffer = (FinishCurrentWidget p).textBuffer := by
  rw [FinishCurrentLine_eq]
  split <;> simp

theorem FinishCurrentLine_cursorY (cfg : Env) (p : Page) :
    (FinishCurrentLine cfg p).cursorY = p.cursorY + lineHeightOf (FinishCurrentWidget p) := by
  rw [FinishCurrentLine_eq]
  unfold lineHeightOf
  split <;> simp_all

theorem FinishCurrentLine_wAt (cfg : Env) (p : Page) (j : Nat) (hj : j < p.widgets.length) :
    wAt (FinishCurrentLine cfg p).widgets j =
      match p.currentLineStartWidgetIndex with
      | none => wAt (FinishCurrentWidget p).widgets j
      | some s =>
        if j < s then wAt (FinishCurrentWidget p).widgets j
        else alignWidget (lineHeightOf (FinishCurrentWidget p))
          ((cfg.windowWidth - lineWidthOf (FinishCurrentWidget p)) >>> (1 : Nat))
          (wAt (FinishCurrentWidget p).widgets j) := by
  rw [FinishCurrentLine_eq]
  unfold lineHeightOf lineWidthOf
  simp only [FinishCurrentWidget_lineStart]
  split
  · next h => simp [h]
  · next s h =>
    simp only [h]
    rw [wAt_take_map_drop _ _ _ _ (by simpa using hj)]

theorem Page.with_current_none (q : Page) (h : q.currentWidgetIndex = none) :
    { q with currentWidgetIndex := none } = q := by
  cases q
  simp_all

theorem CreateWidget_fail (cfg : Env) (p : Page) (h : ¬ p.widgets.length < cfg.maxPageWidgets) :
    CreateWidget cfg p = (FinishCurrentWidget p, none) := by
  unfold CreateWidget
  cases hc : p.currentWidgetIndex with
  | none =>
    simp [hc, Page.numWidgets, h, FinishCurrentWidget_of_none]
    exact Page.with_current_none p hc
  | some i =>
    simp only [hc, ne_eq, reduceCtorEq, not_false_eq_true, ↓reduceIte, Page.numWidgets,
      FinishCurrentWidget_length, h]
    rw [Page.with_current_none _ (FinishCurrentWidget_current p)]

theorem CreateWidget_ok (cfg : Env) (p : Page) (h : p.widgets.length < cfg.maxPageWidgets) :
    CreateWidget cfg p =
      ({ FinishCurrentWidget p with
          currentWidgetIndex := some p.widgets.length
          widgets := (FinishCurrentWidget p).widgets ++ [newWidget cfg (FinishCurrentWidget p)]
          needLeadingWhiteSpace := false
          cursorX := (newWidget cfg (FinishCurrentWidget p)).x
          cursorY := (FinishCurrentWidget p).cursorY + p.pendingVerticalPadding
          pendingVerticalPadding := 0
          currentLineStartWidgetIndex :=
            if p.currentLineStartWidgetIndex = none then some p.widgets.length
            else p.currentLineStartWidgetIndex },
        some p.widgets.length) := by
  unfold CreateWidget
  cases hc : p.currentWidgetIndex with
  | none => simp [hc, Page.numWidgets, h, FinishCurrentWidget_of_none, newWidget]
  | some i =>
    simp [hc, Page.numWidgets, h, newWidget]

theorem BreakLine_pending (cfg : Env) (p : Page) (padding : Int) :
    (BreakLine cfg p padding).pendingVerticalPadding = max p.pendingVerticalPadding padding := by
  unfold BreakLine
  simp only [FinishCurrentLine_pending]
  split
  · next h =>
    simp only
    omega
  · next h =>
    simp only [FinishCurrentLine_pending]
    omega

theorem BreakLine_twice_fresh (cfg : Env) :
    BreakLine cfg (BreakLine cfg (Page.fresh cfg) 5) 3
      = { Page.fresh cfg with pendingVerticalPadding := 5 } := by
  simp [BreakLine, FinishCurrentLine, FinishCurrentWidget, Page.fresh]

theorem shiftRight_one_eq_fdiv (a : Int) : a >>> (1 : Nat) = Int.fdiv a 2 := by
  rw [Int.shiftRight_eq_div_pow, Int.fdiv_eq_ediv a (by decide)]
  rfl

theorem FinishCurrentLine_wAt_x (cfg : Env) (p : Page) (s n : Nat)
    (hs : p.currentLineStartWidgetIndex = some s) (hn : n < p.widgets.length) :
    (wAt (FinishCurrentLine cfg p).widgets n).x =
      if s ≤ n ∧ (wAt p.widgets n).style.center then
        (wAt p.widgets n).x
          + Int.fdiv (cfg.windowWidth - lineWidthOf (FinishCurrentWidget p)) 2
      else (wAt p.widgets n).x := by
  rw [FinishCurrentLine_wAt cfg p n hn, hs]
  simp only
  by_cases hsn : n < s
  · have : ¬ s ≤ n := by omega
    simp [hsn, this]
  · have h' : s ≤ n := by omega
    simp only [hsn, ↓reduceIte, h', true_and, alignWidget, FinishCurrentWidget_wAt_style,
      FinishCurrentWidget_wAt_x, shiftRight_one_eq_fdiv]

theorem addWidth_widgets (p : Page) (cur : Nat) (a : Int) (buf : List Int) :
    (addWidth p cur a buf).widgets
      = wUpd p.widgets cur (fun w => { w with width := w.width + a }) := rfl

@[simp] theorem addWidth_length (p : Page) (cur : Nat) (a : Int) (buf : List Int) :
    (addWidth p cur a buf).widgets.length = p.widgets.length := by
  simp [addWidth_widgets]

@[simp] theorem addWidth_current (p : Page) (cur : Nat) (a : Int) (buf : List Int) :
    (addWidth p cur a buf).currentWidgetIndex = p.currentWidgetIndex := rfl

@[simp] theorem addWidth_lineStart (p : Page) (cur : Nat) (a : Int) (buf : List Int) :
    (addWidth p cur a buf).currentLineStartWidgetIndex = p.currentLineStartWidgetIndex := rfl

@[simp] theorem addWidth_cursorX (p : Page) (cur : Nat) (a : Int) (buf : List Int) :
    (addWidth p cur a buf).cursorX = p.cursorX := rfl

@[simp] theorem addWidth_cursorY (p : Page) (cur : Nat) (a : Int) (buf : List Int) :
    (addWidth p cur a buf).cursorY = p.cursorY := rfl

@[simp] theorem addWidth_pending (p : Page) (cur : Nat) (a : Int) (buf : List Int) :
    (addWidth p cur a buf).pendingVerticalPadding = p.pendingVerticalPadding := rfl

@[simp] theorem addWidth_need (p : Page) (cur : Nat) (a : Int) (buf : List Int) :
    (addWidth p cur a buf).needLeadingWhiteSpace = p.needLeadingWhiteSpace := rfl

@[simp] theorem addWidth_styleStack (p : Page) (cur : Nat) (a : Int) (buf : List Int) :
    (addWidth p cur a buf).styleStack = p.styleStack := rfl

@[simp] theorem addWidth_textBuffer (p : Page) (cur : Nat) (a : Int) (buf : List Int) :
    (addWidth p cur a buf).textBuffer = buf := rfl

@[simp] theorem addWidth_pageHeight (p : Page) (cur : Nat) (a : Int) (buf : List Int) :
    (addWidth p cur a buf).pageHeight = p.pageHeight := rfl

@[simp] theorem addWidth_rendered (p : Page) (cur : Nat) (a : Int) (buf : List Int) :
    (addWidth p cur a buf).rendered = p.rendered := rfl

@[simp] theorem addWidth_widgetURL (p : Page) (cur : Nat) (a : Int) (buf : List Int) :
    (addWidth p cur a buf).widgetURL = p.widgetURL := rfl

theorem addWidth_wAt (p : Page) (cur : Nat) (a : Int) (buf : List Int) (j : Nat) :
    wAt (addWidth p cur a buf).widgets j =
      if cur = j ∧ j < p.widgets.length then
        { wAt p.widgets j with width := (wAt p.widgets j).width + a }
      else wAt p.widgets j := by
  rw [addWidth_widgets, wAt_wUpd]

@[simp] theorem addWidth_wAt_x (p : Page) (cur : Nat) (a : Int) (buf : List Int) (j : Nat) :
    (wAt (addWidth p cur a buf).widgets j).x = (wAt p.widgets j).x := by
  rw [addWidth_wAt]
  split <;> rfl

@[simp] theorem addWidth_wAt_y (p : Page) (cur : Nat) (a : Int) (buf : List Int) (j : Nat) :
    (wAt (addWidth p cur a buf).widgets j).y = (wAt p.widgets j).y := by
  rw [addWidth_wAt]
  split <;> rfl

@[simp] theorem addWidth_wAt_height (p : Page) (cur : Nat) (a : Int) (buf : List Int) (j : Nat) :
    (wAt (addWidth p cur a buf).widgets j).height = (wAt p.widgets j).height := by
  rw [addWidth_wAt]
  split <;> rfl

@[simp] theorem addWidth_wAt_style (p : Page) (cur : Nat) (a : Int) (buf : List Int) (j : Nat) :
    (wAt (addWidth p cur a buf).widgets j).style = (wAt p.widgets j).style := by
  rw [addWidth_wAt]
  split <;> rfl

@[simp] theorem addWidth_wAt_text (p : Page) (cur : Nat) (a : Int) (buf : List Int) (j : Nat) :
    (wAt (addWidth p cur a buf).widgets j).text = (wAt p.widgets j).text := by
  rw [addWidth_wAt]
  split <;> rfl

theorem addWidth_wAt_width (p : Page) (cur : Nat) (a : Int) (buf : List Int) (j : Nat) :
    (wAt (addWidth p cur a buf).widgets j).width =
      if cur = j ∧ j < p.widgets.length then (wAt p.widgets j).width + a
      else (wAt p.widgets j).width := by
  rw [addWidth_wAt]
  split <;> rfl

@[simp] theorem relocate_current (cfg : Env) (p : Page) (cur : Nat) :
    (relocate cfg p cur).currentWidgetIndex = p.currentWidgetIndex := rfl

@[simp] theorem relocate_lineStart (cfg : Env) (p : Page) (cur : Nat) :
    (relocate cfg p cur).currentLineStartWidgetIndex = p.currentWidgetIndex := rfl

@[simp] theorem relocate_length (cfg : Env) (p : Page) (cur : Nat) :
    (relocate cfg p cur).widgets.length = p.widgets.length := by
  simp [relocate]

@[simp] theorem relocate_cursorX (cfg : Env) (p : Page) (cur : Nat) :
    (relocate cfg p cur).cursorX = 0 := by
  simp [relocate]

@[simp] theorem relocate_pending (cfg : Env) (p : Page) (cur : Nat) :
    (relocate cfg p cur).pendingVerticalPadding = p.pendingVerticalPadding := by
  simp [relocate]

@[simp] theorem relocate_need (cfg : Env) (p : Page) (cur : Nat) :
    (relocate cfg p cur).needLeadingWhiteSpace = p.needLeadingWhiteSpace := by
  simp [relocate]

@[simp] theorem relocate_styleStack (cfg : Env) (p : Page) (cur : Nat) :
    (relocate cfg p cur).styleStack = p.styleStack := by
  simp [relocate]

theorem relocate_cursorY (cfg : Env) (p : Page) (cur : Nat) :
    (relocate cfg p cur).cursorY
      = (FinishCurrentLine cfg { p with currentWidgetIndex := none }).cursorY := rfl

theorem relocate_wAt (cfg : Env) (p : Page) (cur j : Nat) :
    wAt (relocate cfg p cur).widgets j =
      if cur = j ∧ j < p.widgets.length then
        { wAt (FinishCurrentLine cfg { p with currentWidgetIndex := none }).widgets j with
          x := 0
          y := (FinishCurrentLine cfg { p with currentWidgetIndex := none }).cursorY }
      else wAt (FinishCurrentLine cfg { p with currentWidgetIndex := none }).widgets j := by
  simp only [relocate, wAt_wUpd, FinishCurrentLine_length, FinishCurrentLine_cursorX]

/-! ## Hit testing -/

theorem wAt_cons_zero (w : Widget) (ws : List Widget) : wAt (w :: ws) 0 = w := by
  simp [wAt]

theorem wAt_cons_succ (w : Widget) (ws : List Widget) (n : Nat) :
    wAt (w :: ws) (n + 1) = wAt ws n := by
  simp [wAt]

theorem getWidgetLoop_some (x y : Int) (ws : List Widget) :
    ∀ k n, getWidgetLoop x y k ws = some n ↔
      k ≤ n ∧ n - k < ws.length ∧ (wAt ws (n - k)).contains x y ∧
        ∀ m, m < n - k → ¬ (wAt ws m).contains x y := by
  induction ws with
  | nil => intro k n; simp [getWidgetLoop]
  | cons w rest ih =>
    intro k n
    unfold getWidgetLoop
    by_cases hw : w.contains x y
    · have hc : x ≥ w.x ∧ y ≥ w.y ∧ x < w.x + w.width ∧ y < w.y + w.height := by
        unfold Widget.contains at hw
        omega
      rw [if_pos hc]
      constructor
      · intro h
        have hkn : k = n := by simpa using h
        subst hkn
        simp [wAt_cons_zero, hw]
      · rintro ⟨hk, _, _, hm⟩
        by_cases hz : n - k = 0
        · have : k = n := by omega
          simp [this]
        · exact absurd (by simpa [wAt_cons_zero] using hw) (hm 0 (by omega))
    · have hc : ¬ (x ≥ w.x ∧ y ≥ w.y ∧ x < w.x + w.width ∧ y < w.y + w.height) := by
        unfold Widget.contains at hw
        omega
      rw [if_neg hc, ih]
      constructor
      · rintro ⟨hk, hlen, hcont, hm⟩
        have e : n - k = (n - (k + 1)) + 1 := by omega
        refine ⟨by omega, by simp; omega, ?_, ?_⟩
        · rw [e, wAt_cons_succ]
          exact hcont
        · intro m hlt
          cases m with
          | zero => simpa [wAt_cons_zero] using hw
          | succ m =>
            rw [wAt_cons_succ]
            exact hm m (by omega)
      · rintro ⟨hk, hlen, hcont, hm⟩
        have hne : n - k ≠ 0 := by
          intro hz
          rw [hz, wAt_cons_zero] at hcont
          exact hw hcont
        have e : n - k = (n - (k + 1)) + 1 := by omega
        refine ⟨by omega, by simp at hlen; omega, ?_, ?_⟩
        · rw [e, wAt_cons_succ] at hcont
          exact hcont
        · intro m hlt
          have := hm (m + 1) (by omega)
          rwa [wAt_cons_succ] at this

theorem getWidgetLoop_none (x y : Int) (ws : List Widget) :
    ∀ k, getWidgetLoop x y k ws = none ↔ ∀ m, m < ws.length → ¬ (wAt ws m).contains x y := by
  induction ws with
  | nil => intro k; simp [getWidgetLoop]
  | cons w rest ih =>
    intro k
    unfold getWidgetLoop
    by_cases hw : w.contains x y
    · have hc : x ≥ w.x ∧ y ≥ w.y ∧ x < w.x + w.width ∧ y < w.y + w.height := by
        unfold Widget.contains at hw
        omega
      rw [if_pos hc]
      simp only [reduceCtorEq, false_iff]
      intro h
      exact h 0 (by simp) (by simpa [wAt_cons_zero] using hw)
    · have hc : ¬ (x ≥ w.x ∧ y ≥ w.y ∧ x < w.x + w.width ∧ y < w.y + w.height) := by
        unfold Widget.contains at hw
        omega
      rw [if_neg hc, ih]
      constructor
      · intro h m hm
        cases m with
        | zero => simpa [wAt_cons_zero] using hw
        | succ m =>
          rw [wAt_cons_succ]
          exact h m (by simpa using hm)
      · intro h m hm
        have := h (m + 1) (by simpa using hm)
        rwa [wAt_cons_succ] at this

theorem GetWidget_eq_some (p : Page) (px py : Int) (n : Nat) :
    GetWidget p px py = some n ↔
      n < p.numWidgets ∧ (wAt p.widgets n).contains px py ∧
        ∀ m, m < n → ¬ (wAt p.widgets m).contains px py := by
  unfold GetWidget Page.numWidgets
  rw [getWidgetLoop_some]
  simp

theorem GetWidget_eq_none (p : Page) (px py : Int) :
    GetWidget p px py = none ↔ ∀ n, n < p.numWidgets → ¬ (wAt p.widgets n).contains px py := by
  unfold GetWidget Page.numWidgets
  rw [getWidgetLoop_none]

/-! ## The scan loop of `AppendText` -/

theorem scanLoop_done (cfg : Env) (fs : Nat) (text : List Int) (f : Nat) (s : Scan)
    (h : text[s.index]? = none) : scanLoop cfg fs text (f + 1) s = some (.next s) := by
  simp [scanLoop, h]

theorem scanLoop_next (cfg : Env) (fs : Nat) (text : List Int) (f : Nat) (s s' : Scan) (c : Int)
    (h : text[s.index]? = some c) (hb : scanBody cfg fs text s c = .next s') :
    scanLoop cfg fs text (f + 1) s = scanLoop cfg fs text f s' := by
  simp [scanLoop, h, hb]

theorem scanLoop_ret (cfg : Env) (fs : Nat) (text : List Int) (f : Nat) (s : Scan) (c : Int)
    (p : Page) (h : text[s.index]? = some c) (hb : scanBody cfg fs text s c = .ret p) :
    scanLoop cfg fs text (f + 1) s = some (.ret p) := by
  simp [scanLoop, h, hb]

theorem scanLoop_mono (cfg : Env) (fs : Nat) (text : List Int) :
    ∀ (f : Nat) (s : Scan) (r : Flow), scanLoop cfg fs text f s = some r →
      ∀ f', f ≤ f' → scanLoop cfg fs text f' s = some r := by
  intro f
  induction f with
  | zero => intro s r h; simp [scanLoop] at h
  | succ f ih =>
    intro s r h f' hf'
    obtain ⟨g, rfl⟩ : ∃ g, f' = g + 1 := ⟨f' - 1, by omega⟩
    unfold scanLoop at h ⊢
    cases ht : text[s.index]? with
    | none => simpa [ht] using h
    | some c =>
      simp only [ht] at h ⊢
      cases hb : scanBody cfg fs text s c with
      | next s' =>
        simp only [hb] at h ⊢
        exact ih s' r h g (by omega)
      | ret p => simpa [hb] using h

theorem scanBody_skip (cfg : Env) (fs : Nat) (text : List Int) (s : Scan) (c : Int)
    (h : c < 32 ∨ c > 128) :
    scanBody cfg fs text s c = .next { s with index := s.index + 1 } := by
  simp [scanBody, h]

theorem scanBody_fit_char (cfg : Env) (fs : Nat) (text : List Int) (s : Scan) (c : Int)
    (hp : 32 ≤ c ∧ c ≤ 128) (hc : c ≠ 32)
    (hfit : (wAt s.page.widgets s.current).x + (wAt s.page.widgets s.current).width
      + s.addedWidth + advance cfg fs (wAt s.page.widgets s.current).style c
        < cfg.windowWidth) :
    scanBody cfg fs text s c =
      .next { s with
        addedWidth := s.addedWidth + advance cfg fs (wAt s.page.widgets s.current).style c
        index := s.index + 1 } := by
  have h1 : ¬ (c < 32 ∨ c > 128) := by omega
  unfold advance at hfit ⊢
  simp only [scanBody, h1, ↓reduceIte, hfit, hc]

theorem scanBody_fit_space (cfg : Env) (fs : Nat) (text : List Int) (s : Scan)
    (hfit : (wAt s.page.widgets s.current).x + (wAt s.page.widgets s.current).width
      + s.addedWidth + advance cfg fs (wAt s.page.widgets s.current).style 32
        < cfg.windowWidth) :
    scanBody cfg fs text s 32 =
      .next { s with
        page := addWidth s.page s.current
          (s.addedWidth + advance cfg fs (wAt s.page.widgets s.current).style 32)
          (copyChars cfg s.page.textBuffer
            ((text.drop s.startIndex).take (s.index + 1 - s.startIndex)))
        startIndex := s.index + 1
        addedWidth := 0
        index := s.index + 1 } := by
  have h1 : ¬ ((32 : Int) < 32 ∨ (32 : Int) > 128) := by omega
  unfold advance at hfit ⊢
  simp only [scanBody, h1, ↓reduceIte, hfit, addWidth]

theorem scanBody_hardBreak (cfg : Env) (fs : Nat) (text : List Int) (s : Scan) (c : Int)
    (hp : 32 ≤ c ∧ c ≤ 128)
    (hfit : ¬ (wAt s.page.widgets s.current).x + (wAt s.page.widgets s.current).width
      + s.addedWidth + advance cfg fs (wAt s.page.widgets s.current).style c
        < cfg.windowWidth)
    (hw : (wAt s.page.widgets s.current).width = 0) (hx : (wAt s.page.widgets s.current).x = 0) :
    scanBody cfg fs text s c =
      match CreateWidget cfg (FinishCurrentLine cfg (addWidth s.page s.current s.addedWidth
          (copyChars cfg s.page.textBuffer
            ((text.drop s.startIndex).take (s.index - s.startIndex))))) with
      | (p, none) => .ret p
      | (p, some current) =>
        .next { page := p, current := current, addedWidth := 0, startIndex := s.index + 1,
                index := s.index } := by
  have h1 : ¬ (c < 32 ∨ c > 128) := by omega
  unfold advance at hfit
  unfold scanBody
  rw [if_neg h1]
  dsimp only
  rw [if_neg hfit, if_pos hw, if_pos hx]
  rfl

theorem scanBody_relocate (cfg : Env) (fs : Nat) (text : List Int) (s : Scan) (c : Int)
    (hp : 32 ≤ c ∧ c ≤ 128)
    (hfit : ¬ (wAt s.page.widgets s.current).x + (wAt s.page.widgets s.current).width
      + s.addedWidth + advance cfg fs (wAt s.page.widgets s.current).style c
        < cfg.windowWidth)
    (hw : (wAt s.page.widgets s.current).width = 0) (hx : (wAt s.page.widgets s.current).x ≠ 0) :
    scanBody cfg fs text s c =
      .next { s with page := relocate cfg s.page s.current, index := s.index } := by
  have h1 : ¬ (c < 32 ∨ c > 128) := by omega
  unfold advance at hfit
  unfold scanBody
  rw [if_neg h1]
  dsimp only
  rw [if_neg hfit, if_pos hw, if_neg hx]
  rfl

theorem scanBody_wrap (cfg : Env) (fs : Nat) (text : List Int) (s : Scan) (c : Int)
    (hp : 32 ≤ c ∧ c ≤ 128)
    (hfit : ¬ (wAt s.page.widgets s.current).x + (wAt s.page.widgets s.current).width
      + s.addedWidth + advance cfg fs (wAt s.page.widgets s.current).style c
        < cfg.windowWidth)
    (hw : (wAt s.page.widgets s.current).width ≠ 0) :
    scanBody cfg fs text s c =
      match CreateWidget cfg (FinishCurrentLine cfg s.page) with
      | (p, none) => .ret p
      | (p, some current) => .next { s with page := p, current := current } := by
  have h1 : ¬ (c < 32 ∨ c > 128) := by omega
  unfold advance at hfit
  unfold scanBody
  rw [if_neg h1]
  dsimp only
  rw [if_neg hfit, if_neg hw]

/-- When every remaining character is printable and the whole remaining text fits in the
current widget, the scan runs to the end of the text without touching anything but the width
of the current widget and the scratch buffer. -/
theorem scanLoop_all_fit (cfg : Env) (fs : Nat) (text : List Int) :
    ∀ (n : Nat) (s : Scan), s.index + n = text.length →
      (∀ c ∈ text.drop s.index, 32 ≤ c ∧ c ≤ 128) →
      s.current < s.page.widgets.length → 0 ≤ s.addedWidth →
      (wAt s.page.widgets s.current).x + (wAt s.page.widgets s.current).width + s.addedWidth
        + textWidth cfg fs (wAt s.page.widgets s.current).style (text.drop s.index)
          < cfg.windowWidth →
      ∃ buf wd aw st,
        scanLoop cfg fs text (n + 1) s = some (.next
          { page := { s.page with
              textBuffer := buf
              widgets := wUpd s.page.widgets s.current (fun w => { w with width := wd }) }
            current := s.current, addedWidth := aw, startIndex := st, index := text.length }) ∧
        0 ≤ aw ∧
        wd + aw = (wAt s.page.widgets s.current).width + s.addedWidth
          + textWidth cfg fs (wAt s.page.widgets s.current).style (text.drop s.index) := by
  intro n
  induction n with
  | zero =>
    intro s hidx _ hcur hadd _
    have hnone : text[s.index]? = none := by
      rw [List.getElem?_eq_none]
      omega
    refine ⟨s.page.textBuffer, (wAt s.page.widgets s.current).width, s.addedWidth, s.startIndex,
      ?_, hadd, ?_⟩
    · rw [scanLoop_done _ _ _ _ _ hnone]
      rw [wUpd_self _ _ _ rfl]
      have hi : s.index = text.length := by omega
      rw [← hi]
    · have : text.drop s.index = [] := by
        rw [List.drop_eq_nil_iff]
        omega
      rw [this, textWidth_nil]
      omega
  | succ n ih =>
    intro s hidx hprint hcur hadd hfit
    have hlt : s.index < text.length := by omega
    have hdrop : text.drop s.index = text[s.index] :: text.drop (s.index + 1) :=
      List.drop_eq_getElem_cons hlt
    have hget : text[s.index]? = some text[s.index] := List.getElem?_eq_getElem hlt
    have hp := hprint text[s.index] (by rw [hdrop]; exact List.mem_cons_self _ _)
    have hprint' : ∀ c ∈ text.drop (s.index + 1), 32 ≤ c ∧ c ≤ 128 := by
      intro c hc
      exact hprint c (by rw [hdrop]; exact List.mem_cons_of_mem _ hc)
    rw [hdrop, textWidth_cons] at hfit
    have hrest := textWidth_nonneg cfg fs (wAt s.page.widgets s.current).style
      (text.drop (s.index + 1))
    have hadv := advance_nonneg cfg fs (wAt s.page.widgets s.current).style text[s.index]
    by_cases hsp : text[s.index] = 32
    · have hb := scanBody_fit_space cfg fs text s (by rw [hsp] at hfit; omega)
      rw [hsp] at hget
      rw [scanLoop_next _ _ _ _ _ _ _ hget hb]
      have hcur' : wAt (addWidth s.page s.current
            (s.addedWidth + advance cfg fs (wAt s.page.widgets s.current).style 32)
            (copyChars cfg s.page.textBuffer
              ((text.drop s.startIndex).take (s.index + 1 - s.startIndex)))).widgets
            s.current = { wAt s.page.widgets s.current with
              width := (wAt s.page.widgets s.current).width
                + (s.addedWidth + advance cfg fs (wAt s.page.widgets s.current).style 32) } := by
        rw [addWidth_wAt]
        simp [hcur]
      obtain ⟨buf, wd, aw, st, hrun, haw, hsum⟩ := ih
        { s with
          page := addWidth s.page s.current
            (s.addedWidth + advance cfg fs (wAt s.page.widgets s.current).style 32)
            (copyChars cfg s.page.textBuffer
              ((text.drop s.startIndex).take (s.index + 1 - s.startIndex)))
          startIndex := s.index + 1
          addedWidth := 0
          index := s.index + 1 }
        (by simp only; omega) hprint' (by simpa [addWidth] using hcur) (le_refl 0)
        (by
          simp only [hcur']
          rw [hsp] at hfit
          omega)
      refine ⟨buf, wd, aw, st, ?_, haw, ?_⟩
      · rw [hrun]
        simp only [addWidth, wUpd_wUpd]
      · simp only [hcur'] at hsum
        rw [hsum, hdrop, textWidth_cons, hsp]
        omega
    · have hb := scanBody_fit_char cfg fs text s _ hp hsp (by omega)
      rw [scanLoop_next _ _ _ _ _ _ _ hget hb]
      obtain ⟨buf, wd, aw, st, hrun, haw, hsum⟩ := ih
        { s with
          addedWidth := s.addedWidth + advance cfg fs (wAt s.page.widgets s.current).style
            text[s.index]
          index := s.index + 1 }
        (by simp only; omega) hprint' (by simpa using hcur) (by simp only; omega)
        (by
          simp only
          omega)
      refine ⟨buf, wd, aw, st, hrun, haw, ?_⟩
      simp only at hsum
      rw [hsum, hdrop, textWidth_cons]
      omega

/-- `AppendText` on a page without widgets, cursor at the left edge, when the whole text
fits: one widget, the one `CreateWidget` makes, with the width of the text. -/
theorem AppendText_blank_fit (cfg : Env) (p : Page) (text : List Int)
    (hcap : 0 < cfg.maxPageWidgets) (hw : p.widgets = []) (hopen : p.currentWidgetIndex = none)
    (hprint : ∀ c ∈ text, 32 ≤ c ∧ c ≤ 128)
    (hfit : (newWidget cfg p).x
      + textWidth cfg (GetStyleStackTop p).fontSize (GetStyleStackTop p) text
        < cfg.windowWidth) :
    ∃ buf, AppendText cfg p text = some
      { (CreateWidget cfg p).1 with
        textBuffer := buf
        widgets := [{ newWidget cfg p with
          width := textWidth cfg (GetStyleStackTop p).fontSize (GetStyleStackTop p) text }] } := by
  have hlen : p.widgets.length < cfg.maxPageWidgets := by simp [hw, hcap]
  have hcw := CreateWidget_ok cfg p hlen
  rw [FinishCurrentWidget_of_none p hopen] at hcw
  unfold AppendText
  simp only [hopen, ↓reduceIte]
  rw [hcw]
  simp only [hw, List.length_nil, List.nil_append]
  have hw0 : wAt [newWidget cfg p] 0 = newWidget cfg p := by simp [wAt]
  obtain ⟨buf, wd, aw, st, hrun, haw, hsum⟩ := scanLoop_all_fit cfg
    (newWidget cfg p).style.fontSize text text.length
    (scanInit { p with
      currentWidgetIndex := some 0
      widgets := [newWidget cfg p]
      needLeadingWhiteSpace := false
      cursorX := (newWidget cfg p).x
      cursorY := p.cursorY + p.pendingVerticalPadding
      pendingVerticalPadding := 0
      currentLineStartWidgetIndex :=
        if p.currentLineStartWidgetIndex = none then some 0
        else p.currentLineStartWidgetIndex } 0)
    (by simp [scanInit]) (by simpa [scanInit] using hprint) (by simp [scanInit])
    (by simp [scanInit])
    (by
      simp only [scanInit, hw0, List.drop_zero]
      have : (newWidget cfg p).width = 0 := rfl
      have hs : (newWidget cfg p).style = GetStyleStackTop p := rfl
      rw [this, hs]
      omega)
  have hmono := scanLoop_mono cfg _ text _ _ _ hrun
    (scanFuel cfg { p with
      currentWidgetIndex := some 0
      widgets := [newWidget cfg p]
      needLeadingWhiteSpace := false
      cursorX := (newWidget cfg p).x
      cursorY := p.cursorY + p.pendingVerticalPadding
      pendingVerticalPadding := 0
      currentLineStartWidgetIndex :=
        if p.currentLineStartWidgetIndex = none then some 0
        else p.currentLineStartWidgetIndex } text)
    (by unfold scanFuel; omega)
  simp only [hw0]
  rw [hmono]
  simp only [scanInit, hw0, List.drop_zero] at hsum
  have hs : (newWidget cfg p).style = GetStyleStackTop p := rfl
  have hwz : (newWidget cfg p).width = 0 := rfl
  rw [hs, hwz] at hsum
  simp only [scanFlush, scanInit]
  by_cases hpos : aw > 0
  · refine ⟨copyChars cfg buf (text.drop st), ?_⟩
    simp only [hpos, ↓reduceIte, wUpd_wUpd]
    simp [wUpd, hw0]
    omega
  · refine ⟨buf, ?_⟩
    simp only [hpos, ↓reduceIte]
    simp [wUpd, hw0]
    omega

/-! ## Termination of the scan loop -/

theorem newWidget_x_of_cursorX_zero (cfg : Env) (q : Page) (h : q.cursorX = 0) :
    (newWidget cfg q).x = 0 := by
  simp [newWidget, h]

/-- After `FinishCurrentLine`, a successful `CreateWidget` appends one widget at `x = 0`. -/
theorem CreateWidget_FinishCurrentLine_ok (cfg : Env) (q : Page)
    (h : q.widgets.length < cfg.maxPageWidgets) :
    ∃ p', CreateWidget cfg (FinishCurrentLine cfg q) = (p', some q.widgets.length) ∧
      p'.widgets = (FinishCurrentLine cfg q).widgets ++ [newWidget cfg (FinishCurrentLine cfg q)] ∧
      (newWidget cfg (FinishCurrentLine cfg q)).x = 0 ∧
      p'.currentWidgetIndex = some q.widgets.length ∧
      p'.currentLineStartWidgetIndex = some q.widgets.length ∧
      p'.cursorX = 0 ∧
      p'.cursorY = (FinishCurrentLine cfg q).cursorY + q.pendingVerticalPadding ∧
      p'.pendingVerticalPadding = 0 ∧
      p'.needLeadingWhiteSpace = false ∧
      p'.styleStack = q.styleStack ∧
      p'.textBuffer = (FinishCurrentLine cfg q).textBuffer ∧
      p'.pageHeight = (FinishCurrentLine cfg q).pageHeight ∧
      p'.rendered = (FinishCurrentLine cfg q).rendered ∧
      p'.widgetURL = q.widgetURL := by
  have hl : (FinishCurrentLine cfg q).widgets.length < cfg.maxPageWidgets := by simpa using h
  have hf : FinishCurrentWidget (FinishCurrentLine cfg q) = FinishCurrentLine cfg q :=
    FinishCurrentWidget_of_none _ (FinishCurrentLine_current cfg q)
  have hx : (newWidget cfg (FinishCurrentLine cfg q)).x = 0 :=
    newWidget_x_of_cursorX_zero cfg _ (FinishCurrentLine_cursorX cfg q)
  refine ⟨(CreateWidget cfg (FinishCurrentLine cfg q)).1, ?_, ?_⟩
  · rw [CreateWidget_ok cfg _ hl, hf]
    simp
  · rw [CreateWidget_ok cfg _ hl, hf]
    simp [hx]

theorem CreateWidget_FinishCurrentLine_fail (cfg : Env) (q : Page)
    (h : ¬ q.widgets.length < cfg.maxPageWidgets) :
    CreateWidget cfg (FinishCurrentLine cfg q) = (FinishCurrentLine cfg q, none) := by
  have hl : ¬ (FinishCurrentLine cfg q).widgets.length < cfg.maxPageWidgets := by simpa using h
  rw [CreateWidget_fail cfg _ hl,
    FinishCurrentWidget_of_none _ (FinishCurrentLine_current cfg q)]

/-- The six ways through the body of the scan loop. -/
theorem scanBody_cases (cfg : Env) (fs : Nat) (s : Scan) (c : Int) :
    (c < 32 ∨ c > 128) ∨
    (32 ≤ c ∧ c ≤ 128 ∧
      ((wAt s.page.widgets s.current).x + (wAt s.page.widgets s.current).width
        + s.addedWidth + advance cfg fs (wAt s.page.widgets s.current).style c
          < cfg.windowWidth ∨
       ¬ ((wAt s.page.widgets s.current).x + (wAt s.page.widgets s.current).width
        + s.addedWidth + advance cfg fs (wAt s.page.widgets s.current).style c
          < cfg.windowWidth))) := by
  by_cases h : c < 32 ∨ c > 128
  · exact Or.inl h
  · right
    refine ⟨by omega, by omega, ?_⟩
    exact Classical.em _

theorem scanBody_next_measure (cfg : Env) (fs : Nat) (text : List Int) (s s' : Scan) (c : Int)
    (hcur : s.current < s.page.widgets.length) (hget : text[s.index]? = some c)
    (hb : scanBody cfg fs text s c = .next s') :
    s'.current < s'.page.widgets.length ∧ scanMeasure cfg text s' < scanMeasure cfg text s := by
  have hidx : s.index < text.length := by
    by_contra hcon
    rw [List.getElem?_eq_none (by omega)] at hget
    cases hget
  rcases scanBody_cases cfg fs s c with hskip | ⟨h32, h128, hfit | hfit⟩
  · rw [scanBody_skip _ _ _ _ _ hskip] at hb
    cases hb
    refine ⟨hcur, ?_⟩
    simp only [scanMeasure]
    omega
  · by_cases hsp : c = 32
    · subst hsp
      rw [scanBody_fit_space _ _ _ _ hfit] at hb
      cases hb
      refine ⟨by simpa using hcur, ?_⟩
      simp only [scanMeasure, addWidth_length, addWidth_wAt_x]
      omega
    · rw [scanBody_fit_char _ _ _ _ _ ⟨h32, h128⟩ hsp hfit] at hb
      cases hb
      refine ⟨hcur, ?_⟩
      simp only [scanMeasure]
      omega
  · by_cases hw : (wAt s.page.widgets s.current).width = 0
    · by_cases hx : (wAt s.page.widgets s.current).x = 0
      · rw [scanBody_hardBreak _ _ _ _ _ ⟨h32, h128⟩ hfit hw hx] at hb
        by_cases hcap : s.page.widgets.length < cfg.maxPageWidgets
        · obtain ⟨p', hc, hws, -⟩ := CreateWidget_FinishCurrentLine_ok cfg
            (addWidth s.page s.current s.addedWidth (copyChars cfg s.page.textBuffer
                ((text.drop s.startIndex).take (s.index - s.startIndex))))
            (by simpa [addWidth] using hcap)
          rw [hc] at hb
          simp only [addWidth_length] at hb hws
          cases hb
          have hlen : p'.widgets.length = s.page.widgets.length + 1 := by
            rw [hws]
            simp
          refine ⟨by simp only; omega, ?_⟩
          simp only [scanMeasure, hlen, hx, ↓reduceIte]
          split <;> omega
        · rw [CreateWidget_FinishCurrentLine_fail cfg _ (by simpa [addWidth] using hcap)] at hb
          cases hb
      · rw [scanBody_relocate _ _ _ _ _ ⟨h32, h128⟩ hfit hw hx] at hb
        cases hb
        have hcur' : s.current < (FinishCurrentLine cfg
            { s.page with currentWidgetIndex := none }).widgets.length := by simpa using hcur
        refine ⟨by simpa using hcur, ?_⟩
        simp only [scanMeasure, relocate_length, relocate_wAt, hcur, and_self, ↓reduceIte, hx]
        omega
    · rw [scanBody_wrap _ _ _ _ _ ⟨h32, h128⟩ hfit hw] at hb
      by_cases hcap : s.page.widgets.length < cfg.maxPageWidgets
      · obtain ⟨p', hc, hws, -⟩ := CreateWidget_FinishCurrentLine_ok cfg s.page hcap
        rw [hc] at hb
        cases hb
        have hlen : p'.widgets.length = s.page.widgets.length + 1 := by
          rw [hws]
          simp
        refine ⟨by simp only; omega, ?_⟩
        simp only [scanMeasure, hlen]
        split <;> split <;> omega
      · rw [CreateWidget_FinishCurrentLine_fail cfg _ hcap] at hb
        cases hb

/-- The scan loop ends whenever it is given more passes than `scanMeasure`. -/
theorem scanLoop_total (cfg : Env) (fs : Nat) (text : List Int) :
    ∀ (f : Nat) (s : Scan), s.current < s.page.widgets.length →
      scanMeasure cfg text s < f → ∃ r, scanLoop cfg fs text f s = some r := by
  intro f
  induction f with
  | zero => intro s _ h; omega
  | succ f ih =>
    intro s hcur hm
    cases hget : text[s.index]? with
    | none => exact ⟨_, scanLoop_done _ _ _ _ _ hget⟩
    | some c =>
      cases hb : scanBody cfg fs text s c with
      | next s' =>
        obtain ⟨hcur', hlt⟩ := scanBody_next_measure cfg fs text s s' c hcur hget hb
        rw [scanLoop_next _ _ _ _ _ _ _ hget hb]
        exact ih s' hcur' (by omega)
      | ret p => exact ⟨_, scanLoop_ret _ _ _ _ _ _ _ hget hb⟩

/-- An invariant of the loop body holds when the scan loop ends. -/
theorem scanLoop_invariant (cfg : Env) (fs : Nat) (text : List Int) (I : Scan → Prop)
    (R : Page → Prop)
    (hnext : ∀ s c s', I s → text[s.index]? = some c →
      scanBody cfg fs text s c = .next s' → I s')
    (hret : ∀ s c p, I s → text[s.index]? = some c → scanBody cfg fs text s c = .ret p → R p) :
    ∀ (f : Nat) (s : Scan), I s →
      (∀ s', scanLoop cfg fs text f s = some (.next s') → I s' ∧ text[s'.index]? = none) ∧
      (∀ p, scanLoop cfg fs text f s = some (.ret p) → R p) := by
  intro f
  induction f with
  | zero =>
    intro s _
    constructor <;> intro _ h <;> simp [scanLoop] at h
  | succ f ih =>
    intro s hI
    cases hget : text[s.index]? with
    | none =>
      rw [scanLoop_done _ _ _ _ _ hget]
      constructor
      · intro s' h
        cases h
        exact ⟨hI, hget⟩
      · intro p h
        cases h
    | some c =>
      cases hb : scanBody cfg fs text s c with
      | next s' =>
        rw [scanLoop_next _ _ _ _ _ _ _ hget hb]
        exact ih s' (hnext s c s' hI hget hb)
      | ret p =>
        rw [scanLoop_ret _ _ _ _ _ _ _ hget hb]
        constructor
        · intro s' h
          cases h
        · intro p' h
          cases h
          exact hret s c p hI hget hb

/-! ## The index invariant -/

theorem default_widget_width : (default : Widget).width = 0 := rfl

theorem default_widget_height : (default : Widget).height = 0 := rfl

theorem FinishCurrentLine_wAt_width (cfg : Env) (p : Page) (j : Nat) :
    (wAt (FinishCurrentLine cfg p).widgets j).width = (wAt p.widgets j).width := by
  by_cases hj : j < p.widgets.length
  · rw [FinishCurrentLine_wAt cfg p j hj]
    split
    · simp
    · split <;> simp [alignWidget]
  · rw [wAt_of_le _ _ (by simp; omega), wAt_of_le _ _ (by omega)]

theorem FinishCurrentLine_wAt_height (cfg : Env) (p : Page) (j : Nat) :
    (wAt (FinishCurrentLine cfg p).widgets j).height = (wAt p.widgets j).height := by
  by_cases hj : j < p.widgets.length
  · rw [FinishCurrentLine_wAt cfg p j hj]
    split
    · simp
    · split <;> simp [alignWidget]
  · rw [wAt_of_le _ _ (by simp; omega), wAt_of_le _ _ (by omega)]

theorem FinishCurrentLine_wAt_style (cfg : Env) (p : Page) (j : Nat) :
    (wAt (FinishCurrentLine cfg p).widgets j).style = (wAt p.widgets j).style := by
  by_cases hj : j < p.widgets.length
  · rw [FinishCurrentLine_wAt cfg p j hj]
    split
    · simp
    · split <;> simp [alignWidget]
  · rw [wAt_of_le _ _ (by simp; omega), wAt_of_le _ _ (by omega)]

theorem lineHeightOf_nonneg (p : Page) : 0 ≤ lineHeightOf p := by
  unfold lineHeightOf
  split
  · exact le_refl 0
  · exact lineLoop_snd_ge _ 0 0

theorem Idx.idx_fresh (cfg : Env) : Idx (Page.fresh cfg) := by
  constructor <;> simp [Page.fresh, wAt, default_widget_width, default_widget_height]

theorem Idx.idx_finishCurrentWidget {p : Page} (h : Idx p) : Idx (FinishCurrentWidget p) := by
  constructor
  · simpa using h.need
  · rw [FinishCurrentWidget_cursorX]
    split
    · exact h.cursorX_nonneg
    · next i hi =>
      have := h.cursorX_nonneg
      have := h.width_nonneg i
      omega
  · simpa using h.pending_nonneg
  · simpa using h.pending_zero
  · simp
  · simp
  · simpa using h.line_lt
  · simp
  · simpa using h.width_nonneg
  · simpa using h.height_nonneg

theorem Idx.idx_finishCurrentLine (cfg : Env) {p : Page} (h : Idx p) :
    Idx (FinishCurrentLine cfg p) := by
  constructor
  · simpa using h.need
  · simp
  · simpa using h.pending_nonneg
  · simp
  · simp
  · simp
  · simp
  · simp
  · intro j
    rw [FinishCurrentLine_wAt_width]
    exact h.width_nonneg j
  · intro j
    rw [FinishCurrentLine_wAt_height]
    exact h.height_nonneg j

theorem newWidget_x_of_need_false (cfg : Env) (q : Page) (h : q.needLeadingWhiteSpace = false) :
    (newWidget cfg q).x = q.cursorX := by
  simp [newWidget, h]

theorem newWidget_width (cfg : Env) (q : Page) : (newWidget cfg q).width = 0 := rfl

theorem newWidget_y (cfg : Env) (q : Page) :
    (newWidget cfg q).y = q.cursorY + q.pendingVerticalPadding := rfl

theorem newWidget_style (cfg : Env) (q : Page) : (newWidget cfg q).style = GetStyleStackTop q :=
  rfl

theorem newWidget_height_nonneg (cfg : Env) (q : Page) : 0 ≤ (newWidget cfg q).height := by
  simp [newWidget]

theorem Idx.idx_createWidget (cfg : Env) {p : Page} (h : Idx p) : Idx (CreateWidget cfg p).1 := by
  have hq := h.idx_finishCurrentWidget
  by_cases hcap : p.widgets.length < cfg.maxPageWidgets
  · rw [CreateWidget_ok cfg p hcap]
    have hx := newWidget_x_of_need_false cfg (FinishCurrentWidget p) hq.need
    constructor
    · rfl
    · simp only [hx]
      exact hq.cursorX_nonneg
    · simp
    · simp
    · simp
    · intro i hi
      simp only [Option.some.injEq] at hi
      subst hi
      cases hl : p.currentLineStartWidgetIndex with
      | none => simp
      | some s =>
        have := h.line_lt s hl
        simp
        omega
    · intro s hs
      simp only at hs
      simp only [List.length_append, FinishCurrentWidget_length, List.length_singleton]
      cases hl : p.currentLineStartWidgetIndex with
      | none =>
        simp [hl] at hs
        omega
      | some s' =>
        simp [hl] at hs
        have := h.line_lt s' hl
        omega
    · intro i hi
      simp only [Option.some.injEq] at hi
      subst hi
      simp only
      have := wAt_append_right (FinishCurrentWidget p).widgets
        (newWidget cfg (FinishCurrentWidget p))
      rw [FinishCurrentWidget_length] at this
      rw [this]
    · intro j
      simp only [wAt_append]
      split
      · exact hq.width_nonneg j
      · split
        · exact le_refl 0
        · exact le_refl 0
    · intro j
      simp only [wAt_append]
      split
      · exact hq.height_nonneg j
      · split
        · exact newWidget_height_nonneg cfg _
        · exact le_refl 0
  · rw [CreateWidget_fail cfg p hcap]
    exact hq

theorem Idx.idx_pushStyle (cfg : Env) {p : Page} (h : Idx p) (style : WidgetStyle) :
    Idx (PushStyle cfg p style) := by
  unfold PushStyle
  split
  · apply Idx.idx_finishCurrentWidget
    exact ⟨h.need, h.cursorX_nonneg, h.pending_nonneg, h.pending_zero, h.open_last, h.open_line,
      h.line_lt, h.open_x, h.width_nonneg, h.height_nonneg⟩
  · exact h

theorem Idx.idx_popStyle {p : Page} (h : Idx p) : Idx (PopStyle p) := by
  unfold PopStyle
  apply Idx.idx_finishCurrentWidget
  split
  · exact ⟨h.need, h.cursorX_nonneg, h.pending_nonneg, h.pending_zero, h.open_last, h.open_line,
      h.line_lt, h.open_x, h.width_nonneg, h.height_nonneg⟩
  · exact h

theorem Idx.idx_breakLine (cfg : Env) {p : Page} (h : Idx p) (padding : Int) :
    Idx (BreakLine cfg p padding) := by
  have hq := h.idx_finishCurrentLine cfg
  unfold BreakLine
  dsimp only
  split
  · next hp =>
    refine ⟨hq.need, hq.cursorX_nonneg, ?_, ?_, hq.open_last, hq.open_line, hq.line_lt,
      hq.open_x, hq.width_nonneg, hq.height_nonneg⟩
    · have := hq.pending_nonneg
      simp only
      omega
    · intro s hs
      simp at hs
  · exact hq

theorem Idx.idx_of_addWidth {p : Page} (h : Idx p) (cur : Nat) (a : Int) (buf : List Int)
    (ha : 0 ≤ a) : Idx (addWidth p cur a buf) := by
  refine ⟨h.need, h.cursorX_nonneg, h.pending_nonneg, h.pending_zero, ?_, h.open_line, ?_, ?_,
    ?_, ?_⟩
  · simpa [addWidth] using h.open_last
  · simpa [addWidth] using h.line_lt
  · intro i hi
    simp only [addWidth, wAt_wUpd]
    split
    · exact h.open_x i hi
    · exact h.open_x i hi
  · intro j
    simp only [addWidth, wAt_wUpd]
    have := h.width_nonneg j
    split
    · simp only
      omega
    · exact this
  · intro j
    simp only [addWidth, wAt_wUpd]
    split
    · exact h.height_nonneg j
    · exact h.height_nonneg j

theorem Idx.idx_clearCurrent {p : Page} (h : Idx p) : Idx { p with currentWidgetIndex := none } := by
  refine ⟨h.need, h.cursorX_nonneg, h.pending_nonneg, h.pending_zero, ?_, ?_, h.line_lt, ?_,
    h.width_nonneg, h.height_nonneg⟩ <;> simp

theorem Idx.idx_of_relocate (cfg : Env) {p : Page} (h : Idx p) (cur : Nat)
    (hcur : p.currentWidgetIndex = some cur) : Idx (relocate cfg p cur) := by
  have hq := (h.idx_clearCurrent).idx_finishCurrentLine cfg
  have hlen : cur + 1 = p.widgets.length := h.open_last cur hcur
  obtain ⟨s, hs, -⟩ := h.open_line cur hcur
  have hcl : cur < (FinishCurrentLine cfg { p with currentWidgetIndex := none }).widgets.length := by
    simp
    omega
  constructor
  · exact hq.need
  · exact hq.cursorX_nonneg
  · exact hq.pending_nonneg
  · intro _ _
    have := h.pending_zero s hs
    simpa [relocate] using this
  · intro i hi
    simp only [relocate, hcur, Option.some.injEq] at hi
    subst hi
    simp [relocate]
    omega
  · intro i hi
    simp only [relocate, hcur, Option.some.injEq] at hi
    subst hi
    exact ⟨cur, by simp [relocate, hcur], le_refl _⟩
  · intro s' hs'
    simp only [relocate, hcur, Option.some.injEq] at hs'
    subst hs'
    simp [relocate]
    omega
  · intro i hi
    simp only [relocate, hcur, Option.some.injEq] at hi
    subst hi
    simp only [relocate, wAt_wUpd_same _ _ _ hcl]
  · intro j
    simp only [relocate, wAt_wUpd]
    split
    · exact hq.width_nonneg j
    · exact hq.width_nonneg j
  · intro j
    simp only [relocate, wAt_wUpd]
    split
    · exact hq.height_nonneg j
    · exact hq.height_nonneg j

theorem Idx.idx_withURL {p : Page} (h : Idx p) (url : Option (List Int)) :
    Idx { p with widgetURL := url } :=
  ⟨h.need, h.cursorX_nonneg, h.pending_nonneg, h.pending_zero, h.open_last, h.open_line,
    h.line_lt, h.open_x, h.width_nonneg, h.height_nonneg⟩

/-! ## The right-edge invariant -/

theorem Edge.edge_fresh (cfg : Env) (hW : 0 < cfg.windowWidth) : Edge cfg (Page.fresh cfg) := by
  constructor
  · simpa [Page.fresh] using hW
  · intro i hi
    simp [Page.fresh] at hi

theorem Edge.edge_finishCurrentWidget {cfg : Env} {p : Page} (hi : Idx p) (h : Edge cfg p) :
    Edge cfg (FinishCurrentWidget p) := by
  constructor
  · rw [FinishCurrentWidget_cursorX]
    split
    · exact h.cursorX_lt
    · next i hc =>
      have := h.open_edge i hc
      have := hi.open_x i hc
      omega
  · intro i hc
    simp at hc

theorem Edge.edge_finishCurrentLine {cfg : Env} (hW : 0 < cfg.windowWidth) (p : Page) :
    Edge cfg (FinishCurrentLine cfg p) := by
  constructor
  · simpa using hW
  · intro i hc
    simp at hc

theorem Edge.edge_createWidget {cfg : Env} {p : Page} (hi : Idx p) (h : Edge cfg p) :
    Edge cfg (CreateWidget cfg p).1 := by
  have hq := h.edge_finishCurrentWidget hi
  have hqi := hi.idx_finishCurrentWidget
  by_cases hcap : p.widgets.length < cfg.maxPageWidgets
  · rw [CreateWidget_ok cfg p hcap]
    have hx := newWidget_x_of_need_false cfg (FinishCurrentWidget p) hqi.need
    constructor
    · simp only [hx]
      exact hq.cursorX_lt
    · intro i hc
      simp only [Option.some.injEq] at hc
      subst hc
      have := wAt_append_right (FinishCurrentWidget p).widgets
        (newWidget cfg (FinishCurrentWidget p))
      rw [FinishCurrentWidget_length] at this
      simp only [this, hx, newWidget_width]
      have := hq.cursorX_lt
      omega
  · rw [CreateWidget_fail cfg p hcap]
    exact hq

theorem Edge.edge_pushStyle {cfg : Env} {p : Page} (hi : Idx p) (h : Edge cfg p)
    (style : WidgetStyle) : Edge cfg (PushStyle cfg p style) := by
  unfold PushStyle
  split
  · apply Edge.edge_finishCurrentWidget
    · exact ⟨hi.need, hi.cursorX_nonneg, hi.pending_nonneg, hi.pending_zero, hi.open_last,
        hi.open_line, hi.line_lt, hi.open_x, hi.width_nonneg, hi.height_nonneg⟩
    · exact ⟨h.cursorX_lt, h.open_edge⟩
  · exact h

theorem Edge.edge_popStyle {cfg : Env} {p : Page} (hi : Idx p) (h : Edge cfg p) :
    Edge cfg (PopStyle p) := by
  unfold PopStyle
  split
  · apply Edge.edge_finishCurrentWidget
    · exact ⟨hi.need, hi.cursorX_nonneg, hi.pending_nonneg, hi.pending_zero, hi.open_last,
        hi.open_line, hi.line_lt, hi.open_x, hi.width_nonneg, hi.height_nonneg⟩
    · exact ⟨h.cursorX_lt, h.open_edge⟩
  · exact h.edge_finishCurrentWidget hi

theorem Edge.edge_breakLine {cfg : Env} (hW : 0 < cfg.windowWidth) (p : Page) (padding : Int) :
    Edge cfg (BreakLine cfg p padding) := by
  have hq := Edge.edge_finishCurrentLine hW p
  unfold BreakLine
  dsimp only
  split
  · exact ⟨hq.cursorX_lt, hq.open_edge⟩
  · exact hq

theorem Edge.edge_of_addWidth {cfg : Env} {p : Page} (h : Edge cfg p) (cur : Nat) (a : Int)
    (buf : List Int) (hcur : p.currentWidgetIndex = some cur)
    (hfit : (wAt p.widgets cur).x + (wAt p.widgets cur).width + a < cfg.windowWidth) :
    Edge cfg (addWidth p cur a buf) := by
  constructor
  · exact h.cursorX_lt
  · intro i hc
    simp only [addWidth_current, hcur, Option.some.injEq] at hc
    subst hc
    rw [addWidth_wAt_x, addWidth_wAt_width]
    have := h.open_edge cur hcur
    split <;> omega

theorem Edge.edge_of_relocate {cfg : Env} (hW : 0 < cfg.windowWidth) {p : Page} (hi : Idx p)
    (cur : Nat) (hcur : p.currentWidgetIndex = some cur)
    (hw : (wAt p.widgets cur).width = 0) : Edge cfg (relocate cfg p cur) := by
  have hlen : cur + 1 = p.widgets.length := hi.open_last cur hcur
  constructor
  · simpa using hW
  · intro i hc
    simp only [relocate_current, hcur, Option.some.injEq] at hc
    subst hc
    rw [relocate_wAt]
    have : cur < p.widgets.length := by omega
    simp only [this, and_self, ↓reduceIte, FinishCurrentLine_wAt_width, hw]
    omega

theorem Edge.edge_withURL {cfg : Env} {p : Page} (h : Edge cfg p) (url : Option (List Int)) :
    Edge cfg { p with widgetURL := url } :=
  ⟨h.cursorX_lt, h.open_edge⟩

theorem ScanInv.scanInv_init {cfg : Env} {p : Page} (hi : Idx p) (he : Edge cfg p) (cur : Nat)
    (hcur : p.currentWidgetIndex = some cur) : ScanInv cfg (scanInit p cur) := by
  refine ⟨hi, he, hcur, le_refl 0, ?_⟩
  have := he.open_edge cur hcur
  simp only [scanInit]
  omega

/-- After `FinishCurrentLine`, a successful `CreateWidget` leaves an empty open widget at the
left edge; a pending width that fitted before still fits. -/
theorem ScanInv.scanInv_newLine {cfg : Env} (hW : 0 < cfg.windowWidth) {q : Page} (hi : Idx q)
    (p' : Page) (cur st idx : Nat) (a' : Int)
    (hc : CreateWidget cfg (FinishCurrentLine cfg q) = (p', some cur))
    (ha : 0 ≤ a') (haW : a' < cfg.windowWidth) :
    ScanInv cfg { page := p', current := cur, addedWidth := a', startIndex := st,
                  index := idx } := by
  have hi' := (hi.idx_finishCurrentLine cfg).idx_createWidget cfg
  have he' := Edge.edge_createWidget (hi.idx_finishCurrentLine cfg) (Edge.edge_finishCurrentLine hW q)
  rw [hc] at hi' he'
  by_cases hcap : q.widgets.length < cfg.maxPageWidgets
  · obtain ⟨p'', hc', hws, hx, hcur, -⟩ := CreateWidget_FinishCurrentLine_ok cfg q hcap
    rw [hc] at hc'
    cases hc'
    refine ⟨hi', he', hcur, ha, ?_⟩
    simp only [hws]
    have := wAt_append_right (FinishCurrentLine cfg q).widgets
      (newWidget cfg (FinishCurrentLine cfg q))
    rw [FinishCurrentLine_length] at this
    rw [this, hx, newWidget_width]
    omega
  · rw [CreateWidget_FinishCurrentLine_fail cfg q hcap] at hc
    cases hc

theorem ScanInv.scanInv_step {cfg : Env} (hW : 0 < cfg.windowWidth) (fs : Nat) (text : List Int)
    (s s' : Scan) (c : Int) (h : ScanInv cfg s)
    (hb : scanBody cfg fs text s c = .next s') : ScanInv cfg s' := by
  have hx0 : 0 ≤ (wAt s.page.widgets s.current).x := by
    rw [h.idx.open_x _ h.cur]
    exact h.idx.cursorX_nonneg
  have hw0 := h.idx.width_nonneg s.current
  have hcl : s.current < s.page.widgets.length := by
    have := h.idx.open_last _ h.cur
    omega
  rcases scanBody_cases cfg fs s c with hskip | ⟨h32, h128, hfit | hfit⟩
  · rw [scanBody_skip _ _ _ _ _ hskip] at hb
    cases hb
    exact ⟨h.idx, h.edge, h.cur, h.added_nonneg, h.fits⟩
  · have hadv := advance_nonneg cfg fs (wAt s.page.widgets s.current).style c
    by_cases hsp : c = 32
    · subst hsp
      rw [scanBody_fit_space _ _ _ _ hfit] at hb
      cases hb
      refine ⟨h.idx.idx_of_addWidth _ _ _ (by have := h.added_nonneg; omega),
        h.edge.edge_of_addWidth _ _ _ h.cur (by omega), h.cur, le_refl 0, ?_⟩
      simp only [addWidth_wAt_x, addWidth_wAt_width, hcl, and_self, ↓reduceIte]
      omega
    · rw [scanBody_fit_char _ _ _ _ _ ⟨h32, h128⟩ hsp hfit] at hb
      cases hb
      refine ⟨h.idx, h.edge, h.cur, ?_, ?_⟩
      · have := h.added_nonneg
        simp only
        omega
      · simp only
        omega
  · by_cases hw : (wAt s.page.widgets s.current).width = 0
    · by_cases hx : (wAt s.page.widgets s.current).x = 0
      · rw [scanBody_hardBreak _ _ _ _ _ ⟨h32, h128⟩ hfit hw hx] at hb
        split at hb
        · cases hb
        · next p' cur' hc =>
          cases hb
          exact ScanInv.scanInv_newLine hW (h.idx.idx_of_addWidth _ _ _ h.added_nonneg) p' cur' _ _ 0 hc
            (le_refl 0) hW
      · rw [scanBody_relocate _ _ _ _ _ ⟨h32, h128⟩ hfit hw hx] at hb
        cases hb
        refine ⟨h.idx.idx_of_relocate cfg _ h.cur, Edge.edge_of_relocate hW h.idx _ h.cur hw, h.cur,
          h.added_nonneg, ?_⟩
        simp only [relocate_wAt, hcl, and_self, ↓reduceIte, FinishCurrentLine_wAt_width, hw]
        have := h.fits
        omega
    · rw [scanBody_wrap _ _ _ _ _ ⟨h32, h128⟩ hfit hw] at hb
      split at hb
      · cases hb
      · next p' cur' hc =>
        cases hb
        have := h.fits
        exact ScanInv.scanInv_newLine hW h.idx p' cur' _ _ _ hc h.added_nonneg (by omega)

theorem ScanInv.scanInv_ret {cfg : Env} (hW : 0 < cfg.windowWidth) (fs : Nat) (text : List Int)
    (s : Scan) (p : Page) (c : Int) (h : ScanInv cfg s)
    (hb : scanBody cfg fs text s c = .ret p) : Idx p ∧ Edge cfg p := by
  rcases scanBody_cases cfg fs s c with hskip | ⟨h32, h128, hfit | hfit⟩
  · rw [scanBody_skip _ _ _ _ _ hskip] at hb
    cases hb
  · by_cases hsp : c = 32
    · subst hsp
      rw [scanBody_fit_space _ _ _ _ hfit] at hb
      cases hb
    · rw [scanBody_fit_char _ _ _ _ _ ⟨h32, h128⟩ hsp hfit] at hb
      cases hb
  · by_cases hw : (wAt s.page.widgets s.current).width = 0
    · by_cases hx : (wAt s.page.widgets s.current).x = 0
      · rw [scanBody_hardBreak _ _ _ _ _ ⟨h32, h128⟩ hfit hw hx] at hb
        have hi := ((h.idx.idx_of_addWidth s.current s.addedWidth (copyChars cfg s.page.textBuffer
          ((text.drop s.startIndex).take (s.index - s.startIndex)))
          h.added_nonneg).idx_finishCurrentLine cfg)
        have hi' := hi.idx_createWidget cfg
        have he' := Edge.edge_createWidget hi (Edge.edge_finishCurrentLine hW _)
        split at hb
        · next p' hc =>
          cases hb
          rw [hc] at hi' he'
          exact ⟨hi', he'⟩
        · cases hb
      · rw [scanBody_relocate _ _ _ _ _ ⟨h32, h128⟩ hfit hw hx] at hb
        cases hb
    · rw [scanBody_wrap _ _ _ _ _ ⟨h32, h128⟩ hfit hw] at hb
      have hi := h.idx.idx_finishCurrentLine cfg
      have hi' := hi.idx_createWidget cfg
      have he' := Edge.edge_createWidget hi (Edge.edge_finishCurrentLine hW _)
      split at hb
      · next p' hc =>
        cases hb
        rw [hc] at hi' he'
        exact ⟨hi', he'⟩
      · cases hb

theorem ScanInv.scanInv_flush {cfg : Env} (text : List Int) (s : Scan) (h : ScanInv cfg s) :
    Idx (scanFlush cfg text s) ∧ Edge cfg (scanFlush cfg text s) := by
  unfold scanFlush
  split
  · exact ⟨h.idx.idx_of_addWidth _ _ _ h.added_nonneg,
      h.edge.edge_of_addWidth _ _ _ h.cur h.fits⟩
  · exact ⟨h.idx, h.edge⟩

/-! ## `AppendText` as a whole -/

theorem AppendText_eq (cfg : Env) (p : Page) (text : List Int) :
    AppendText cfg p text =
      match (appendEntry cfg p).currentWidgetIndex with
      | none => some (appendEntry cfg p)
      | some current =>
        match scanLoop cfg (wAt (appendEntry cfg p).widgets current).style.fontSize text
            (scanFuel cfg (appendEntry cfg p) text) (scanInit (appendEntry cfg p) current) with
        | none => none
        | some (.ret p') => some p'
        | some (.next s) => some (scanFlush cfg text s) := rfl

theorem appendEntry_current_lt (cfg : Env) (p : Page)
    (h : ∀ i, p.currentWidgetIndex = some i → i < p.widgets.length) :
    ∀ i, (appendEntry cfg p).currentWidgetIndex = some i →
      i < (appendEntry cfg p).widgets.length := by
  intro i hi
  unfold appendEntry at hi ⊢
  split at hi
  · next hnone =>
    simp only [hnone, ↓reduceIte]
    by_cases hcap : p.widgets.length < cfg.maxPageWidgets
    · rw [CreateWidget_ok cfg p hcap] at hi ⊢
      simp only [Option.some.injEq] at hi
      subst hi
      simp
    · rw [CreateWidget_fail cfg p hcap] at hi
      simp at hi
  · next hsome =>
    simp only [hsome, ↓reduceIte]
    exact h i hi

theorem scanMeasure_init_lt (cfg : Env) (p : Page) (text : List Int) (cur : Nat) :
    scanMeasure cfg text (scanInit p cur) < scanFuel cfg p text := by
  unfold scanMeasure scanFuel scanInit Page.numWidgets
  simp only
  split <;> omega

/-- `AppendText` returns on every page whose open-widget index, if set, is valid. -/
theorem AppendText_total (cfg : Env) (p : Page) (text : List Int)
    (h : ∀ i, p.currentWidgetIndex = some i → i < p.widgets.length) :
    ∃ p', AppendText cfg p text = some p' := by
  rw [AppendText_eq]
  cases hc : (appendEntry cfg p).currentWidgetIndex with
  | none => exact ⟨_, rfl⟩
  | some cur =>
    have hlt := appendEntry_current_lt cfg p h cur hc
    obtain ⟨r, hr⟩ := scanLoop_total cfg (wAt (appendEntry cfg p).widgets cur).style.fontSize
      text (scanFuel cfg (appendEntry cfg p) text) (scanInit (appendEntry cfg p) cur) hlt
      (scanMeasure_init_lt cfg _ text cur)
    simp only [hr]
    cases r with
    | next s => exact ⟨_, rfl⟩
    | ret p' => exact ⟨_, rfl⟩

/-- Proof rule for `AppendText`: an invariant of the loop body that holds on entry gives a
property of the page returned. -/
theorem AppendText_rule (cfg : Env) (p p' : Page) (text : List Int) (I : Scan → Prop)
    (R : Page → Prop)
    (hnone : (appendEntry cfg p).currentWidgetIndex = none → R (appendEntry cfg p))
    (hinit : ∀ cur, (appendEntry cfg p).currentWidgetIndex = some cur →
      I (scanInit (appendEntry cfg p) cur))
    (hnext : ∀ fs s c s', I s → text[s.index]? = some c →
      scanBody cfg fs text s c = .next s' → I s')
    (hret : ∀ fs s c q, I s → text[s.index]? = some c →
      scanBody cfg fs text s c = .ret q → R q)
    (hflush : ∀ s, I s → R (scanFlush cfg text s))
    (h : AppendText cfg p text = some p') : R p' := by
  rw [AppendText_eq] at h
  cases hc : (appendEntry cfg p).currentWidgetIndex with
  | none =>
    simp only [hc] at h
    cases h
    exact hnone hc
  | some cur =>
    simp only [hc] at h
    have hinv := scanLoop_invariant cfg (wAt (appendEntry cfg p).widgets cur).style.fontSize
      text I R (hnext _) (hret _) (scanFuel cfg (appendEntry cfg p) text)
      (scanInit (appendEntry cfg p) cur) (hinit cur hc)
    cases hr : scanLoop cfg (wAt (appendEntry cfg p).widgets cur).style.fontSize text
        (scanFuel cfg (appendEntry cfg p) text) (scanInit (appendEntry cfg p) cur) with
    | none => simp [hr] at h
    | some r =>
      cases r with
      | next s =>
        simp only [hr, Option.some.injEq] at h
        subst h
        exact hflush s (hinv.1 s hr).1
      | ret q =>
        simp only [hr, Option.some.injEq] at h
        subst h
        exact hinv.2 q hr

theorem Idx.idx_appendEntry (cfg : Env) {p : Page} (h : Idx p) : Idx (appendEntry cfg p) := by
  unfold appendEntry
  split
  · exact h.idx_createWidget cfg
  · exact h

theorem Edge.edge_appendEntry {cfg : Env} {p : Page} (hi : Idx p) (h : Edge cfg p) :
    Edge cfg (appendEntry cfg p) := by
  unfold appendEntry
  split
  · exact h.edge_createWidget hi
  · exact h

theorem Idx.idx_current_lt {p : Page} (h : Idx p) :
    ∀ i, p.currentWidgetIndex = some i → i < p.widgets.length := by
  intro i hi
  have := h.open_last i hi
  omega

theorem AppendText_idx_edge {cfg : Env} (hW : 0 < cfg.windowWidth) {p p' : Page}
    (text : List Int) (hi : Idx p) (he : Edge cfg p) (h : AppendText cfg p text = some p') :
    Idx p' ∧ Edge cfg p' := by
  refine AppendText_rule cfg p p' text (ScanInv cfg) (fun q => Idx q ∧ Edge cfg q) ?_ ?_ ?_ ?_ ?_ h
  · intro _
    exact ⟨hi.idx_appendEntry cfg, he.edge_appendEntry hi⟩
  · intro cur hc
    exact ScanInv.scanInv_init (hi.idx_appendEntry cfg) (he.edge_appendEntry hi) cur hc
  · intro fs s c s' hI _ hb
    exact ScanInv.scanInv_step hW fs text s s' c hI hb
  · intro fs s c q hI _ hb
    exact ScanInv.scanInv_ret hW fs text s q c hI hb
  · intro s hI
    exact ScanInv.scanInv_flush text s hI

theorem applyOp_idx_edge {cfg : Env} (hW : 0 < cfg.windowWidth) {p : Page} (op : Op)
    (hi : Idx p) (he : Edge cfg p) :
    ∃ p', applyOp cfg p op = some p' ∧ Idx p' ∧ Edge cfg p' := by
  cases op with
  | pushStyle style => exact ⟨_, rfl, hi.idx_pushStyle cfg style, he.edge_pushStyle hi style⟩
  | popStyle => exact ⟨_, rfl, hi.idx_popStyle, he.edge_popStyle hi⟩
  | appendText text =>
    obtain ⟨p', hp'⟩ := AppendText_total cfg p text hi.idx_current_lt
    exact ⟨p', hp', AppendText_idx_edge hW text hi he hp'⟩
  | breakLine padding =>
    exact ⟨_, rfl, hi.idx_breakLine cfg padding, Edge.edge_breakLine hW p padding⟩
  | setWidgetURL url => exact ⟨_, rfl, hi.idx_withURL _, he.edge_withURL _⟩
  | clearWidgetURL => exact ⟨_, rfl, hi.idx_withURL _, he.edge_withURL _⟩

theorem runOps_idx_edge {cfg : Env} (hW : 0 < cfg.windowWidth) (ops : List Op) :
    ∀ p : Page, Idx p → Edge cfg p →
      ∃ p', runOps cfg p ops = some p' ∧ Idx p' ∧ Edge cfg p' := by
  induction ops with
  | nil => intro p hi he; exact ⟨p, rfl, hi, he⟩
  | cons op ops ih =>
    intro p hi he
    obtain ⟨q, hq, hqi, hqe⟩ := applyOp_idx_edge hW op hi he
    obtain ⟨p', hp', h'⟩ := ih q hqi hqe
    exact ⟨p', by simp [runOps, hq, hp'], h'⟩

theorem scanSteps_inv {cfg : Env} (hW : 0 < cfg.windowWidth) (fs : Nat) (text : List Int) :
    ∀ (k : Nat) (s0 s : Scan), ScanInv cfg s0 → scanSteps cfg fs text k s0 = some s →
      ScanInv cfg s := by
  intro k
  induction k with
  | zero =>
    intro s0 s h0 hs
    simp only [scanSteps, Option.some.injEq] at hs
    subst hs
    exact h0
  | succ k ih =>
    intro s0 s h0 hs
    unfold scanSteps at hs
    cases hget : text[s0.index]? with
    | none => simp [hget] at hs
    | some c =>
      simp only [hget] at hs
      cases hb : scanBody cfg fs text s0 c with
      | next s1 =>
        simp only [hb] at hs
        exact ih s1 s (ScanInv.scanInv_step hW fs text s0 s1 c h0 hb) hs
      | ret q => simp [hb] at hs

/-! ## The layout invariant -/

theorem FinishCurrentLine_wAt_y (cfg : Env) (p : Page) (j : Nat) (hj : j < p.widgets.length) :
    (wAt (FinishCurrentLine cfg p).widgets j).y =
      if lineBase p ≤ j then
        (wAt p.widgets j).y + (lineHeightOf (FinishCurrentWidget p) - (wAt p.widgets j).height)
      else (wAt p.widgets j).y := by
  rw [FinishCurrentLine_wAt cfg p j hj]
  unfold lineBase
  cases hl : p.currentLineStartWidgetIndex with
  | none =>
    have : ¬ p.widgets.length ≤ j := by omega
    simp [this]
  | some s =>
    simp only
    by_cases hjs : j < s
    · have : ¬ s ≤ j := by omega
      simp [hjs, this]
    · have : s ≤ j := by omega
      simp [hjs, this, alignWidget]

theorem FinishCurrentLine_wAt_x_of_not_center (cfg : Env) (p : Page) (j : Nat)
    (h : (wAt p.widgets j).style.center = false) :
    (wAt (FinishCurrentLine cfg p).widgets j).x = (wAt p.widgets j).x := by
  by_cases hj : j < p.widgets.length
  · rw [FinishCurrentLine_wAt cfg p j hj]
    split
    · simp
    · split
      · simp
      · simp [alignWidget, h]
  · rw [wAt_of_le _ _ (by simp; omega), wAt_of_le _ _ (by omega)]

theorem lineHeightOf_ge (p : Page) (j : Nat) (hb : lineBase p ≤ j) (hj : j < p.widgets.length) :
    (wAt p.widgets j).height ≤ lineHeightOf (FinishCurrentWidget p) := by
  unfold lineBase at hb
  unfold lineHeightOf
  rw [FinishCurrentWidget_lineStart]
  cases hl : p.currentLineStartWidgetIndex with
  | none =>
    rw [hl] at hb
    simp only at hb
    omega
  | some s =>
    rw [hl] at hb
    simp only at hb ⊢
    have := (lineHeight_spec (FinishCurrentWidget p).widgets s).1 j hb (by simpa using hj)
    simpa using this

theorem lineBase_finishCurrentWidget (p : Page) :
    lineBase (FinishCurrentWidget p) = lineBase p := by
  simp [lineBase]

theorem lineBase_finishCurrentLine (cfg : Env) (p : Page) :
    lineBase (FinishCurrentLine cfg p) = p.widgets.length := by
  simp [lineBase]

theorem lineBase_le_length {p : Page} (h : Idx p) : lineBase p ≤ p.widgets.length := by
  unfold lineBase
  split
  · exact le_refl _
  · next s hs =>
    have := h.line_lt s hs
    omega

theorem default_style_center : (default : WidgetStyle).center = false := rfl

theorem GetStyleStackTop_not_center (p : Page) (h : ∀ st ∈ p.styleStack, st.center = false) :
    (GetStyleStackTop p).center = false := by
  unfold GetStyleStackTop
  cases hl : p.styleStack.getLast? with
  | none => rfl
  | some st =>
    simp only [Option.getD_some]
    exact h st (List.mem_of_getLast?_eq_some hl)

theorem Lay.lay_fresh (cfg : Env) : Lay (Page.fresh cfg) := by
  constructor
  · intro j
    simp [Page.fresh, wAt, default_style_center]
    rfl
  · intro st hst
    simp only [Page.fresh, List.mem_singleton] at hst
    subst hst
    rfl
  · intro j hj
    simp [lineBase, Page.fresh] at hj
  · intro i j _ hj
    simp [lineBase, Page.fresh] at hj
  · intro j _ hj
    simp [Page.fresh] at hj
  · intro i j _ _ hj
    simp [Page.fresh] at hj
  · intro j _ hj
    simp [Page.fresh] at hj

theorem Lay.lay_finishCurrentWidget {p : Page} (hi : Idx p) (h : Lay p) :
    Lay (FinishCurrentWidget p) := by
  constructor
  · simpa using h.widget_not_center
  · simpa using h.stack_not_center
  · simpa [lineBase_finishCurrentWidget] using h.old_above
  · simpa [lineBase_finishCurrentWidget] using h.old_sep
  · simpa [lineBase_finishCurrentWidget] using h.line_y
  · simpa [lineBase_finishCurrentWidget] using h.line_order
  · intro j hb hj _
    rw [lineBase_finishCurrentWidget] at hb
    rw [FinishCurrentWidget_length] at hj
    rw [FinishCurrentWidget_cursorX]
    simp only [FinishCurrentWidget_wAt_x, FinishCurrentWidget_wAt_width]
    cases hc : p.currentWidgetIndex with
    | none =>
      simp only
      exact h.line_cursor j hb hj (by simp [hc])
    | some i =>
      simp only
      have hw := hi.width_nonneg i
      by_cases hij : i = j
      · subst hij
        have := hi.open_x i hc
        omega
      · have := h.line_cursor j hb hj (by simp [hc, hij])
        omega

theorem Lay.lay_finishCurrentLine (cfg : Env) {p : Page} (h : Lay p) :
    Lay (FinishCurrentLine cfg p) := by
  have hlh := lineHeightOf_nonneg (FinishCurrentWidget p)
  have hx : ∀ j, (wAt (FinishCurrentLine cfg p).widgets j).x = (wAt p.widgets j).x :=
    fun j => FinishCurrentLine_wAt_x_of_not_center cfg p j (h.widget_not_center j)
  constructor
  · intro j
    rw [FinishCurrentLine_wAt_style]
    exact h.widget_not_center j
  · simpa using h.stack_not_center
  · intro j hj
    rw [lineBase_finishCurrentLine] at hj
    rw [FinishCurrentLine_wAt_y cfg p j hj, FinishCurrentLine_wAt_height,
      FinishCurrentLine_cursorY]
    split
    · next hb =>
      have := h.line_y j hb hj
      omega
    · next hb =>
      have := h.old_above j (by omega)
      omega
  · intro i j hij hj
    rw [lineBase_finishCurrentLine] at hj
    have hi' : i < p.widgets.length := by omega
    rw [hx, hx, FinishCurrentLine_wAt_width, FinishCurrentLine_wAt_height,
      FinishCurrentLine_wAt_y cfg p i hi', FinishCurrentLine_wAt_y cfg p j hj]
    by_cases hbj : lineBase p ≤ j
    · by_cases hbi : lineBase p ≤ i
      · left
        exact h.line_order i j hbi hij hj
      · right
        have h1 := h.old_above i (by omega)
        have h2 := h.line_y j hbj hj
        have h3 := lineHeightOf_ge p j hbj hj
        simp only [hbi, hbj, ↓reduceIte]
        omega
    · have hbi : ¬ lineBase p ≤ i := by omega
      simp only [hbi, hbj, ↓reduceIte]
      exact h.old_sep i j hij (by omega)
  · intro j hb hj
    rw [lineBase_finishCurrentLine] at hb
    simp only [FinishCurrentLine_length] at hj
    omega
  · intro i j hb _ hj
    rw [lineBase_finishCurrentLine] at hb
    simp only [FinishCurrentLine_length] at hj
    omega
  · intro j hb hj
    rw [lineBase_finishCurrentLine] at hb
    simp only [FinishCurrentLine_length] at hj
    omega

theorem Lay.lay_createWidget (cfg : Env) {p : Page} (hi : Idx p) (h : Lay p) :
    Lay (CreateWidget cfg p).1 := by
  have hq := h.lay_finishCurrentWidget hi
  have hqi := hi.idx_finishCurrentWidget
  by_cases hcap : p.widgets.length < cfg.maxPageWidgets
  · rw [CreateWidget_ok cfg p hcap]
    have hx := newWidget_x_of_need_false cfg (FinishCurrentWidget p) hqi.need
    have hlen : (FinishCurrentWidget p).widgets.length = p.widgets.length :=
      FinishCurrentWidget_length p
    have hbase : lineBase p ≤ p.widgets.length := lineBase_le_length hi
    have hbq : lineBase (FinishCurrentWidget p) = lineBase p := lineBase_finishCurrentWidget p
    have hbase' : lineBase
        { FinishCurrentWidget p with
          currentWidgetIndex := some p.widgets.length
          widgets := (FinishCurrentWidget p).widgets ++ [newWidget cfg (FinishCurrentWidget p)]
          needLeadingWhiteSpace := false
          cursorX := (newWidget cfg (FinishCurrentWidget p)).x
          cursorY := (FinishCurrentWidget p).cursorY + p.pendingVerticalPadding
          pendingVerticalPadding := 0
          currentLineStartWidgetIndex :=
            if p.currentLineStartWidgetIndex = none then some p.widgets.length
            else p.currentLineStartWidgetIndex } = lineBase p := by
      unfold lineBase
      cases hl : p.currentLineStartWidgetIndex <;> simp
    have hpend : lineBase p < p.widgets.length → p.pendingVerticalPadding = 0 := by
      intro hlt
      unfold lineBase at hlt
      cases hl : p.currentLineStartWidgetIndex with
      | none => simp [hl] at hlt
      | some s => exact hi.pending_zero s hl
    have hpn := hi.pending_nonneg
    constructor
    · intro j
      simp only [wAt_append]
      split
      · exact hq.widget_not_center j
      · split
        · exact GetStyleStackTop_not_center _ hq.stack_not_center
        · rfl
    · exact hq.stack_not_center
    · intro j hj
      rw [hbase'] at hj
      simp only [wAt_append, hlen]
      have hjl : j < p.widgets.length := by omega
      simp only [hjl, ↓reduceIte, FinishCurrentWidget_cursorY]
      have := hq.old_above j (by rw [hbq]; exact hj)
      simp only [FinishCurrentWidget_cursorY] at this
      omega
    · intro i j hij hj
      rw [hbase'] at hj
      simp only [wAt_append, hlen]
      have hjl : j < p.widgets.length := by omega
      have hil : i < p.widgets.length := by omega
      simp only [hjl, hil, ↓reduceIte]
      exact hq.old_sep i j hij (by rw [hbq]; exact hj)
    · intro j hb hj
      rw [hbase'] at hb
      simp only [List.length_append, List.length_singleton, hlen] at hj
      simp only [wAt_append, hlen, FinishCurrentWidget_cursorY]
      by_cases hjl : j < p.widgets.length
      · simp only [hjl, ↓reduceIte]
        have := hq.line_y j (by rw [hbq]; exact hb) (by rw [hlen]; exact hjl)
        simp only [FinishCurrentWidget_cursorY] at this
        have := hpend (by omega)
        omega
      · have hje : j = p.widgets.length := by omega
        subst hje
        simp only [lt_self_iff_false, ↓reduceIte, newWidget_y, FinishCurrentWidget_cursorY,
          FinishCurrentWidget_pending]
    · intro i j hb hij hj
      rw [hbase'] at hb
      simp only [List.length_append, List.length_singleton, hlen] at hj
      simp only [wAt_append, hlen]
      have hil : i < p.widgets.length := by omega
      by_cases hjl : j < p.widgets.length
      · simp only [hjl, hil, ↓reduceIte]
        exact hq.line_order i j (by rw [hbq]; exact hb) hij (by rw [hlen]; exact hjl)
      · have hje : j = p.widgets.length := by omega
        subst hje
        simp only [hil, lt_self_iff_false, ↓reduceIte, hx]
        exact hq.line_cursor i (by rw [hbq]; exact hb) (by rw [hlen]; exact hil) (by simp)
    · intro j hb hj hne
      rw [hbase'] at hb
      simp only [List.length_append, List.length_singleton, hlen] at hj
      simp only [ne_eq, Option.some.injEq] at hne
      have hjl : j < p.widgets.length := by omega
      simp only [wAt_append, hlen, hjl, ↓reduceIte, hx]
      exact hq.line_cursor j (by rw [hbq]; exact hb) (by rw [hlen]; exact hjl) (by simp)
  · rw [CreateWidget_fail cfg p hcap]
    exact hq

theorem Lay.lay_pushStyle (cfg : Env) {p : Page} (hi : Idx p) (h : Lay p) (style : WidgetStyle)
    (hs : style.center = false) : Lay (PushStyle cfg p style) := by
  unfold PushStyle
  split
  · apply Lay.lay_finishCurrentWidget
    · exact ⟨hi.need, hi.cursorX_nonneg, hi.pending_nonneg, hi.pending_zero, hi.open_last,
        hi.open_line, hi.line_lt, hi.open_x, hi.width_nonneg, hi.height_nonneg⟩
    · refine ⟨h.widget_not_center, ?_, h.old_above, h.old_sep, h.line_y, h.line_order,
        h.line_cursor⟩
      intro st hst
      simp only [List.mem_append, List.mem_singleton] at hst
      rcases hst with hst | rfl
      · exact h.stack_not_center st hst
      · exact hs
  · exact h

theorem Lay.lay_popStyle {p : Page} (hi : Idx p) (h : Lay p) : Lay (PopStyle p) := by
  unfold PopStyle
  split
  · apply Lay.lay_finishCurrentWidget
    · exact ⟨hi.need, hi.cursorX_nonneg, hi.pending_nonneg, hi.pending_zero, hi.open_last,
        hi.open_line, hi.line_lt, hi.open_x, hi.width_nonneg, hi.height_nonneg⟩
    · refine ⟨h.widget_not_center, ?_, h.old_above, h.old_sep, h.line_y, h.line_order,
        h.line_cursor⟩
      intro st hst
      exact h.stack_not_center st (List.mem_of_mem_dropLast hst)
  · exact h.lay_finishCurrentWidget hi

theorem Lay.lay_breakLine (cfg : Env) {p : Page} (h : Lay p) (padding : Int) :
    Lay (BreakLine cfg p padding) := by
  have hq := h.lay_finishCurrentLine cfg
  unfold BreakLine
  dsimp only
  split
  · exact ⟨hq.widget_not_center, hq.stack_not_center, hq.old_above, hq.old_sep, hq.line_y,
      hq.line_order, hq.line_cursor⟩
  · exact hq

theorem lineBase_addWidth (p : Page) (cur : Nat) (a : Int) (buf : List Int) :
    lineBase (addWidth p cur a buf) = lineBase p := by
  simp [lineBase]

theorem Lay.lay_of_addWidth {p : Page} (hi : Idx p) (h : Lay p) (cur : Nat) (a : Int)
    (buf : List Int) (hcur : p.currentWidgetIndex = some cur) :
    Lay (addWidth p cur a buf) := by
  have hlast := hi.open_last cur hcur
  obtain ⟨s, hs, hsc⟩ := hi.open_line cur hcur
  have hb : lineBase p ≤ cur := by
    simp only [lineBase, hs]
    exact hsc
  constructor
  · simpa using h.widget_not_center
  · exact h.stack_not_center
  · intro j hj
    rw [lineBase_addWidth] at hj
    simp only [addWidth_wAt_y, addWidth_wAt_height, addWidth_cursorY]
    exact h.old_above j hj
  · intro i j hij hj
    rw [lineBase_addWidth] at hj
    simp only [addWidth_wAt_x, addWidth_wAt_y, addWidth_wAt_height, addWidth_wAt_width]
    have hne : ¬ (cur = i ∧ i < p.widgets.length) := by omega
    simp only [hne, ↓reduceIte]
    exact h.old_sep i j hij hj
  · intro j hbj hj
    rw [lineBase_addWidth] at hbj
    simp only [addWidth_length] at hj
    simp only [addWidth_wAt_y, addWidth_cursorY]
    exact h.line_y j hbj hj
  · intro i j hbi hij hj
    rw [lineBase_addWidth] at hbi
    simp only [addWidth_length] at hj
    simp only [addWidth_wAt_x, addWidth_wAt_width]
    have hne : ¬ (cur = i ∧ i < p.widgets.length) := by omega
    simp only [hne, ↓reduceIte]
    exact h.line_order i j hbi hij hj
  · intro j hbj hj hne
    rw [lineBase_addWidth] at hbj
    simp only [addWidth_length] at hj
    simp only [addWidth_current, hcur, ne_eq, Option.some.injEq] at hne
    simp only [addWidth_wAt_x, addWidth_wAt_width, addWidth_cursorX]
    have hne' : ¬ (cur = j ∧ j < p.widgets.length) := by omega
    simp only [hne', ↓reduceIte]
    exact h.line_cursor j hbj hj (by simp [hcur, hne])

theorem Lay.lay_of_relocate (cfg : Env) {p : Page} (hi : Idx p) (h : Lay p) (cur : Nat)
    (hcur : p.currentWidgetIndex = some cur) (hw : (wAt p.widgets cur).width = 0) :
    Lay (relocate cfg p cur) := by
  have hlast := hi.open_last cur hcur
  have hx := hi.open_x cur hcur
  have hclear : Lay { p with currentWidgetIndex := none } := by
    refine ⟨h.widget_not_center, h.stack_not_center, h.old_above, h.old_sep, h.line_y,
      h.line_order, ?_⟩
    intro j hb hj _
    by_cases hjc : j = cur
    · subst hjc
      show (wAt p.widgets j).x + (wAt p.widgets j).width ≤ p.cursorX
      omega
    · exact h.line_cursor j hb hj (by simp [hcur]; omega)
  have hq := hclear.lay_finishCurrentLine cfg
  have hbq : lineBase (FinishCurrentLine cfg { p with currentWidgetIndex := none })
      = p.widgets.length := lineBase_finishCurrentLine cfg _
  have hbase : lineBase (relocate cfg p cur) = cur := by
    simp [lineBase, hcur]
  have hcl : cur < p.widgets.length := by omega
  constructor
  · intro j
    rw [relocate_wAt]
    split
    · exact hq.widget_not_center j
    · exact hq.widget_not_center j
  · simpa using h.stack_not_center
  · intro j hj
    rw [hbase] at hj
    rw [relocate_wAt, relocate_cursorY]
    have hne : ¬ (cur = j ∧ j < p.widgets.length) := by omega
    simp only [hne, ↓reduceIte]
    exact hq.old_above j (by rw [hbq]; omega)
  · intro i j hij hj
    rw [hbase] at hj
    rw [relocate_wAt, relocate_wAt]
    have hne : ¬ (cur = j ∧ j < p.widgets.length) := by omega
    have hne' : ¬ (cur = i ∧ i < p.widgets.length) := by omega
    simp only [hne, hne', ↓reduceIte]
    exact hq.old_sep i j hij (by rw [hbq]; omega)
  · intro j hb hj
    rw [hbase] at hb
    simp only [relocate_length] at hj
    have hje : cur = j := by omega
    rw [relocate_wAt, relocate_cursorY]
    simp only [hje, hj, and_self, ↓reduceIte]
  · intro i j hb hij hj
    rw [hbase] at hb
    simp only [relocate_length] at hj
    omega
  · intro j hb hj hne
    rw [hbase] at hb
    simp only [relocate_length] at hj
    simp only [relocate_current, hcur, ne_eq, Option.some.injEq] at hne
    omega

theorem Lay.lay_withURL {p : Page} (h : Lay p) (url : Option (List Int)) :
    Lay { p with widgetURL := url } :=
  ⟨h.widget_not_center, h.stack_not_center, h.old_above, h.old_sep, h.line_y, h.line_order,
    h.line_cursor⟩

theorem ScanLay.scanLay_newLine (cfg : Env) {q : Page} (hi : Idx q) (h : Lay q)
    (p' : Page) (cur st idx : Nat) (a' : Int)
    (hc : CreateWidget cfg (FinishCurrentLine cfg q) = (p', some cur)) (ha : 0 ≤ a') :
    ScanLay { page := p', current := cur, addedWidth := a', startIndex := st, index := idx } := by
  have hi' := (hi.idx_finishCurrentLine cfg).idx_createWidget cfg
  have hl' := (h.lay_finishCurrentLine cfg).lay_createWidget cfg (hi.idx_finishCurrentLine cfg)
  rw [hc] at hi' hl'
  by_cases hcap : q.widgets.length < cfg.maxPageWidgets
  · obtain ⟨p'', hc', -, -, hcur, -⟩ := CreateWidget_FinishCurrentLine_ok cfg q hcap
    rw [hc] at hc'
    cases hc'
    exact ⟨hi', hl', hcur, ha⟩
  · rw [CreateWidget_FinishCurrentLine_fail cfg q hcap] at hc
    cases hc

theorem ScanLay.scanLay_step (cfg : Env) (fs : Nat) (text : List Int)
    (s s' : Scan) (c : Int) (h : ScanLay s)
    (hb : scanBody cfg fs text s c = .next s') : ScanLay s' := by
  rcases scanBody_cases cfg fs s c with hskip | ⟨h32, h128, hfit | hfit⟩
  · rw [scanBody_skip _ _ _ _ _ hskip] at hb
    cases hb
    exact ⟨h.idx, h.lay, h.cur, h.added_nonneg⟩
  · have hadv := advance_nonneg cfg fs (wAt s.page.widgets s.current).style c
    by_cases hsp : c = 32
    · subst hsp
      rw [scanBody_fit_space _ _ _ _ hfit] at hb
      cases hb
      exact ⟨h.idx.idx_of_addWidth _ _ _ (by have := h.added_nonneg; omega),
        h.lay.lay_of_addWidth h.idx _ _ _ h.cur, h.cur, le_refl 0⟩
    · rw [scanBody_fit_char _ _ _ _ _ ⟨h32, h128⟩ hsp hfit] at hb
      cases hb
      refine ⟨h.idx, h.lay, h.cur, ?_⟩
      have := h.added_nonneg
      simp only
      omega
  · by_cases hw : (wAt s.page.widgets s.current).width = 0
    · by_cases hx : (wAt s.page.widgets s.current).x = 0
      · rw [scanBody_hardBreak _ _ _ _ _ ⟨h32, h128⟩ hfit hw hx] at hb
        split at hb
        · cases hb
        · next p' cur' hc =>
          cases hb
          exact ScanLay.scanLay_newLine cfg (h.idx.idx_of_addWidth _ _ _ h.added_nonneg)
            (h.lay.lay_of_addWidth h.idx _ _ _ h.cur) p' cur' _ _ 0 hc (le_refl 0)
      · rw [scanBody_relocate _ _ _ _ _ ⟨h32, h128⟩ hfit hw hx] at hb
        cases hb
        exact ⟨h.idx.idx_of_relocate cfg _ h.cur, h.lay.lay_of_relocate cfg h.idx _ h.cur hw, h.cur,
          h.added_nonneg⟩
    · rw [scanBody_wrap _ _ _ _ _ ⟨h32, h128⟩ hfit hw] at hb
      split at hb
      · cases hb
      · next p' cur' hc =>
        cases hb
        exact ScanLay.scanLay_newLine cfg h.idx h.lay p' cur' _ _ _ hc h.added_nonneg

theorem ScanLay.scanLay_ret (cfg : Env) (fs : Nat) (text : List Int)
    (s : Scan) (p : Page) (c : Int) (h : ScanLay s)
    (hb : scanBody cfg fs text s c = .ret p) : Idx p ∧ Lay p := by
  rcases scanBody_cases cfg fs s c with hskip | ⟨h32, h128, hfit | hfit⟩
  · rw [scanBody_skip _ _ _ _ _ hskip] at hb
    cases hb
  · by_cases hsp : c = 32
    · subst hsp
      rw [scanBody_fit_space _ _ _ _ hfit] at hb
      cases hb
    · rw [scanBody_fit_char _ _ _ _ _ ⟨h32, h128⟩ hsp hfit] at hb
      cases hb
  · by_cases hw : (wAt s.page.widgets s.current).width = 0
    · by_cases hx : (wAt s.page.widgets s.current).x = 0
      · rw [scanBody_hardBreak _ _ _ _ _ ⟨h32, h128⟩ hfit hw hx] at hb
        have hi0 := h.idx.idx_of_addWidth s.current s.addedWidth (copyChars cfg s.page.textBuffer
          ((text.drop s.startIndex).take (s.index - s.startIndex))) h.added_nonneg
        have hl0 := h.lay.lay_of_addWidth h.idx s.current s.addedWidth
          (copyChars cfg s.page.textBuffer
            ((text.drop s.startIndex).take (s.index - s.startIndex))) h.cur
        have hi' := (hi0.idx_finishCurrentLine cfg).idx_createWidget cfg
        have hl' := (hl0.lay_finishCurrentLine cfg).lay_createWidget cfg (hi0.idx_finishCurrentLine cfg)
        split at hb
        · next p' hc =>
          cases hb
          rw [hc] at hi' hl'
          exact ⟨hi', hl'⟩
        · cases hb
      · rw [scanBody_relocate _ _ _ _ _ ⟨h32, h128⟩ hfit hw hx] at hb
        cases hb
    · rw [scanBody_wrap _ _ _ _ _ ⟨h32, h128⟩ hfit hw] at hb
      have hi' := (h.idx.idx_finishCurrentLine cfg).idx_createWidget cfg
      have hl' := (h.lay.lay_finishCurrentLine cfg).lay_createWidget cfg (h.idx.idx_finishCurrentLine cfg)
      split at hb
      · next p' hc =>
        cases hb
        rw [hc] at hi' hl'
        exact ⟨hi', hl'⟩
      · cases hb

theorem ScanLay.scanLay_flush (cfg : Env) (text : List Int) (s : Scan) (h : ScanLay s) :
    Idx (scanFlush cfg text s) ∧ Lay (scanFlush cfg text s) := by
  unfold scanFlush
  split
  · exact ⟨h.idx.idx_of_addWidth _ _ _ h.added_nonneg, h.lay.lay_of_addWidth h.idx _ _ _ h.cur⟩
  · exact ⟨h.idx, h.lay⟩

theorem Lay.lay_appendEntry (cfg : Env) {p : Page} (hi : Idx p) (h : Lay p) :
    Lay (appendEntry cfg p) := by
  unfold appendEntry
  split
  · exact h.lay_createWidget cfg hi
  · exact h

theorem AppendText_idx_lay {cfg : Env} {p p' : Page} (text : List Int) (hi : Idx p)
    (hl : Lay p) (h : AppendText cfg p text = some p') : Idx p' ∧ Lay p' := by
  refine AppendText_rule cfg p p' text ScanLay (fun q => Idx q ∧ Lay q) ?_ ?_ ?_ ?_ ?_ h
  · intro _
    exact ⟨hi.idx_appendEntry cfg, hl.lay_appendEntry cfg hi⟩
  · intro cur hc
    exact ⟨hi.idx_appendEntry cfg, hl.lay_appendEntry cfg hi, hc, le_refl 0⟩
  · intro fs s c s' hI _ hb
    exact ScanLay.scanLay_step cfg fs text s s' c hI hb
  · intro fs s c q hI _ hb
    exact ScanLay.scanLay_ret cfg fs text s q c hI hb
  · intro s hI
    exact ScanLay.scanLay_flush cfg text s hI

theorem runOps_idx_lay (cfg : Env) (ops : List Op) :
    ∀ p : Page, Idx p → Lay p → (∀ op ∈ ops, op.notCenter) →
      ∃ p', runOps cfg p ops = some p' ∧ Idx p' ∧ Lay p' := by
  induction ops with
  | nil => intro p hi hl _; exact ⟨p, rfl, hi, hl⟩
  | cons op ops ih =>
    intro p hi hl hnc
    have hop := hnc op (List.mem_cons_self _ _)
    have hrest : ∀ o ∈ ops, o.notCenter := fun o ho => hnc o (List.mem_cons_of_mem _ ho)
    have hstep : ∃ q, applyOp cfg p op = some q ∧ Idx q ∧ Lay q := by
      cases op with
      | pushStyle style =>
        exact ⟨_, rfl, hi.idx_pushStyle cfg style, hl.lay_pushStyle cfg hi style hop⟩
      | popStyle => exact ⟨_, rfl, hi.idx_popStyle, hl.lay_popStyle hi⟩
      | appendText text =>
        obtain ⟨q, hq⟩ := AppendText_total cfg p text hi.idx_current_lt
        exact ⟨q, hq, AppendText_idx_lay text hi hl hq⟩
      | breakLine padding =>
        exact ⟨_, rfl, hi.idx_breakLine cfg padding, hl.lay_breakLine cfg padding⟩
      | setWidgetURL url => exact ⟨_, rfl, hi.idx_withURL _, hl.lay_withURL _⟩
      | clearWidgetURL => exact ⟨_, rfl, hi.idx_withURL _, hl.lay_withURL _⟩
    obtain ⟨q, hq, hqi, hql⟩ := hstep
    obtain ⟨p', hp', h'⟩ := ih q hqi hql hrest
    exact ⟨p', by simp [runOps, hq, hp'], h'⟩

theorem Widget.disjoint_of_sep (a b : Widget)
    (h : a.x + a.width ≤ b.x ∨ a.y + a.height ≤ b.y) : a.disjoint b := by
  intro px py hc
  unfold Widget.contains at hc
  omega

theorem Widget.disjoint_symm (a b : Widget) (h : a.disjoint b) : b.disjoint a := by
  intro px py hc
  exact h px py ⟨hc.2, hc.1⟩

/-- Under the index and layout invariants any two widgets are separated. -/
theorem Lay.lay_sep {p : Page} (h : Lay p) (i j : Nat) (hij : i < j)
    (hj : j < p.widgets.length) :
    (wAt p.widgets i).x + (wAt p.widgets i).width ≤ (wAt p.widgets j).x ∨
      (wAt p.widgets i).y + (wAt p.widgets i).height ≤ (wAt p.widgets j).y := by
  by_cases hbj : lineBase p ≤ j
  · by_cases hbi : lineBase p ≤ i
    · exact Or.inl (h.line_order i j hbi hij hj)
    · right
      have h1 := h.old_above i (by omega)
      have h2 := h.line_y j hbj hj
      omega
  · exact h.old_sep i j hij (by omega)

theorem Lay.lay_disjoint {p : Page} (h : Lay p) (i j : Nat) (hne : i ≠ j)
    (hil : i < p.widgets.length) (hjl : j < p.widgets.length) :
    (wAt p.widgets i).disjoint (wAt p.widgets j) := by
  rcases Nat.lt_or_gt_of_ne hne with hlt | hgt
  · exact Widget.disjoint_of_sep _ _ (h.lay_sep i j hlt hjl)
  · exact Widget.disjoint_symm _ _ (Widget.disjoint_of_sep _ _ (h.lay_sep j i hgt hil))

/-! ## What `AppendText` leaves alone -/

theorem FinishCurrentWidget_wAt_text_of_ne (p : Page) (i : Nat)
    (h : p.currentWidgetIndex ≠ some i) :
    (wAt (FinishCurrentWidget p).widgets i).text = (wAt p.widgets i).text := by
  rw [FinishCurrentWidget_wAt]
  simp [h]

theorem FinishCurrentLine_wAt_text_of_ne (cfg : Env) (p : Page) (i : Nat)
    (h : p.currentWidgetIndex ≠ some i) :
    (wAt (FinishCurrentLine cfg p).widgets i).text = (wAt p.widgets i).text := by
  by_cases hi : i < p.widgets.length
  · rw [FinishCurrentLine_wAt cfg p i hi]
    split
    · exact FinishCurrentWidget_wAt_text_of_ne p i h
    · split
      · exact FinishCurrentWidget_wAt_text_of_ne p i h
      · simp only [alignWidget]
        exact FinishCurrentWidget_wAt_text_of_ne p i h
  · rw [wAt_of_le _ _ (by simp; omega), wAt_of_le _ _ (by omega)]

theorem CreateWidget_wAt_of_lt (cfg : Env) (p : Page) (i : Nat) (hi : i < p.widgets.length) :
    wAt (CreateWidget cfg p).1.widgets i = wAt (FinishCurrentWidget p).widgets i := by
  by_cases hcap : p.widgets.length < cfg.maxPageWidgets
  · rw [CreateWidget_ok cfg p hcap]
    simp only
    rw [wAt_append_left _ _ _ (by simpa using hi)]
  · rw [CreateWidget_fail cfg p hcap]

theorem CreateWidget_length_le (cfg : Env) (p : Page) :
    p.widgets.length ≤ (CreateWidget cfg p).1.widgets.length := by
  by_cases hcap : p.widgets.length < cfg.maxPageWidgets
  · rw [CreateWidget_ok cfg p hcap]
    simp
  · rw [CreateWidget_fail cfg p hcap]
    simp

theorem CreateWidget_current_ne (cfg : Env) (p : Page) (i : Nat) (hi : i < p.widgets.length) :
    (CreateWidget cfg p).1.currentWidgetIndex ≠ some i := by
  by_cases hcap : p.widgets.length < cfg.maxPageWidgets
  · rw [CreateWidget_ok cfg p hcap]
    simp only [ne_eq, Option.some.injEq]
    omega
  · rw [CreateWidget_fail cfg p hcap]
    simp

theorem CreateWidget_snd (cfg : Env) (p : Page) (cur : Nat)
    (h : (CreateWidget cfg p).2 = some cur) :
    (CreateWidget cfg p).1.currentWidgetIndex = some cur := by
  by_cases hcap : p.widgets.length < cfg.maxPageWidgets
  · rw [CreateWidget_ok cfg p hcap] at h ⊢
    exact h
  · rw [CreateWidget_fail cfg p hcap] at h
    cases h

theorem KeepsText.keeps_of_addWidth {i : Nat} {t : Option (List Int)} {q : Page}
    (h : KeepsText i t q) (cur : Nat) (a : Int) (buf : List Int) :
    KeepsText i t (addWidth q cur a buf) := by
  refine ⟨by simpa using h.1, by simpa using h.2.1, ?_⟩
  rw [addWidth_wAt_text]
  exact h.2.2

theorem KeepsText.keeps_of_finishCurrentLine {i : Nat} {t : Option (List Int)} {q : Page}
    (h : KeepsText i t q) (cfg : Env) : KeepsText i t (FinishCurrentLine cfg q) := by
  refine ⟨by simpa using h.1, by simp, ?_⟩
  rw [FinishCurrentLine_wAt_text_of_ne cfg q i h.2.1]
  exact h.2.2

theorem KeepsText.keeps_of_createWidget {i : Nat} {t : Option (List Int)} {q : Page}
    (h : KeepsText i t q) (cfg : Env) : KeepsText i t (CreateWidget cfg q).1 := by
  refine ⟨lt_of_lt_of_le h.1 (CreateWidget_length_le cfg q),
    CreateWidget_current_ne cfg q i h.1, ?_⟩
  rw [CreateWidget_wAt_of_lt cfg q i h.1, FinishCurrentWidget_wAt_text_of_ne q i h.2.1]
  exact h.2.2

theorem KeepsText.keeps_of_relocate {i : Nat} {t : Option (List Int)} {q : Page}
    (h : KeepsText i t q) (cfg : Env) (cur : Nat) : KeepsText i t (relocate cfg q cur) := by
  refine ⟨by simpa using h.1, by simpa using h.2.1, ?_⟩
  have hc : ({ q with currentWidgetIndex := none } : Page).currentWidgetIndex ≠ some i := by
    simp
  have ht := FinishCurrentLine_wAt_text_of_ne cfg { q with currentWidgetIndex := none } i hc
  rw [relocate_wAt]
  split
  · simp only
    rw [ht]
    exact h.2.2
  · rw [ht]
    exact h.2.2

theorem KeepsText.keeps_step {i : Nat} {t : Option (List Int)} (cfg : Env) (fs : Nat)
    (text : List Int) (s : Scan) (c : Int) (h : KeepsText i t s.page) :
    (∀ s', scanBody cfg fs text s c = .next s' → KeepsText i t s'.page) ∧
      (∀ q, scanBody cfg fs text s c = .ret q → KeepsText i t q) := by
  rcases scanBody_cases cfg fs s c with hskip | ⟨h32, h128, hfit | hfit⟩
  · rw [scanBody_skip _ _ _ _ _ hskip]
    constructor
    · intro s' hb
      cases hb
      exact h
    · intro q hb
      cases hb
  · by_cases hsp : c = 32
    · subst hsp
      rw [scanBody_fit_space _ _ _ _ hfit]
      constructor
      · intro s' hb
        cases hb
        exact h.keeps_of_addWidth _ _ _
      · intro q hb
        cases hb
    · rw [scanBody_fit_char _ _ _ _ _ ⟨h32, h128⟩ hsp hfit]
      constructor
      · intro s' hb
        cases hb
        exact h
      · intro q hb
        cases hb
  · by_cases hw : (wAt s.page.widgets s.current).width = 0
    · by_cases hx : (wAt s.page.widgets s.current).x = 0
      · rw [scanBody_hardBreak _ _ _ _ _ ⟨h32, h128⟩ hfit hw hx]
        have hk := ((h.keeps_of_addWidth s.current s.addedWidth (copyChars cfg s.page.textBuffer
          ((text.drop s.startIndex).take (s.index - s.startIndex)))).keeps_of_finishCurrentLine
            cfg).keeps_of_createWidget cfg
        constructor
        · intro s' hb
          split at hb
          · cases hb
          · next p' cur' hc =>
            cases hb
            rw [hc] at hk
            exact hk
        · intro q hb
          split at hb
          · next p' hc =>
            cases hb
            rw [hc] at hk
            exact hk
          · cases hb
      · rw [scanBody_relocate _ _ _ _ _ ⟨h32, h128⟩ hfit hw hx]
        constructor
        · intro s' hb
          cases hb
          exact h.keeps_of_relocate cfg _
        · intro q hb
          cases hb
    · rw [scanBody_wrap _ _ _ _ _ ⟨h32, h128⟩ hfit hw]
      have hk := (h.keeps_of_finishCurrentLine cfg).keeps_of_createWidget cfg
      constructor
      · intro s' hb
        split at hb
        · cases hb
        · next p' cur' hc =>
          cases hb
          rw [hc] at hk
          exact hk
      · intro q hb
        split at hb
        · next p' hc =>
          cases hb
          rw [hc] at hk
          exact hk
        · cases hb

theorem KeepsText.keeps_flush {i : Nat} {t : Option (List Int)} (cfg : Env) (text : List Int)
    (s : Scan) (h : KeepsText i t s.page) : KeepsText i t (scanFlush cfg text s) := by
  unfold scanFlush
  split
  · exact h.keeps_of_addWidth _ _ _
  · exact h

/-- A finished widget keeps its text through `AppendText`. -/
theorem KeepsText.keeps_appendText {i : Nat} {t : Option (List Int)} {q : Page}
    (h : KeepsText i t q) (hq : q.currentWidgetIndex = none) (cfg : Env) (text : List Int) :
    ∃ q', AppendText cfg q text = some q' ∧ KeepsText i t q' := by
  obtain ⟨q', hq'⟩ := AppendText_total cfg q text (by simp [hq])
  refine ⟨q', hq', ?_⟩
  have hentry : KeepsText i t (appendEntry cfg q) := by
    unfold appendEntry
    simp only [hq, ↓reduceIte]
    exact h.keeps_of_createWidget cfg
  refine AppendText_rule cfg q q' text (fun s => KeepsText i t s.page) (KeepsText i t)
    ?_ ?_ ?_ ?_ ?_ hq'
  · intro _
    exact hentry
  · intro cur _
    exact hentry
  · intro fs s c s' hI _ hb
    exact (KeepsText.keeps_step cfg fs text s c hI).1 s' hb
  · intro fs s c r hI _ hb
    exact (KeepsText.keeps_step cfg fs text s c hI).2 r hb
  · intro s hI
    exact hI.keeps_flush cfg text s

theorem Finalized.of_finishCurrentWidget (p : Page) (i : Nat)
    (hopen : p.currentWidgetIndex = some i) (hi : i < p.widgets.length) :
    Finalized p (FinishCurrentWidget p) i := by
  refine ⟨FinishCurrentWidget_current p, ?_, ?_, ?_⟩
  · rw [FinishCurrentWidget_cursorX, hopen]
  · rw [FinishCurrentWidget_wAt]
    simp [hopen, hi]
  · simp [FinishCurrentWidget, hopen]

/-- At capacity no pass through the loop body changes the number of widgets. -/
theorem scanBody_length_at_capacity (cfg : Env) (fs : Nat) (text : List Int) (s : Scan)
    (c : Int) (hcap : ¬ s.page.widgets.length < cfg.maxPageWidgets) :
    (∀ s', scanBody cfg fs text s c = .next s' →
        s'.page.widgets.length = s.page.widgets.length) ∧
      (∀ q, scanBody cfg fs text s c = .ret q → q.widgets.length = s.page.widgets.length) := by
  rcases scanBody_cases cfg fs s c with hskip | ⟨h32, h128, hfit | hfit⟩
  · rw [scanBody_skip _ _ _ _ _ hskip]
    constructor
    · intro s' hb
      cases hb
      rfl
    · intro q hb
      cases hb
  · by_cases hsp : c = 32
    · subst hsp
      rw [scanBody_fit_space _ _ _ _ hfit]
      constructor
      · intro s' hb
        cases hb
        simp
      · intro q hb
        cases hb
    · rw [scanBody_fit_char _ _ _ _ _ ⟨h32, h128⟩ hsp hfit]
      constructor
      · intro s' hb
        cases hb
        rfl
      · intro q hb
        cases hb
  · by_cases hw : (wAt s.page.widgets s.current).width = 0
    · by_cases hx : (wAt s.page.widgets s.current).x = 0
      · rw [scanBody_hardBreak _ _ _ _ _ ⟨h32, h128⟩ hfit hw hx,
          CreateWidget_FinishCurrentLine_fail cfg _ (by simpa using hcap)]
        constructor
        · intro s' hb
          cases hb
        · intro q hb
          cases hb
          simp
      · rw [scanBody_relocate _ _ _ _ _ ⟨h32, h128⟩ hfit hw hx]
        constructor
        · intro s' hb
          cases hb
          simp
        · intro q hb
          cases hb
    · rw [scanBody_wrap _ _ _ _ _ ⟨h32, h128⟩ hfit hw,
        CreateWidget_FinishCurrentLine_fail cfg _ hcap]
      constructor
      · intro s' hb
        cases hb
      · intro q hb
        cases hb
        simp

theorem appendEntry_at_capacity (cfg : Env) (p : Page)
    (hcap : ¬ p.widgets.length < cfg.maxPageWidgets) : appendEntry cfg p = p := by
  unfold appendEntry
  split
  · next h =>
    rw [CreateWidget_fail cfg p hcap]
    exact FinishCurrentWidget_of_none p h
  · rfl

theorem scanFlush_length (cfg : Env) (text : List Int) (s : Scan) :
    (scanFlush cfg text s).widgets.length = s.page.widgets.length := by
  unfold scanFlush
  split <;> simp

/-- At capacity `AppendText` leaves the number of widgets as it is. -/
theorem AppendText_length_at_capacity (cfg : Env) (p p' : Page) (text : List Int)
    (hcap : ¬ p.widgets.length < cfg.maxPageWidgets) (h : AppendText cfg p text = some p') :
    p'.widgets.length = p.widgets.length := by
  refine AppendText_rule cfg p p' text (fun s => s.page.widgets.length = p.widgets.length)
    (fun q => q.widgets.length = p.widgets.length) ?_ ?_ ?_ ?_ ?_ h
  · intro _
    rw [appendEntry_at_capacity cfg p hcap]
  · intro cur _
    rw [appendEntry_at_capacity cfg p hcap]
    rfl
  · intro fs s c s' hI _ hb
    rw [← hI]
    exact (scanBody_length_at_capacity cfg fs text s c (by rw [hI]; exact hcap)).1 s' hb
  · intro fs s c q hI _ hb
    rw [← hI]
    exact (scanBody_length_at_capacity cfg fs text s c (by rw [hI]; exact hcap)).2 q hb
  · intro s hI
    rw [scanFlush_length]
    exact hI

theorem AppendText_closed_at_capacity (cfg : Env) (p : Page) (text : List Int)
    (hcap : ¬ p.widgets.length < cfg.maxPageWidgets) (hopen : p.currentWidgetIndex = none) :
    AppendText cfg p text = some p := by
  rw [AppendText_eq, appendEntry_at_capacity cfg p hcap, hopen]

/-! ## Runs of the scan loop, pass by pass -/

theorem scanSteps_one (cfg : Env) (fs : Nat) (text : List Int) (s s' : Scan) (c : Int)
    (h : text[s.index]? = some c) (hb : scanBody cfg fs text s c = .next s') :
    scanSteps cfg fs text 1 s = some s' := by
  simp [scanSteps, h, hb]

theorem scanSteps_succ (cfg : Env) (fs : Nat) (text : List Int) (k : Nat) (s s' : Scan)
    (c : Int) (h : text[s.index]? = some c) (hb : scanBody cfg fs text s c = .next s') :
    scanSteps cfg fs text (k + 1) s = scanSteps cfg fs text k s' := by
  simp [scanSteps, h, hb]

theorem scanSteps_trans (cfg : Env) (fs : Nat) (text : List Int) :
    ∀ (k k' : Nat) (s s' s'' : Scan), scanSteps cfg fs text k s = some s' →
      scanSteps cfg fs text k' s' = some s'' →
      scanSteps cfg fs text (k + k') s = some s'' := by
  intro k
  induction k with
  | zero =>
    intro k' s s' s'' h h'
    simp only [scanSteps, Option.some.injEq] at h
    subst h
    simpa using h'
  | succ k ih =>
    intro k' s s' s'' h h'
    unfold scanSteps at h
    cases hget : text[s.index]? with
    | none => simp [hget] at h
    | some c =>
      simp only [hget] at h
      cases hb : scanBody cfg fs text s c with
      | next s1 =>
        simp only [hb] at h
        have e : k + 1 + k' = (k + k') + 1 := by omega
        rw [e, scanSteps_succ _ _ _ _ _ _ _ hget hb]
        exact ih k' s1 s' s'' h h'
      | ret q => simp [hb] at h

theorem scanLoop_of_steps (cfg : Env) (fs : Nat) (text : List Int) :
    ∀ (k f : Nat) (s s' : Scan) (r : Flow), scanSteps cfg fs text k s = some s' →
      scanLoop cfg fs text f s' = some r → scanLoop cfg fs text (f + k) s = some r := by
  intro k
  induction k with
  | zero =>
    intro f s s' r h h'
    simp only [scanSteps, Option.some.injEq] at h
    subst h
    simpa using h'
  | succ k ih =>
    intro f s s' r h h'
    unfold scanSteps at h
    cases hget : text[s.index]? with
    | none => simp [hget] at h
    | some c =>
      simp only [hget] at h
      cases hb : scanBody cfg fs text s c with
      | next s1 =>
        simp only [hb] at h
        have e : f + (k + 1) = (f + k) + 1 := by omega
        rw [e, scanLoop_next _ _ _ _ _ _ _ hget hb]
        exact ih f s1 s' r h h'
      | ret q => simp [hb] at h

/-- When the scan loop, started on entry to `AppendText`, reaches the end of the text with
locals `s'`, `AppendText` returns the page flushed from `s'`. -/
theorem AppendText_of_steps (cfg : Env) (p : Page) (text : List Int) (cur k : Nat)
    (s' : Scan) (hcur : (appendEntry cfg p).currentWidgetIndex = some cur)
    (hlt : cur < (appendEntry cfg p).widgets.length)
    (hsteps : scanSteps cfg (wAt (appendEntry cfg p).widgets cur).style.fontSize text k
      (scanInit (appendEntry cfg p) cur) = some s')
    (hend : text[s'.index]? = none) :
    AppendText cfg p text = some (scanFlush cfg text s') := by
  have h1 := scanLoop_of_steps cfg _ text k 1 _ s' _ hsteps (scanLoop_done _ _ _ 0 s' hend)
  obtain ⟨r, hr⟩ := scanLoop_total cfg (wAt (appendEntry cfg p).widgets cur).style.fontSize
    text (scanFuel cfg (appendEntry cfg p) text) (scanInit (appendEntry cfg p) cur) hlt
    (scanMeasure_init_lt cfg _ text cur)
  have h2 := scanLoop_mono cfg _ text _ _ _ h1 (1 + k + scanFuel cfg (appendEntry cfg p) text)
    (by omega)
  have h3 := scanLoop_mono cfg _ text _ _ _ hr (1 + k + scanFuel cfg (appendEntry cfg p) text)
    (by omega)
  rw [h2] at h3
  simp only [Option.some.injEq] at h3
  subst h3
  rw [AppendText_eq, hcur]
  simp only [hr]

/-- A run of `k` printable characters other than the space, each of advance `g`, that fits
on the line of the current widget only adds to the pending width. -/
theorem scanSteps_word (cfg : Env) (fs : Nat) (text : List Int) (g : Int) (hg : 0 ≤ g) :
    ∀ (k : Nat) (s : Scan),
      (∀ j, j < k → ∃ c, text[s.index + j]? = some c ∧ 32 < c ∧ c ≤ 128 ∧
        advance cfg fs (wAt s.page.widgets s.current).style c = g) →
      (wAt s.page.widgets s.current).x + (wAt s.page.widgets s.current).width
        + s.addedWidth + g * k < cfg.windowWidth →
      scanSteps cfg fs text k s
        = some { s with addedWidth := s.addedWidth + g * k, index := s.index + k } := by
  intro k
  induction k with
  | zero =>
    intro s _ _
    simp [scanSteps]
  | succ k ih =>
    intro s hch hfit
    obtain ⟨c, hget, h32, h128, hadv⟩ := hch 0 (by omega)
    simp only [Nat.add_zero] at hget
    have hmul : g * ((k + 1 : Nat) : Int) = g * (k : Int) + g := by
      push_cast
      ring
    have hgk : 0 ≤ g * (k : Int) := mul_nonneg hg (Int.ofNat_nonneg k)
    have hb := scanBody_fit_char cfg fs text s c ⟨by omega, h128⟩ (by omega)
      (by rw [hadv]; omega)
    rw [scanSteps_succ _ _ _ _ _ _ _ hget hb, hadv]
    rw [ih { s with addedWidth := s.addedWidth + g, index := s.index + 1 }
      (by
        intro j hj
        obtain ⟨c', hget', h'⟩ := hch (j + 1) (by omega)
        refine ⟨c', ?_, h'⟩
        have e : s.index + 1 + j = s.index + (j + 1) := by omega
        simp only [e]
        exact hget')
      (by
        simp only
        omega)]
    simp only [Option.some.injEq, Scan.mk.injEq, true_and]
    constructor
    · rw [hmul]
      ring
    · omega

theorem copyChars_fit (cfg : Env) (chars : List Int) :
    ∀ buf : List Int, buf.length + chars.length ≤ cfg.maxTextBufferSize →
      copyChars cfg buf chars = buf ++ chars := by
  induction chars with
  | nil => intro buf _; simp [copyChars]
  | cons c cs ih =>
    intro buf h
    simp only [List.length_cons] at h
    have hlt : buf.length < cfg.maxTextBufferSize := by omega
    have := ih (buf ++ [c]) (by simp; omega)
    unfold copyChars at this ⊢
    simp only [List.foldl_cons, hlt, ↓reduceIte]
    rw [this]
    simp

theorem BreakLine_widgets (cfg : Env) (p : Page) (padding : Int) :
    (BreakLine cfg p padding).widgets = (FinishCurrentLine cfg p).widgets := by
  unfold BreakLine
  dsimp only
  split <;> rfl

theorem ite_natCast_pos (n : Nat) : (if (n : Int) > 0 then (n : Int) else 0) = n := by
  split <;> omega

theorem ite_pos_natCast (n : Nat) : (if 0 < n then (n : Int) else 0) = n := by
  split <;> omega

/-! ## Two words on a fresh page -/

theorem appendEntry_fresh (cfg : Env) (h : 0 < cfg.maxPageWidgets) :
    appendEntry cfg (Page.fresh cfg) = firstPage cfg := by
  unfold appendEntry
  have hnone : (Page.fresh cfg).currentWidgetIndex = none := rfl
  rw [if_pos hnone, CreateWidget_ok cfg _ (by simpa [Page.fresh] using h)]
  simp [Page.fresh, FinishCurrentWidget, newWidget, GetStyleStackTop, firstPage, regularStyle]

theorem firstLine_eq (cfg : Env) (a : Int) (buf : List Int) :
    FinishCurrentLine cfg (addWidth (firstPage cfg) 0 a buf) =
      { Page.fresh cfg with
        widgets := [⟨0, 0, a, cfg.getLineHeight 1, some buf, none, regularStyle cfg⟩]
        cursorY := cfg.getLineHeight 1
        pageHeight := cfg.getLineHeight 1
        rendered := [(0, [⟨0, 0, a, cfg.getLineHeight 1, some buf, none, regularStyle cfg⟩])] } := by
  simp [FinishCurrentLine, FinishCurrentWidget, addWidth, wUpd, wAt, Page.fresh, lineLoop,
    alignWidget, ite_pos_natCast, firstPage, regularStyle]

theorem secondPage_eq (cfg : Env) (a : Int) (buf : List Int) (h : 1 < cfg.maxPageWidgets) :
    CreateWidget cfg (FinishCurrentLine cfg (addWidth (firstPage cfg) 0 a buf))
      = (secondPage cfg a buf, some 1) := by
  rw [firstLine_eq, CreateWidget_ok cfg _ (by simpa [Page.fresh] using h)]
  simp [Page.fresh, FinishCurrentWidget, newWidget, GetStyleStackTop, secondPage, regularStyle]

theorem secondLine_widgets (cfg : Env) (a b : Int) (buf buf' : List Int) :
    (FinishCurrentLine cfg (addWidth (secondPage cfg a buf) 1 b buf')).widgets =
      [⟨0, 0, a, cfg.getLineHeight 1, some buf, none, regularStyle cfg⟩,
       ⟨0, cfg.getLineHeight 1, b, cfg.getLineHeight 1, some buf', none, regularStyle cfg⟩] := by
  simp [FinishCurrentLine, FinishCurrentWidget, addWidth, wUpd, wAt, Page.fresh, lineLoop,
    alignWidget, ite_pos_natCast, secondPage, regularStyle]

theorem twoWords_get_left (u v : List Int) (j : Nat) (hj : j < u.length) :
    ∃ c, (u ++ 32 :: v)[j]? = some c ∧ c ∈ u := by
  refine ⟨u[j], ?_, List.getElem_mem hj⟩
  rw [List.getElem?_append_left hj, List.getElem?_eq_getElem hj]

theorem twoWords_get_space (u v : List Int) : (u ++ 32 :: v)[u.length]? = some 32 := by
  rw [List.getElem?_append_right (le_refl _)]
  simp

theorem twoWords_get_right (u v : List Int) (j : Nat) (hj : j < v.length) :
    ∃ c, (u ++ 32 :: v)[u.length + 1 + j]? = some c ∧ c ∈ v := by
  refine ⟨v[j], ?_, List.getElem_mem hj⟩
  rw [List.getElem?_append_right (by omega)]
  have e : u.length + 1 + j - u.length = j + 1 := by omega
  rw [e, List.getElem?_cons_succ, List.getElem?_eq_getElem hj]

theorem twoWords_get_end (u v : List Int) :
    (u ++ 32 :: v)[u.length + 1 + v.length]? = none := by
  rw [List.getElem?_eq_none]
  simp
  omega

theorem twoWords_take (u v : List Int) : (u ++ 32 :: v).take (u.length + 1) = u ++ [32] := by
  rw [List.take_append_eq_append_take]
  simp

theorem twoWords_drop (u v : List Int) : (u ++ 32 :: v).drop (u.length + 1) = v := by
  rw [List.drop_append_eq_append_drop]
  simp

/-- The scan of the first word and the space after it, on a fresh page. -/
theorem scanSteps_first_word (cfg : Env) (g : Nat) (u v : List Int)
    (hadv : ∀ c, 32 ≤ c → c ≤ 128 → advance cfg 1 (regularStyle cfg) c = g)
    (hu : ∀ c ∈ u, 32 < c ∧ c ≤ 128)
    (hfit : (g : Int) * ((u.length : Int) + 1) < cfg.windowWidth)
    (hbuf : u.length + 1 ≤ cfg.maxTextBufferSize) :
    scanSteps cfg 1 (u ++ 32 :: v) (u.length + 1) (scanInit (firstPage cfg) 0) = some
      { page := addWidth (firstPage cfg) 0 ((g : Int) * ((u.length : Int) + 1)) (u ++ [32])
        current := 0, addedWidth := 0, startIndex := u.length + 1, index := u.length + 1 } := by
  have hg : (0 : Int) ≤ g := Int.ofNat_nonneg g
  have hw0 : wAt (firstPage cfg).widgets 0
      = ⟨0, 0, 0, cfg.getLineHeight 1, none, none, regularStyle cfg⟩ := by
    simp [wAt, firstPage]
  have hA := scanSteps_word cfg 1 (u ++ 32 :: v) g hg u.length (scanInit (firstPage cfg) 0)
    (by
      intro j hj
      obtain ⟨c, hc, hmem⟩ := twoWords_get_left u v j hj
      refine ⟨c, by simpa [scanInit] using hc, (hu c hmem).1, (hu c hmem).2, ?_⟩
      simp only [scanInit, hw0]
      exact hadv c (by have := (hu c hmem).1; omega) (hu c hmem).2)
    (by
      simp only [scanInit, hw0]
      have : (g : Int) * ((u.length : Int) + 1) = g * u.length + g := by ring
      omega)
  have hB := scanBody_fit_space cfg 1 (u ++ 32 :: v)
    { scanInit (firstPage cfg) 0 with
      addedWidth := (scanInit (firstPage cfg) 0).addedWidth + (g : Int) * u.length
      index := (scanInit (firstPage cfg) 0).index + u.length }
    (by
      simp only [scanInit, hw0]
      rw [hadv 32 (le_refl _) (by decide)]
      have : (g : Int) * ((u.length : Int) + 1) = g * u.length + g := by ring
      omega)
  have hget : (u ++ 32 :: v)[({ scanInit (firstPage cfg) 0 with
      addedWidth := (scanInit (firstPage cfg) 0).addedWidth + (g : Int) * u.length
      index := (scanInit (firstPage cfg) 0).index + u.length } : Scan).index]? = some 32 := by
    simp only [scanInit, Nat.zero_add]
    exact twoWords_get_space u v
  have hstep := scanSteps_one cfg 1 (u ++ 32 :: v) _ _ 32 hget hB
  rw [scanSteps_trans cfg 1 (u ++ 32 :: v) u.length 1 _ _ _ hA hstep]
  simp only [scanInit, hw0, Option.some.injEq, Scan.mk.injEq, Nat.zero_add, and_true, true_and,
    Nat.sub_zero, List.drop_zero, twoWords_take]
  rw [hadv 32 (le_refl _) (by decide)]
  have hb : copyChars cfg (firstPage cfg).textBuffer (u ++ [32]) = u ++ [32] := by
    rw [copyChars_fit cfg _ _ (by simpa [firstPage, Page.fresh] using hbuf)]
    simp [firstPage, Page.fresh]
  rw [hb]
  congr 1
  ring

theorem addWidth_addWidth (p : Page) (cur : Nat) (a b : Int) (buf buf' : List Int) :
    addWidth (addWidth p cur a buf) cur b buf' = addWidth p cur (a + b) buf' := by
  unfold addWidth
  simp only [wUpd_wUpd]
  congr 1
  apply wUpd_congr
  simp only [Widget.mk.injEq, and_true, true_and]
  ring

theorem wAt_firstPage_addWidth (cfg : Env) (a : Int) (buf : List Int) :
    wAt (addWidth (firstPage cfg) 0 a buf).widgets 0
      = ⟨0, 0, a, cfg.getLineHeight 1, none, none, regularStyle cfg⟩ := by
  simp [addWidth, wUpd, wAt, firstPage]

theorem wAt_secondPage (cfg : Env) (a : Int) (buf : List Int) :
    wAt (secondPage cfg a buf).widgets 1
      = ⟨0, cfg.getLineHeight 1, 0, cfg.getLineHeight 1, none, none, regularStyle cfg⟩ := by
  simp [wAt, secondPage]

/-- The scan of the second word when both words fit on the first line. -/
theorem scanSteps_second_word_fit (cfg : Env) (g : Nat) (u v : List Int) (a : Int)
    (buf : List Int)
    (hadv : ∀ c, 32 ≤ c → c ≤ 128 → advance cfg 1 (regularStyle cfg) c = g)
    (hv : ∀ c ∈ v, 32 < c ∧ c ≤ 128)
    (hfit : a + (g : Int) * (v.length : Int) < cfg.windowWidth) :
    scanSteps cfg 1 (u ++ 32 :: v) v.length
      { page := addWidth (firstPage cfg) 0 a buf
        current := 0, addedWidth := 0, startIndex := u.length + 1, index := u.length + 1 }
      = some
      { page := addWidth (firstPage cfg) 0 a buf
        current := 0, addedWidth := (g : Int) * (v.length : Int), startIndex := u.length + 1,
        index := u.length + 1 + v.length } := by
  have hg : (0 : Int) ≤ g := Int.ofNat_nonneg g
  rw [scanSteps_word cfg 1 (u ++ 32 :: v) g hg v.length _
    (by
      intro j hj
      obtain ⟨c, hc, hmem⟩ := twoWords_get_right u v j hj
      refine ⟨c, hc, (hv c hmem).1, (hv c hmem).2, ?_⟩
      simp only [wAt_firstPage_addWidth]
      exact hadv c (by have := (hv c hmem).1; omega) (hv c hmem).2)
    (by
      simp only [wAt_firstPage_addWidth]
      omega)]
  simp

/-- The scan of the second word when it does not fit on the first line any more: after `d`
characters that fit, the rest of the word wraps to a new widget on the next line. -/
theorem scanSteps_second_word_wrap (cfg : Env) (g : Nat) (u v : List Int) (a : Int)
    (buf : List Int) (ha : a ≠ 0) (hcap : 1 < cfg.maxPageWidgets)
    (hadv : ∀ c, 32 ≤ c → c ≤ 128 → advance cfg 1 (regularStyle cfg) c = g)
    (hv : ∀ c ∈ v, 32 < c ∧ c ≤ 128)
    (hfv : (g : Int) * (v.length : Int) < cfg.windowWidth)
    (hover : cfg.windowWidth ≤ a + (g : Int) * (v.length : Int)) :
    ∀ (r d : Nat), r + d = v.length → a + (g : Int) * (d : Int) < cfg.windowWidth →
      ∃ k, scanSteps cfg 1 (u ++ 32 :: v) k
        { page := addWidth (firstPage cfg) 0 a buf
          current := 0, addedWidth := (g : Int) * (d : Int), startIndex := u.length + 1,
          index := u.length + 1 + d }
        = some
        { page := secondPage cfg a buf
          current := 1, addedWidth := (g : Int) * (v.length : Int), startIndex := u.length + 1,
          index := u.length + 1 + v.length } := by
  have hg : (0 : Int) ≤ g := Int.ofNat_nonneg g
  intro r
  induction r with
  | zero =>
    intro d hd hfit
    have : d = v.length := by omega
    subst this
    omega
  | succ r ih =>
    intro d hd hfit
    have hdlt : d < v.length := by omega
    obtain ⟨c, hc, hmem⟩ := twoWords_get_right u v d hdlt
    have hc32 := (hv c hmem).1
    have hc128 := (hv c hmem).2
    have hadvc := hadv c (by omega) hc128
    by_cases hnext : a + (g : Int) * (d : Int) + g < cfg.windowWidth
    · have hb := scanBody_fit_char cfg 1 (u ++ 32 :: v)
        { page := addWidth (firstPage cfg) 0 a buf
          current := 0, addedWidth := (g : Int) * (d : Int), startIndex := u.length + 1,
          index := u.length + 1 + d } c ⟨by omega, hc128⟩ (by omega)
        (by
          simp only [wAt_firstPage_addWidth, hadvc]
          omega)
      obtain ⟨k, hk⟩ := ih (d + 1) (by omega)
        (by
          push_cast
          have : (g : Int) * ((d : Int) + 1) = g * d + g := by ring
          omega)
      refine ⟨k + 1, ?_⟩
      rw [scanSteps_succ cfg 1 _ k _ _ c hc hb]
      simp only [wAt_firstPage_addWidth, hadvc]
      have e1 : (g : Int) * (d : Int) + g = g * ((d + 1 : Nat) : Int) := by
        push_cast
        ring
      have e2 : u.length + 1 + d + 1 = u.length + 1 + (d + 1) := by omega
      rw [e1, e2]
      exact hk
    · have hb := scanBody_wrap cfg 1 (u ++ 32 :: v)
        { page := addWidth (firstPage cfg) 0 a buf
          current := 0, addedWidth := (g : Int) * (d : Int), startIndex := u.length + 1,
          index := u.length + 1 + d } c ⟨by omega, hc128⟩
        (by
          simp only [wAt_firstPage_addWidth, hadvc]
          omega)
        (by
          simp only [wAt_firstPage_addWidth]
          exact ha)
      simp only [secondPage_eq cfg a buf hcap] at hb
      have hw := scanSteps_word cfg 1 (u ++ 32 :: v) g hg (r + 1)
        { page := secondPage cfg a buf
          current := 1, addedWidth := (g : Int) * (d : Int), startIndex := u.length + 1,
          index := u.length + 1 + d }
        (by
          intro j hj
          obtain ⟨c', hc', hmem'⟩ := twoWords_get_right u v (d + j) (by omega)
          refine ⟨c', ?_, (hv c' hmem').1, (hv c' hmem').2, ?_⟩
          · have e : u.length + 1 + d + j = u.length + 1 + (d + j) := by omega
            simp only [e]
            exact hc'
          · simp only [wAt_secondPage]
            exact hadv c' (by have := (hv c' hmem').1; omega) (hv c' hmem').2)
        (by
          simp only [wAt_secondPage]
          have e : (g : Int) * (v.length : Int) = g * d + g * ((r + 1 : Nat) : Int) := by
            rw [← hd]
            push_cast
            ring
          omega)
      refine ⟨1 + (r + 1), ?_⟩
      rw [scanSteps_trans cfg 1 _ 1 (r + 1) _ _ _ (scanSteps_one cfg 1 _ _ _ c hc hb) hw]
      simp only [Option.some.injEq, Scan.mk.injEq, true_and]
      constructor
      · rw [← hd]
        push_cast
        ring
      · omega

theorem AppendText_fresh_of_steps (cfg : Env) (text : List Int) (k : Nat) (s' : Scan)
    (hcap : 0 < cfg.maxPageWidgets)
    (hsteps : scanSteps cfg 1 text k (scanInit (firstPage cfg) 0) = some s')
    (hend : text[s'.index]? = none) :
    AppendText cfg (Page.fresh cfg) text = some (scanFlush cfg text s') := by
  have he := appendEntry_fresh cfg hcap
  apply AppendText_of_steps cfg (Page.fresh cfg) text 0 k s'
  · rw [he]
    rfl
  · rw [he]
    simp [firstPage]
  · rw [he]
    have : (wAt (firstPage cfg).widgets 0).style.fontSize = 1 := by
      simp [wAt, firstPage, regularStyle]
    rw [this]
    exact hsteps
  · exact hend

theorem scanFlush_of_pos (cfg : Env) (text : List Int) (s : Scan) (h : s.addedWidth > 0) :
    scanFlush cfg text s = addWidth s.page s.current s.addedWidth
      (copyChars cfg s.page.textBuffer (text.drop s.startIndex)) := by
  unfold scanFlush
  rw [if_pos h]
  rfl

theorem runOps_append_break (cfg : Env) (p q : Page) (text : List Int) (padding : Int)
    (h : AppendText cfg p text = some q) :
    runOps cfg p [.appendText text, .breakLine padding] = some (BreakLine cfg q padding) := by
  simp [runOps, applyOp, h]

/-- Two words that fit on one line of a fresh page end in one widget. -/
theorem twoWords_fit (cfg : Env) (g : Nat) (u v : List Int) (padding : Int) (hg : 0 < g)
    (hadv : ∀ c, 32 ≤ c → c ≤ 128 → advance cfg 1 (regularStyle cfg) c = g)
    (hu : ∀ c ∈ u, 32 < c ∧ c ≤ 128) (hv : ∀ c ∈ v, 32 < c ∧ c ≤ 128) (hvne : v ≠ [])
    (hfit : (g : Int) * ((u.length : Int) + 1 + (v.length : Int)) < cfg.windowWidth)
    (hcap : 0 < cfg.maxPageWidgets)
    (hbuf : u.length + 1 + v.length ≤ cfg.maxTextBufferSize) :
    ∃ p, runOps cfg (Page.fresh cfg) [.appendText (u ++ 32 :: v), .breakLine padding] = some p ∧
      p.widgets = [⟨0, 0, (g : Int) * ((u.length : Int) + 1 + (v.length : Int)),
        cfg.getLineHeight 1, some (u ++ 32 :: v), none, regularStyle cfg⟩] := by
  have hgp : (0 : Int) < g := by exact_mod_cast hg
  have hvl : 0 < v.length := List.length_pos.mpr hvne
  have hvp : (0 : Int) < (v.length : Int) := by exact_mod_cast hvl
  have hgv : (0 : Int) < (g : Int) * (v.length : Int) := mul_pos hgp hvp
  have hsplit : (g : Int) * ((u.length : Int) + 1 + (v.length : Int))
      = g * ((u.length : Int) + 1) + g * v.length := by ring
  have h1 := scanSteps_first_word cfg g u v hadv hu (by omega) (by omega)
  have h2 := scanSteps_second_word_fit cfg g u v ((g : Int) * ((u.length : Int) + 1))
    (u ++ [32]) hadv hv (by omega)
  have h12 := scanSteps_trans cfg 1 _ _ _ _ _ _ h1 h2
  have happ := AppendText_fresh_of_steps cfg _ _ _ hcap h12 (twoWords_get_end u v)
  rw [scanFlush_of_pos cfg _ _ hgv] at happ
  simp only [addWidth_textBuffer, twoWords_drop, addWidth_addWidth] at happ
  rw [copyChars_fit cfg _ _ (by simp; omega)] at happ
  refine ⟨_, runOps_append_break cfg _ _ _ padding happ, ?_⟩
  rw [BreakLine_widgets, firstLine_eq]
  simp only [List.cons.injEq, Widget.mk.injEq, and_true, true_and]
  constructor
  · rw [hsplit]
  · simp

/-- Two words that do not fit on one line of a fresh page end in two widgets, the second
word at the start of the second line. -/
theorem twoWords_wrap (cfg : Env) (g : Nat) (u v : List Int) (padding : Int) (hg : 0 < g)
    (hadv : ∀ c, 32 ≤ c → c ≤ 128 → advance cfg 1 (regularStyle cfg) c = g)
    (hu : ∀ c ∈ u, 32 < c ∧ c ≤ 128) (hv : ∀ c ∈ v, 32 < c ∧ c ≤ 128) (hvne : v ≠ [])
    (hfu : (g : Int) * ((u.length : Int) + 1) < cfg.windowWidth)
    (hfv : (g : Int) * (v.length : Int) < cfg.windowWidth)
    (hover : cfg.windowWidth ≤ (g : Int) * ((u.length : Int) + 1 + (v.length : Int)))
    (hcap : 1 < cfg.maxPageWidgets)
    (hbu : u.length + 1 ≤ cfg.maxTextBufferSize) (hbv : v.length ≤ cfg.maxTextBufferSize) :
    ∃ p, runOps cfg (Page.fresh cfg) [.appendText (u ++ 32 :: v), .breakLine padding] = some p ∧
      p.widgets =
        [⟨0, 0, (g : Int) * ((u.length : Int) + 1), cfg.getLineHeight 1, some (u ++ [32]), none,
            regularStyle cfg⟩,
         ⟨0, cfg.getLineHeight 1, (g : Int) * (v.length : Int), cfg.getLineHeight 1, some v,
            none, regularStyle cfg⟩] := by
  have hgp : (0 : Int) < g := by exact_mod_cast hg
  have hvl : 0 < v.length := List.length_pos.mpr hvne
  have hvp : (0 : Int) < (v.length : Int) := by exact_mod_cast hvl
  have hgv : (0 : Int) < (g : Int) * (v.length : Int) := mul_pos hgp hvp
  have hup : (0 : Int) < (u.length : Int) + 1 := by omega
  have hgu : (0 : Int) < (g : Int) * ((u.length : Int) + 1) := mul_pos hgp hup
  have hsplit : (g : Int) * ((u.length : Int) + 1 + (v.length : Int))
      = g * ((u.length : Int) + 1) + g * v.length := by ring
  have h1 := scanSteps_first_word cfg g u v hadv hu hfu hbu
  obtain ⟨k, h2⟩ := scanSteps_second_word_wrap cfg g u v ((g : Int) * ((u.length : Int) + 1))
    (u ++ [32]) (by omega) hcap hadv hv hfv (by omega) v.length 0 (by omega)
    (by simpa using hfu)
  simp only [Nat.cast_zero, mul_zero, Nat.add_zero] at h2
  have h12 := scanSteps_trans cfg 1 _ _ _ _ _ _ h1 h2
  have happ := AppendText_fresh_of_steps cfg _ _ _ (by omega) h12 (twoWords_get_end u v)
  rw [scanFlush_of_pos cfg _ _ hgv] at happ
  simp only [twoWords_drop] at happ
  have hb : copyChars cfg (secondPage cfg ((g : Int) * ((u.length : Int) + 1)) (u ++ [32])).textBuffer v
      = v := by
    rw [copyChars_fit cfg _ _ (by simpa [secondPage, Page.fresh] using hbv)]
    simp [secondPage, Page.fresh]
  rw [hb] at happ
  refine ⟨_, runOps_append_break cfg _ _ _ padding happ, ?_⟩
  rw [BreakLine_widgets, secondLine_widgets]

/-! ## What no step of `AppendText` touches -/

@[simp] theorem CreateWidget_styleStack (cfg : Env) (p : Page) :
    (CreateWidget cfg p).1.styleStack = p.styleStack := by
  by_cases hcap : p.widgets.length < cfg.maxPageWidgets
  · rw [CreateWidget_ok cfg p hcap]
    simp
  · rw [CreateWidget_fail cfg p hcap]
    simp

@[simp] theorem CreateWidget_widgetURL (cfg : Env) (p : Page) :
    (CreateWidget cfg p).1.widgetURL = p.widgetURL := by
  by_cases hcap : p.widgets.length < cfg.maxPageWidgets
  · rw [CreateWidget_ok cfg p hcap]
    simp
  · rw [CreateWidget_fail cfg p hcap]
    simp

@[simp] theorem relocate_widgetURL (cfg : Env) (p : Page) (cur : Nat) :
    (relocate cfg p cur).widgetURL = p.widgetURL := by
  simp [relocate]

/-- A quantity that the primitive operations leave alone is left alone by every pass
through the body of the scan loop. -/
theorem scanBody_frame {α : Type} (cfg : Env) (f : Page → α)
    (hFCL : ∀ p, f (FinishCurrentLine cfg p) = f p)
    (hCW : ∀ p, f (CreateWidget cfg p).1 = f p)
    (hadd : ∀ p cur a buf, f (addWidth p cur a buf) = f p)
    (hrel : ∀ p cur, f (relocate cfg p cur) = f p)
    (fs : Nat) (text : List Int) (s : Scan) (c : Int) :
    (∀ s', scanBody cfg fs text s c = .next s' → f s'.page = f s.page) ∧
      (∀ q, scanBody cfg fs text s c = .ret q → f q = f s.page) := by
  rcases scanBody_cases cfg fs s c with hskip | ⟨h32, h128, hfit | hfit⟩
  · rw [scanBody_skip _ _ _ _ _ hskip]
    constructor
    · intro s' hb
      cases hb
      rfl
    · intro q hb
      cases hb
  · by_cases hsp : c = 32
    · subst hsp
      rw [scanBody_fit_space _ _ _ _ hfit]
      constructor
      · intro s' hb
        cases hb
        exact hadd _ _ _ _
      · intro q hb
        cases hb
    · rw [scanBody_fit_char _ _ _ _ _ ⟨h32, h128⟩ hsp hfit]
      constructor
      · intro s' hb
        cases hb
        rfl
      · intro q hb
        cases hb
  · by_cases hw : (wAt s.page.widgets s.current).width = 0
    · by_cases hx : (wAt s.page.widgets s.current).x = 0
      · rw [scanBody_hardBreak _ _ _ _ _ ⟨h32, h128⟩ hfit hw hx]
        have hk : f (CreateWidget cfg (FinishCurrentLine cfg (addWidth s.page s.current
            s.addedWidth (copyChars cfg s.page.textBuffer
              ((text.drop s.startIndex).take (s.index - s.startIndex)))))).1 = f s.page := by
          rw [hCW, hFCL, hadd]
        constructor
        · intro s' hb
          split at hb
          · cases hb
          · next p' cur' hc =>
            cases hb
            rw [hc] at hk
            exact hk
        · intro q hb
          split at hb
          · next p' hc =>
            cases hb
            rw [hc] at hk
            exact hk
          · cases hb
      · rw [scanBody_relocate _ _ _ _ _ ⟨h32, h128⟩ hfit hw hx]
        constructor
        · intro s' hb
          cases hb
          exact hrel _ _
        · intro q hb
          cases hb
    · rw [scanBody_wrap _ _ _ _ _ ⟨h32, h128⟩ hfit hw]
      have hk : f (CreateWidget cfg (FinishCurrentLine cfg s.page)).1 = f s.page := by
        rw [hCW, hFCL]
      constructor
      · intro s' hb
        split at hb
        · cases hb
        · next p' cur' hc =>
          cases hb
          rw [hc] at hk
          exact hk
      · intro q hb
        split at hb
        · next p' hc =>
          cases hb
          rw [hc] at hk
          exact hk
        · cases hb

/-- A quantity that the primitive operations leave alone is left alone by `AppendText`. -/
theorem AppendText_frame {α : Type} (cfg : Env) (f : Page → α)
    (hFCL : ∀ p, f (FinishCurrentLine cfg p) = f p)
    (hCW : ∀ p, f (CreateWidget cfg p).1 = f p)
    (hadd : ∀ p cur a buf, f (addWidth p cur a buf) = f p)
    (hrel : ∀ p cur, f (relocate cfg p cur) = f p)
    (p p' : Page) (text : List Int) (h : AppendText cfg p text = some p') : f p' = f p := by
  have hentry : f (appendEntry cfg p) = f p := by
    unfold appendEntry
    split
    · exact hCW p
    · rfl
  refine AppendText_rule cfg p p' text (fun s => f s.page = f p) (fun q => f q = f p)
    ?_ ?_ ?_ ?_ ?_ h
  · intro _
    exact hentry
  · intro cur _
    exact hentry
  · intro fs s c s' hI _ hb
    rw [← hI]
    exact (scanBody_frame cfg f hFCL hCW hadd hrel fs text s c).1 s' hb
  · intro fs s c q hI _ hb
    rw [← hI]
    exact (scanBody_frame cfg f hFCL hCW hadd hrel fs text s c).2 q hb
  · intro s hI
    rw [← hI]
    unfold scanFlush
    split
    · exact hadd _ _ _ _
    · rfl

theorem AppendText_styleStack (cfg : Env) (p p' : Page) (text : List Int)
    (h : AppendText cfg p text = some p') : p'.styleStack = p.styleStack :=
  AppendText_frame cfg (fun q => q.styleStack) (by simp) (by simp) (by simp) (by simp) p p'
    text h

theorem AppendText_widgetURL (cfg : Env) (p p' : Page) (text : List Int)
    (h : AppendText cfg p text = some p') : p'.widgetURL = p.widgetURL :=
  AppendText_frame cfg (fun q => q.widgetURL) (by simp) (by simp) (by simp) (by simp) p p'
    text h

/-- A property of pages that the primitive operations preserve is preserved by every pass
through the body of the scan loop. -/
theorem scanBody_preserves (cfg : Env) (P : Page → Prop)
    (hFCL : ∀ p, P p → P (FinishCurrentLine cfg p))
    (hCW : ∀ p, P p → P (CreateWidget cfg p).1)
    (hadd : ∀ p cur a chars, P p → P (addWidth p cur a (copyChars cfg p.textBuffer chars)))
    (hrel : ∀ p cur, P p → P (relocate cfg p cur))
    (fs : Nat) (text : List Int) (s : Scan) (c : Int) (h : P s.page) :
    (∀ s', scanBody cfg fs text s c = .next s' → P s'.page) ∧
      (∀ q, scanBody cfg fs text s c = .ret q → P q) := by
  rcases scanBody_cases cfg fs s c with hskip | ⟨h32, h128, hfit | hfit⟩
  · rw [scanBody_skip _ _ _ _ _ hskip]
    constructor
    · intro s' hb
      cases hb
      exact h
    · intro q hb
      cases hb
  · by_cases hsp : c = 32
    · subst hsp
      rw [scanBody_fit_space _ _ _ _ hfit]
      constructor
      · intro s' hb
        cases hb
        exact hadd _ _ _ _ h
      · intro q hb
        cases hb
    · rw [scanBody_fit_char _ _ _ _ _ ⟨h32, h128⟩ hsp hfit]
      constructor
      · intro s' hb
        cases hb
        exact h
      · intro q hb
        cases hb
  · by_cases hw : (wAt s.page.widgets s.current).width = 0
    · by_cases hx : (wAt s.page.widgets s.current).x = 0
      · rw [scanBody_hardBreak _ _ _ _ _ ⟨h32, h128⟩ hfit hw hx]
        have hk := hCW _ (hFCL _ (hadd s.page s.current s.addedWidth
          ((text.drop s.startIndex).take (s.index - s.startIndex)) h))
        constructor
        · intro s' hb
          split at hb
          · cases hb
          · next p' cur' hc =>
            cases hb
            rw [hc] at hk
            exact hk
        · intro q hb
          split at hb
          · next p' hc =>
            cases hb
            rw [hc] at hk
            exact hk
          · cases hb
      · rw [scanBody_relocate _ _ _ _ _ ⟨h32, h128⟩ hfit hw hx]
        constructor
        · intro s' hb
          cases hb
          exact hrel _ _ h
        · intro q hb
          cases hb
    · rw [scanBody_wrap _ _ _ _ _ ⟨h32, h128⟩ hfit hw]
      have hk := hCW _ (hFCL _ h)
      constructor
      · intro s' hb
        split at hb
        · cases hb
        · next p' cur' hc =>
          cases hb
          rw [hc] at hk
          exact hk
      · intro q hb
        split at hb
        · next p' hc =>
          cases hb
          rw [hc] at hk
          exact hk
        · cases hb

/-- A property of pages that the primitive operations preserve is preserved by
`AppendText`. -/
theorem AppendText_preserves (cfg : Env) (P : Page → Prop)
    (hFCL : ∀ p, P p → P (FinishCurrentLine cfg p))
    (hCW : ∀ p, P p → P (CreateWidget cfg p).1)
    (hadd : ∀ p cur a chars, P p → P (addWidth p cur a (copyChars cfg p.textBuffer chars)))
    (hrel : ∀ p cur, P p → P (relocate cfg p cur))
    (p p' : Page) (text : List Int) (hp : P p) (h : AppendText cfg p text = some p') :
    P p' := by
  have hentry : P (appendEntry cfg p) := by
    unfold appendEntry
    split
    · exact hCW p hp
    · exact hp
  refine AppendText_rule cfg p p' text (fun s => P s.page) P ?_ ?_ ?_ ?_ ?_ h
  · intro _
    exact hentry
  · intro cur _
    exact hentry
  · intro fs s c s' hI _ hb
    exact (scanBody_preserves cfg P hFCL hCW hadd hrel fs text s c hI).1 s' hb
  · intro fs s c q hI _ hb
    exact (scanBody_preserves cfg P hFCL hCW hadd hrel fs text s c hI).2 q hb
  · intro s hI
    unfold scanFlush
    split
    · exact hadd _ _ _ _ hI
    · exact hI

theorem wUpd_map (ws : List Widget) (i : Nat) (f : Widget → Widget) {β : Type}
    (g : Widget → β) (hf : ∀ w, g (f w) = g w) : (wUpd ws i f).map g = ws.map g := by
  apply List.ext_getElem?
  intro j
  simp only [List.getElem?_map]
  have h := wAt_wUpd ws i j f
  unfold wAt at h
  by_cases hj : j < ws.length
  · have hj' : j < (wUpd ws i f).length := by simpa using hj
    rw [List.getElem?_eq_getElem hj, List.getElem?_eq_getElem hj'] at h ⊢
    simp only [Option.getD_some] at h
    simp only [Option.map_some']
    rw [h]
    split
    · rw [hf]
    · rfl
  · have hj' : ¬ j < (wUpd ws i f).length := by simpa using hj
    rw [List.getElem?_eq_none (by omega), List.getElem?_eq_none (by omega)]

theorem FinishCurrentWidget_links (p : Page) :
    (FinishCurrentWidget p).widgets.map (fun w => w.linkURL)
      = p.widgets.map (fun w => w.linkURL) := by
  unfold FinishCurrentWidget
  split
  · rfl
  · dsimp only
    apply wUpd_map
    intro w
    rfl

theorem FinishCurrentLine_links (cfg : Env) (p : Page) :
    (FinishCurrentLine cfg p).widgets.map (fun w => w.linkURL)
      = p.widgets.map (fun w => w.linkURL) := by
  rw [FinishCurrentLine_eq]
  split
  · exact FinishCurrentWidget_links p
  · next s hs =>
    simp only [List.map_append, List.map_map]
    have : ((fun w : Widget => w.linkURL) ∘ alignWidget
        (lineLoop 0 0 (List.drop s (FinishCurrentWidget p).widgets)).2
        ((cfg.windowWidth - (lineLoop 0 0 (List.drop s (FinishCurrentWidget p).widgets)).1)
          >>> (1 : Nat))) = fun w : Widget => w.linkURL := by
      funext w
      rfl
    rw [this, ← List.map_append, List.take_append_drop]
    exact FinishCurrentWidget_links p

theorem addWidth_links (p : Page) (cur : Nat) (a : Int) (buf : List Int) :
    (addWidth p cur a buf).widgets.map (fun w => w.linkURL)
      = p.widgets.map (fun w => w.linkURL) := by
  unfold addWidth
  dsimp only
  apply wUpd_map
  intro w
  rfl

theorem relocate_links (cfg : Env) (p : Page) (cur : Nat) :
    (relocate cfg p cur).widgets.map (fun w => w.linkURL)
      = p.widgets.map (fun w => w.linkURL) := by
  unfold relocate
  dsimp only
  refine Eq.trans (wUpd_map _ _ _ _ ?_) ?_
  · intro w
    rfl
  · rw [FinishCurrentLine_links]

theorem LinkInv.link_finishCurrentWidget {links : List (Option (List Int))}
    {url : Option (List Int)} {q : Page} (h : LinkInv links url q) :
    LinkInv links url (FinishCurrentWidget q) := by
  obtain ⟨hu, k, hk⟩ := h
  exact ⟨by simpa using hu, k, by rw [FinishCurrentWidget_links]; exact hk⟩

theorem LinkInv.link_finishCurrentLine {links : List (Option (List Int))}
    {url : Option (List Int)} {q : Page} (h : LinkInv links url q) (cfg : Env) :
    LinkInv links url (FinishCurrentLine cfg q) := by
  obtain ⟨hu, k, hk⟩ := h
  exact ⟨by simpa using hu, k, by rw [FinishCurrentLine_links]; exact hk⟩

theorem LinkInv.link_createWidget {links : List (Option (List Int))}
    {url : Option (List Int)} {q : Page} (h : LinkInv links url q) (cfg : Env) :
    LinkInv links url (CreateWidget cfg q).1 := by
  have h' := h.link_finishCurrentWidget
  obtain ⟨hu, k, hk⟩ := h'
  by_cases hcap : q.widgets.length < cfg.maxPageWidgets
  · rw [CreateWidget_ok cfg q hcap]
    refine ⟨hu, k + 1, ?_⟩
    simp only [List.map_append, List.map_cons, List.map_nil, hk, List.append_assoc]
    have : (newWidget cfg (FinishCurrentWidget q)).linkURL = url := hu
    rw [this, List.replicate_succ']
  · rw [CreateWidget_fail cfg q hcap]
    exact ⟨hu, k, hk⟩

theorem LinkInv.link_addWidth {links : List (Option (List Int))}
    {url : Option (List Int)} {q : Page} (h : LinkInv links url q) (cur : Nat) (a : Int)
    (buf : List Int) : LinkInv links url (addWidth q cur a buf) := by
  obtain ⟨hu, k, hk⟩ := h
  exact ⟨hu, k, by rw [addWidth_links]; exact hk⟩

theorem LinkInv.link_relocate {links : List (Option (List Int))}
    {url : Option (List Int)} {q : Page} (h : LinkInv links url q) (cfg : Env) (cur : Nat) :
    LinkInv links url (relocate cfg q cur) := by
  obtain ⟨hu, k, hk⟩ := h
  exact ⟨by simpa using hu, k, by rw [relocate_links]; exact hk⟩

theorem LinkInv.link_applyOp {links : List (Option (List Int))}
    {url : Option (List Int)} {q q' : Page} (h : LinkInv links url q) (cfg : Env) (op : Op)
    (hop : op.keepsURL) (hq : applyOp cfg q op = some q') : LinkInv links url q' := by
  cases op with
  | pushStyle style =>
    simp only [applyOp, Option.some.injEq] at hq
    subst hq
    unfold PushStyle
    split
    · exact LinkInv.link_finishCurrentWidget ⟨h.1, h.2⟩
    · exact h
  | popStyle =>
    simp only [applyOp, Option.some.injEq] at hq
    subst hq
    unfold PopStyle
    split
    · exact LinkInv.link_finishCurrentWidget ⟨h.1, h.2⟩
    · exact h.link_finishCurrentWidget
  | appendText text =>
    simp only [applyOp] at hq
    exact AppendText_preserves cfg (LinkInv links url)
      (fun _ hp => hp.link_finishCurrentLine cfg) (fun _ hp => hp.link_createWidget cfg)
      (fun _ _ _ _ hp => hp.link_addWidth _ _ _) (fun _ _ hp => hp.link_relocate cfg _)
      q q' text h hq
  | breakLine padding =>
    simp only [applyOp, Option.some.injEq] at hq
    subst hq
    have h' := h.link_finishCurrentLine cfg
    unfold BreakLine
    dsimp only
    split
    · exact ⟨h'.1, h'.2⟩
    · exact h'
  | setWidgetURL url' => exact absurd hop (by simp [Op.keepsURL])
  | clearWidgetURL => exact absurd hop (by simp [Op.keepsURL])

theorem LinkInv.link_runOps {links : List (Option (List Int))}
    {url : Option (List Int)} (cfg : Env) (ops : List Op) :
    ∀ q q' : Page, LinkInv links url q → (∀ op ∈ ops, op.keepsURL) →
      runOps cfg q ops = some q' → LinkInv links url q' := by
  induction ops with
  | nil =>
    intro q q' h _ hq
    simp only [runOps, Option.some.injEq] at hq
    subst hq
    exact h
  | cons op ops ih =>
    intro q q' h hk hq
    unfold runOps at hq
    cases hop : applyOp cfg q op with
    | none => simp [hop] at hq
    | some q1 =>
      simp only [hop] at hq
      exact ih q1 q' (h.link_applyOp cfg op (hk op (List.mem_cons_self _ _)) hop)
        (fun o ho => hk o (List.mem_cons_of_mem _ ho)) hq

theorem map_linkURL_getElem? (ws : List Widget) (j : Nat) (hj : j < ws.length) :
    (ws.map (fun w => w.linkURL))[j]? = some (wAt ws j).linkURL := by
  unfold wAt
  rw [List.getElem?_map, List.getElem?_eq_getElem hj]
  rfl

/-- What `LinkInv` says of the single widgets: those of the page `p` it started from keep
their link, and those added since have the current URL as their link. -/
theorem LinkInv.link_wAt {url : Option (List Int)} {p q : Page}
    (h : LinkInv (p.widgets.map (fun w => w.linkURL)) url q) :
    q.widgetURL = url ∧ p.numWidgets ≤ q.numWidgets ∧
      (∀ j, j < p.numWidgets → (wAt q.widgets j).linkURL = (wAt p.widgets j).linkURL) ∧
      (∀ j, p.numWidgets ≤ j → j < q.numWidgets → (wAt q.widgets j).linkURL = url) := by
  obtain ⟨hu, k, hk⟩ := h
  have hlen : q.widgets.length = p.widgets.length + k := by
    have := congrArg List.length hk
    simpa using this
  unfold Page.numWidgets
  refine ⟨hu, by omega, ?_, ?_⟩
  · intro j hj
    have h1 := map_linkURL_getElem? q.widgets j (by omega)
    have h2 := map_linkURL_getElem? p.widgets j hj
    rw [hk, List.getElem?_append_left (by simpa using hj), h2] at h1
    exact (Option.some.inj h1).symm
  · intro j hj hjq
    have h1 := map_linkURL_getElem? q.widgets j hjq
    rw [hk, List.getElem?_append_right (by simpa using hj)] at h1
    rw [List.getElem?_replicate, if_pos (by simp; omega)] at h1
    exact (Option.some.inj h1).symm

theorem LinkInv.link_start (p : Page) :
    LinkInv (p.widgets.map (fun w => w.linkURL)) p.widgetURL p :=
  ⟨rfl, 0, by simp⟩

/-! ## The index invariant along every run -/

theorem ScanIdx.scanIdx_newLine (cfg : Env) {q : Page} (hi : Idx q)
    (p' : Page) (cur st idx : Nat) (a' : Int)
    (hc : CreateWidget cfg (FinishCurrentLine cfg q) = (p', some cur)) (ha : 0 ≤ a') :
    ScanIdx { page := p', current := cur, addedWidth := a', startIndex := st, index := idx } := by
  have hi' := (hi.idx_finishCurrentLine cfg).idx_createWidget cfg
  have hcur := CreateWidget_snd cfg (FinishCurrentLine cfg q) cur (by rw [hc])
  rw [hc] at hi' hcur
  exact ⟨hi', hcur, ha⟩

theorem ScanIdx.scanIdx_step (cfg : Env) (fs : Nat) (text : List Int) (s : Scan) (c : Int)
    (h : ScanIdx s) :
    (∀ s', scanBody cfg fs text s c = .next s' → ScanIdx s') ∧
      (∀ q, scanBody cfg fs text s c = .ret q → Idx q) := by
  rcases scanBody_cases cfg fs s c with hskip | ⟨h32, h128, hfit | hfit⟩
  · rw [scanBody_skip _ _ _ _ _ hskip]
    constructor
    · intro s' hb
      cases hb
      exact ⟨h.idx, h.cur, h.added_nonneg⟩
    · intro q hb
      cases hb
  · have hadv := advance_nonneg cfg fs (wAt s.page.widgets s.current).style c
    by_cases hsp : c = 32
    · subst hsp
      rw [scanBody_fit_space _ _ _ _ hfit]
      constructor
      · intro s' hb
        cases hb
        exact ⟨h.idx.idx_of_addWidth _ _ _ (by have := h.added_nonneg; omega), h.cur,
          le_refl 0⟩
      · intro q hb
        cases hb
    · rw [scanBody_fit_char _ _ _ _ _ ⟨h32, h128⟩ hsp hfit]
      constructor
      · intro s' hb
        cases hb
        refine ⟨h.idx, h.cur, ?_⟩
        have := h.added_nonneg
        simp only
        omega
      · intro q hb
        cases hb
  · by_cases hw : (wAt s.page.widgets s.current).width = 0
    · by_cases hx : (wAt s.page.widgets s.current).x = 0
      · rw [scanBody_hardBreak _ _ _ _ _ ⟨h32, h128⟩ hfit hw hx]
        have hi0 := h.idx.idx_of_addWidth s.current s.addedWidth
          (copyChars cfg s.page.textBuffer
            ((text.drop s.startIndex).take (s.index - s.startIndex))) h.added_nonneg
        have hi' := (hi0.idx_finishCurrentLine cfg).idx_createWidget cfg
        constructor
        · intro s' hb
          split at hb
          · cases hb
          · next p' cur' hc =>
            cases hb
            exact ScanIdx.scanIdx_newLine cfg hi0 p' cur' _ _ 0 hc (le_refl 0)
        · intro q hb
          split at hb
          · next p' hc =>
            cases hb
            rw [hc] at hi'
            exact hi'
          · cases hb
      · rw [scanBody_relocate _ _ _ _ _ ⟨h32, h128⟩ hfit hw hx]
        constructor
        · intro s' hb
          cases hb
          exact ⟨h.idx.idx_of_relocate cfg _ h.cur, h.cur, h.added_nonneg⟩
        · intro q hb
          cases hb
    · rw [scanBody_wrap _ _ _ _ _ ⟨h32, h128⟩ hfit hw]
      have hi' := (h.idx.idx_finishCurrentLine cfg).idx_createWidget cfg
      constructor
      · intro s' hb
        split at hb
        · cases hb
        · next p' cur' hc =>
          cases hb
          exact ScanIdx.scanIdx_newLine cfg h.idx p' cur' _ _ _ hc h.added_nonneg
      · intro q hb
        split at hb
        · next p' hc =>
          cases hb
          rw [hc] at hi'
          exact hi'
        · cases hb

theorem ScanIdx.scanIdx_flush (cfg : Env) (text : List Int) (s : Scan) (h : ScanIdx s) :
    Idx (scanFlush cfg text s) := by
  unfold scanFlush
  split
  · exact h.idx.idx_of_addWidth _ _ _ h.added_nonneg
  · exact h.idx

theorem AppendText_idx {cfg : Env} {p p' : Page} (text : List Int) (hi : Idx p)
    (h : AppendText cfg p text = some p') : Idx p' := by
  refine AppendText_rule cfg p p' text ScanIdx Idx ?_ ?_ ?_ ?_ ?_ h
  · intro _
    exact hi.idx_appendEntry cfg
  · intro cur hc
    exact ⟨hi.idx_appendEntry cfg, hc, le_refl 0⟩
  · intro fs s c s' hI _ hb
    exact (ScanIdx.scanIdx_step cfg fs text s c hI).1 s' hb
  · intro fs s c q hI _ hb
    exact (ScanIdx.scanIdx_step cfg fs text s c hI).2 q hb
  · intro s hI
    exact hI.scanIdx_flush cfg text s

theorem applyOp_idx (cfg : Env) {p : Page} (op : Op) (hi : Idx p) :
    ∃ p', applyOp cfg p op = some p' ∧ Idx p' := by
  cases op with
  | pushStyle style => exact ⟨_, rfl, hi.idx_pushStyle cfg style⟩
  | popStyle => exact ⟨_, rfl, hi.idx_popStyle⟩
  | appendText text =>
    obtain ⟨p', hp'⟩ := AppendText_total cfg p text hi.idx_current_lt
    exact ⟨p', hp', AppendText_idx text hi hp'⟩
  | breakLine padding => exact ⟨_, rfl, hi.idx_breakLine cfg padding⟩
  | setWidgetURL url => exact ⟨_, rfl, hi.idx_withURL _⟩
  | clearWidgetURL => exact ⟨_, rfl, hi.idx_withURL _⟩

/-- Every run of calls from a page with the index invariant returns, and a property that
every call preserves (on pages with the index invariant) holds at its end. -/
theorem runOps_invariant (cfg : Env) (J : Page → Prop)
    (hstep : ∀ p op p', Idx p → J p → applyOp cfg p op = some p' → J p') (ops : List Op) :
    ∀ p : Page, Idx p → J p → ∃ p', runOps cfg p ops = some p' ∧ Idx p' ∧ J p' := by
  induction ops with
  | nil => intro p hi hj; exact ⟨p, rfl, hi, hj⟩
  | cons op ops ih =>
    intro p hi hj
    obtain ⟨q, hq, hqi⟩ := applyOp_idx cfg op hi
    obtain ⟨p', hp', h'⟩ := ih q hqi (hstep p op q hi hj hq)
    exact ⟨p', by simp [runOps, hq, hp'], h'⟩

@[simp] theorem BreakLine_styleStack (cfg : Env) (p : Page) (padding : Int) :
    (BreakLine cfg p padding).styleStack = p.styleStack := by
  unfold BreakLine
  dsimp only
  split <;> simp

theorem PushStyle_styleStack (cfg : Env) (p : Page) (style : WidgetStyle) :
    (PushStyle cfg p style).styleStack =
      if p.styleStackSize < cfg.maxPageStyleStackSize then p.styleStack ++ [style]
      else p.styleStack := by
  unfold PushStyle
  split <;> simp

theorem PopStyle_styleStack (p : Page) :
    (PopStyle p).styleStack =
      if p.styleStackSize > 1 then p.styleStack.dropLast else p.styleStack := by
  unfold PopStyle
  split <;> simp

theorem applyOp_stackOk (cfg : Env) (p p' : Page) (op : Op) (h : StackOk cfg p)
    (hop : applyOp cfg p op = some p') : StackOk cfg p' := by
  have hpos := h.pos
  have hle := h.le
  have hbase := h.base
  unfold Page.styleStackSize at hpos hle
  cases op with
  | pushStyle style =>
    simp only [applyOp, Option.some.injEq] at hop
    subst hop
    by_cases hlt : p.styleStackSize < cfg.maxPageStyleStackSize
    · have hs := PushStyle_styleStack cfg p style
      rw [if_pos hlt] at hs
      unfold Page.styleStackSize at hlt
      refine ⟨?_, ?_, ?_⟩
      · simp only [Page.styleStackSize, hs, List.length_append, List.length_singleton]
        omega
      · simp only [Page.styleStackSize, hs, List.length_append, List.length_singleton]
        omega
      · rw [hs, List.getElem?_append_left (by omega)]
        exact hbase
    · have hs := PushStyle_styleStack cfg p style
      rw [if_neg hlt] at hs
      exact ⟨by simpa [Page.styleStackSize, hs] using hpos,
        by simpa [Page.styleStackSize, hs] using hle, by rw [hs]; exact hbase⟩
  | popStyle =>
    simp only [applyOp, Option.some.injEq] at hop
    subst hop
    by_cases hgt : p.styleStackSize > 1
    · have hs := PopStyle_styleStack p
      rw [if_pos hgt] at hs
      unfold Page.styleStackSize at hgt
      refine ⟨?_, ?_, ?_⟩
      · simp only [Page.styleStackSize, hs, List.length_dropLast]
        omega
      · simp only [Page.styleStackSize, hs, List.length_dropLast]
        omega
      · rw [hs, List.dropLast_eq_take, List.getElem?_take_of_lt (by omega)]
        exact hbase
    · have hs := PopStyle_styleStack p
      rw [if_neg hgt] at hs
      exact ⟨by simpa [Page.styleStackSize, hs] using hpos,
        by simpa [Page.styleStackSize, hs] using hle, by rw [hs]; exact hbase⟩
  | appendText text =>
    simp only [applyOp] at hop
    have hs := AppendText_styleStack cfg p p' text hop
    exact ⟨by simpa [Page.styleStackSize, hs] using hpos,
      by simpa [Page.styleStackSize, hs] using hle, by rw [hs]; exact hbase⟩
  | breakLine padding =>
    simp only [applyOp, Option.some.injEq] at hop
    subst hop
    exact ⟨by simpa [Page.styleStackSize] using hpos,
      by simpa [Page.styleStackSize] using hle, by simpa using hbase⟩
  | setWidgetURL url =>
    simp only [applyOp, Option.some.injEq] at hop
    subst hop
    exact ⟨hpos, hle, hbase⟩
  | clearWidgetURL =>
    simp only [applyOp, Option.some.injEq] at hop
    subst hop
    exact ⟨hpos, hle, hbase⟩

theorem runOps_total (cfg : Env) (ops : List Op) (p : Page) (hi : Idx p) :
    ∃ q, runOps cfg p ops = some q := by
  obtain ⟨q, hq, -⟩ := runOps_invariant cfg (fun _ => True) (fun _ _ _ _ _ _ => trivial)
    ops p hi trivial
  exact ⟨q, hq⟩

/-! ## The page height -/

theorem scanSteps_preserves (cfg : Env) (P : Page → Prop)
    (hFCL : ∀ p, P p → P (FinishCurrentLine cfg p))
    (hCW : ∀ p, P p → P (CreateWidget cfg p).1)
    (hadd : ∀ p cur a chars, P p → P (addWidth p cur a (copyChars cfg p.textBuffer chars)))
    (hrel : ∀ p cur, P p → P (relocate cfg p cur))
    (fs : Nat) (text : List Int) :
    ∀ (k : Nat) (s0 s : Scan), P s0.page → scanSteps cfg fs text k s0 = some s → P s.page := by
  intro k
  induction k with
  | zero =>
    intro s0 s h0 hs
    simp only [scanSteps, Option.some.injEq] at hs
    subst hs
    exact h0
  | succ k ih =>
    intro s0 s h0 hs
    unfold scanSteps at hs
    cases hget : text[s0.index]? with
    | none => simp [hget] at hs
    | some c =>
      simp only [hget] at hs
      cases hb : scanBody cfg fs text s0 c with
      | next s1 =>
        simp only [hb] at hs
        exact ih s1 s ((scanBody_preserves cfg P hFCL hCW hadd hrel fs text s0 c h0).1 s1 hb) hs
      | ret q => simp [hb] at hs

/-- The page height after `FinishCurrentLine`: the new `cursorY` when a line is closed, the
old page height otherwise. -/
theorem FinishCurrentLine_pageHeight (cfg : Env) (p : Page) :
    (FinishCurrentLine cfg p).pageHeight =
      match p.currentLineStartWidgetIndex with
      | none => p.pageHeight
      | some _ => (FinishCurrentLine cfg p).cursorY := by
  rw [FinishCurrentLine_eq]
  simp only [FinishCurrentWidget_lineStart]
  cases hl : p.currentLineStartWidgetIndex with
  | none => simp
  | some s => simp

theorem High.high_finishCurrentWidget {a : Int} {q : Page} (h : High a q) :
    High a (FinishCurrentWidget q) := by
  unfold High
  simpa using h

theorem High.high_finishCurrentLine {a : Int} {q : Page} (h : High a q) (cfg : Env) :
    High a (FinishCurrentLine cfg q) := by
  obtain ⟨h1, h2, h3⟩ := h
  have hc := FinishCurrentLine_cursorY cfg q
  have hL := lineHeightOf_nonneg (FinishCurrentWidget q)
  have hp := FinishCurrentLine_pageHeight cfg q
  refine ⟨by simpa using h1, ?_, ?_⟩
  · cases hl : q.currentLineStartWidgetIndex with
    | none =>
      rw [hl] at hp
      rw [hp]
      exact h2
    | some s =>
      rw [hl] at hp
      simp only at hp
      rw [hp, hc]
      omega
  · cases hl : q.currentLineStartWidgetIndex with
    | none =>
      rw [hl] at hp
      simp only at hp
      rw [hp, hc]
      omega
    | some s =>
      rw [hl] at hp
      simp only at hp
      rw [hp]

theorem High.high_createWidget {a : Int} {q : Page} (h : High a q) (cfg : Env) :
    High a (CreateWidget cfg q).1 := by
  obtain ⟨h1, h2, h3⟩ := h
  by_cases hcap : q.widgets.length < cfg.maxPageWidgets
  · rw [CreateWidget_ok cfg q hcap]
    refine ⟨le_refl 0, ?_, ?_⟩
    · simpa using h2
    · simp only [FinishCurrentWidget_pageHeight, FinishCurrentWidget_cursorY]
      omega
  · rw [CreateWidget_fail cfg q hcap]
    exact ⟨by simpa using h1, by simpa using h2, by simpa using h3⟩

theorem High.high_addWidth {a : Int} {q : Page} (h : High a q) (cur : Nat) (w : Int)
    (buf : List Int) : High a (addWidth q cur w buf) := h

theorem High.high_relocate {a : Int} {q : Page} (h : High a q) (cfg : Env) (cur : Nat) :
    High a (relocate cfg q cur) := by
  have h0 : High a { q with currentWidgetIndex := none } := h
  exact h0.high_finishCurrentLine cfg

theorem High.high_applyOp {a : Int} {q q' : Page} (h : High a q) (cfg : Env) (op : Op)
    (hq : applyOp cfg q op = some q') : High a q' := by
  cases op with
  | pushStyle style =>
    simp only [applyOp, Option.some.injEq] at hq
    subst hq
    unfold PushStyle
    split
    · exact High.high_finishCurrentWidget h
    · exact h
  | popStyle =>
    simp only [applyOp, Option.some.injEq] at hq
    subst hq
    unfold PopStyle
    split
    · exact High.high_finishCurrentWidget h
    · exact h.high_finishCurrentWidget
  | appendText text =>
    simp only [applyOp] at hq
    exact AppendText_preserves cfg (High a)
      (fun _ hp => hp.high_finishCurrentLine cfg) (fun _ hp => hp.high_createWidget cfg)
      (fun _ _ _ _ hp => hp.high_addWidth _ _ _) (fun _ _ hp => hp.high_relocate cfg _)
      q q' text h hq
  | breakLine padding =>
    simp only [applyOp, Option.some.injEq] at hq
    subst hq
    obtain ⟨h1, h2, h3⟩ := h.high_finishCurrentLine cfg
    unfold BreakLine
    dsimp only
    split
    · next hgt => exact ⟨by simp only; omega, h2, h3⟩
    · exact ⟨h1, h2, h3⟩
  | setWidgetURL url =>
    simp only [applyOp, Option.some.injEq] at hq
    subst hq
    exact h
  | clearWidgetURL =>
    simp only [applyOp, Option.some.injEq] at hq
    subst hq
    exact h

theorem High.high_runOps {a : Int} (cfg : Env) (ops : List Op) :
    ∀ q q' : Page, High a q → runOps cfg q ops = some q' → High a q' := by
  induction ops with
  | nil =>
    intro q q' h hq
    simp only [runOps, Option.some.injEq] at hq
    subst hq
    exact h
  | cons op ops ih =>
    intro q q' h hq
    unfold runOps at hq
    cases hop : applyOp cfg q op with
    | none => simp [hop] at hq
    | some q1 =>
      simp only [hop] at hq
      exact ih q1 q' (h.high_applyOp cfg op hop) hq

theorem High.high_fresh (cfg : Env) : High 0 (Page.fresh cfg) :=
  ⟨le_refl 0, le_refl 0, le_refl 0⟩

/-- On a page with `pageHeight ≤ cursorY`, a `FinishCurrentLine` that closes a line sets the
page height to the larger of the old page height and the new `cursorY`. -/
theorem FinishCurrentLine_pageHeight_max (cfg : Env) (q : Page) (s : Nat)
    (hq : q.pageHeight ≤ q.cursorY) (hs : q.currentLineStartWidgetIndex = some s) :
    (FinishCurrentLine cfg q).pageHeight = max q.pageHeight (FinishCurrentLine cfg q).cursorY := by
  have hp := FinishCurrentLine_pageHeight cfg q
  rw [hs] at hp
  simp only at hp
  have hc := FinishCurrentLine_cursorY cfg q
  have hL := lineHeightOf_nonneg (FinishCurrentWidget q)
  rw [hp, max_eq_right (by omega)]

/-! ## The capacities -/

theorem copyChars_length_le (cfg : Env) (b : Nat) (chars : List Int) :
    ∀ buf : List Int, buf.length ≤ max b cfg.maxTextBufferSize →
      (copyChars cfg buf chars).length ≤ max b cfg.maxTextBufferSize := by
  induction chars with
  | nil => intro buf h; exact h
  | cons c cs ih =>
    intro buf h
    unfold copyChars
    rw [List.foldl_cons]
    by_cases hlt : buf.length < cfg.maxTextBufferSize
    · rw [if_pos hlt]
      refine ih (buf ++ [c]) ?_
      have : (buf ++ [c]).length ≤ cfg.maxTextBufferSize := by
        simp only [List.length_append, List.length_singleton]
        omega
      exact le_trans this (le_max_right _ _)
    · rw [if_neg hlt]
      exact ih buf h

theorem Caps.caps_finishCurrentWidget {cfg : Env} {b : Nat} {q : Page} (h : Caps cfg b q) :
    Caps cfg b (FinishCurrentWidget q) := by
  refine ⟨by simpa using h.1, ?_⟩
  unfold FinishCurrentWidget
  split
  · exact h.2
  · exact Nat.zero_le _

theorem Caps.caps_finishCurrentLine {cfg : Env} {b : Nat} {q : Page} (h : Caps cfg b q) :
    Caps cfg b (FinishCurrentLine cfg q) := by
  have h' := h.caps_finishCurrentWidget
  exact ⟨by simpa using h.1, by simpa using h'.2⟩

theorem Caps.caps_createWidget {cfg : Env} {b : Nat} {q : Page} (h : Caps cfg b q) :
    Caps cfg b (CreateWidget cfg q).1 := by
  have h' := h.caps_finishCurrentWidget
  by_cases hcap : q.widgets.length < cfg.maxPageWidgets
  · rw [CreateWidget_ok cfg q hcap]
    refine ⟨?_, h'.2⟩
    simp only [List.length_append, FinishCurrentWidget_length, List.length_singleton]
    omega
  · rw [CreateWidget_fail cfg q hcap]
    exact ⟨h'.1, h'.2⟩

theorem Caps.caps_addWidth {cfg : Env} {b : Nat} {q : Page} (h : Caps cfg b q) (cur : Nat)
    (a : Int) (chars : List Int) :
    Caps cfg b (addWidth q cur a (copyChars cfg q.textBuffer chars)) := by
  refine ⟨?_, copyChars_length_le cfg b chars _ h.2⟩
  simpa [addWidth] using h.1

theorem Caps.caps_relocate {cfg : Env} {b : Nat} {q : Page} (h : Caps cfg b q) (cur : Nat) :
    Caps cfg b (relocate cfg q cur) := by
  have h0 : Caps cfg b { q with currentWidgetIndex := none } := h
  have h1 := h0.caps_finishCurrentLine
  refine ⟨?_, h1.2⟩
  have := h1.1
  simpa [relocate] using this

theorem Caps.caps_applyOp {cfg : Env} {b : Nat} {q q' : Page} (h : Caps cfg b q) (op : Op)
    (hq : applyOp cfg q op = some q') : Caps cfg b q' := by
  cases op with
  | pushStyle style =>
    simp only [applyOp, Option.some.injEq] at hq
    subst hq
    unfold PushStyle
    split
    · exact Caps.caps_finishCurrentWidget h
    · exact h
  | popStyle =>
    simp only [applyOp, Option.some.injEq] at hq
    subst hq
    unfold PopStyle
    split
    · exact Caps.caps_finishCurrentWidget h
    · exact h.caps_finishCurrentWidget
  | appendText text =>
    simp only [applyOp] at hq
    exact AppendText_preserves cfg (Caps cfg b)
      (fun _ hp => hp.caps_finishCurrentLine) (fun _ hp => hp.caps_createWidget)
      (fun _ _ _ _ hp => hp.caps_addWidth _ _ _) (fun _ _ hp => hp.caps_relocate _)
      q q' text h hq
  | breakLine padding =>
    simp only [applyOp, Option.some.injEq] at hq
    subst hq
    have h' := h.caps_finishCurrentLine
    unfold BreakLine
    dsimp only
    split
    · exact ⟨h'.1, h'.2⟩
    · exact h'
  | setWidgetURL url =>
    simp only [applyOp, Option.some.injEq] at hq
    subst hq
    exact h
  | clearWidgetURL =>
    simp only [applyOp, Option.some.injEq] at hq
    subst hq
    exact h

theorem Idx.idx_init (cfg : Env) (buf : List Int) : Idx (Page.init cfg buf) := by
  constructor <;> simp [Page.init, Page.fresh, wAt, default_widget_width, default_widget_height]

/-! ## The number of passes of the scan loop -/

/-- A pass of the scan loop that goes on to another pass consumes a character, creates a
widget at the left edge, or moves the current widget to the left edge. -/
theorem scanBody_next_progress (cfg : Env) (fs : Nat) (text : List Int) (s s' : Scan) (c : Int)
    (hcur : s.current < s.page.widgets.length) (hget : text[s.index]? = some c)
    (hb : scanBody cfg fs text s c = .next s') :
    s'.current < s'.page.widgets.length ∧ scanProgress s + 1 ≤ scanProgress s' ∧
      s'.index ≤ text.length ∧ s.page.widgets.length ≤ s'.page.widgets.length ∧
      s'.page.widgets.length ≤ max s.page.widgets.length cfg.maxPageWidgets := by
  have hidx : s.index < text.length := by
    by_contra hcon
    rw [List.getElem?_eq_none (by omega)] at hget
    cases hget
  rcases scanBody_cases cfg fs s c with hskip | ⟨h32, h128, hfit | hfit⟩
  · rw [scanBody_skip _ _ _ _ _ hskip] at hb
    cases hb
    refine ⟨hcur, ?_, by simp only; omega, le_refl _, le_max_left _ _⟩
    simp only [scanProgress]
    omega
  · by_cases hsp : c = 32
    · subst hsp
      rw [scanBody_fit_space _ _ _ _ hfit] at hb
      cases hb
      refine ⟨by simpa using hcur, ?_, by simp only; omega, by simp, by simp⟩
      simp only [scanProgress, addWidth_length, addWidth_wAt_x]
      omega
    · rw [scanBody_fit_char _ _ _ _ _ ⟨h32, h128⟩ hsp hfit] at hb
      cases hb
      refine ⟨hcur, ?_, by simp only; omega, le_refl _, le_max_left _ _⟩
      simp only [scanProgress]
      omega
  · by_cases hw : (wAt s.page.widgets s.current).width = 0
    · by_cases hx : (wAt s.page.widgets s.current).x = 0
      · rw [scanBody_hardBreak _ _ _ _ _ ⟨h32, h128⟩ hfit hw hx] at hb
        by_cases hcap : s.page.widgets.length < cfg.maxPageWidgets
        · obtain ⟨p', hc, hws, hnx, -⟩ := CreateWidget_FinishCurrentLine_ok cfg
            (addWidth s.page s.current s.addedWidth (copyChars cfg s.page.textBuffer
                ((text.drop s.startIndex).take (s.index - s.startIndex))))
            (by simpa [addWidth] using hcap)
          rw [hc] at hb
          simp only [addWidth_length] at hb hws
          cases hb
          have hlen : p'.widgets.length = s.page.widgets.length + 1 := by
            rw [hws]
            simp
          have hx' : (wAt p'.widgets s.page.widgets.length).x = 0 := by
            rw [hws]
            have := wAt_append_right (FinishCurrentLine cfg (addWidth s.page s.current
              s.addedWidth (copyChars cfg s.page.textBuffer
                ((text.drop s.startIndex).take (s.index - s.startIndex))))).widgets
              (newWidget cfg (FinishCurrentLine cfg (addWidth s.page s.current
              s.addedWidth (copyChars cfg s.page.textBuffer
                ((text.drop s.startIndex).take (s.index - s.startIndex))))))
            simp only [FinishCurrentLine_length, addWidth_length] at this
            rw [this]
            exact hnx
          refine ⟨by simp only; omega, ?_, by simp only; omega, by simp only; omega, ?_⟩
          · simp only [scanProgress, hlen, hx', hx, ↓reduceIte]
            omega
          · simp only [hlen]
            omega
        · rw [CreateWidget_FinishCurrentLine_fail cfg _ (by simpa [addWidth] using hcap)] at hb
          cases hb
      · rw [scanBody_relocate _ _ _ _ _ ⟨h32, h128⟩ hfit hw hx] at hb
        cases hb
        refine ⟨by simpa using hcur, ?_, by simp only; omega, by simp, by simp⟩
        simp only [scanProgress, relocate_length, relocate_wAt, hcur, and_self, ↓reduceIte, hx]
        omega
    · rw [scanBody_wrap _ _ _ _ _ ⟨h32, h128⟩ hfit hw] at hb
      by_cases hcap : s.page.widgets.length < cfg.maxPageWidgets
      · obtain ⟨p', hc, hws, hnx, -⟩ := CreateWidget_FinishCurrentLine_ok cfg s.page hcap
        rw [hc] at hb
        cases hb
        have hlen : p'.widgets.length = s.page.widgets.length + 1 := by
          rw [hws]
          simp
        have hx' : (wAt p'.widgets s.page.widgets.length).x = 0 := by
          rw [hws]
          have := wAt_append_right (FinishCurrentLine cfg s.page).widgets
            (newWidget cfg (FinishCurrentLine cfg s.page))
          simp only [FinishCurrentLine_length] at this
          rw [this]
          exact hnx
        refine ⟨by simp only; omega, ?_, by simp only; omega, by simp only; omega, ?_⟩
        · simp only [scanProgress, hlen, hx', ↓reduceIte]
          split <;> omega
        · simp only [hlen]
          omega
      · rw [CreateWidget_FinishCurrentLine_fail cfg _ hcap] at hb
        cases hb

/-- After `k` passes the progress of the scan has grown by at least `k`. -/
theorem scanSteps_progress (cfg : Env) (fs : Nat) (text : List Int) :
    ∀ (k : Nat) (s0 s : Scan), s0.current < s0.page.widgets.length →
      s0.index ≤ text.length → scanSteps cfg fs text k s0 = some s →
      scanProgress s0 + k ≤ scanProgress s ∧ s.index ≤ text.length ∧
        s0.page.widgets.length ≤ s.page.widgets.length ∧
        s.page.widgets.length ≤ max s0.page.widgets.length cfg.maxPageWidgets := by
  intro k
  induction k with
  | zero =>
    intro s0 s _ h0 hs
    simp only [scanSteps, Option.some.injEq] at hs
    subst hs
    exact ⟨le_refl _, h0, le_refl _, le_max_left _ _⟩
  | succ k ih =>
    intro s0 s hcur h0 hs
    unfold scanSteps at hs
    cases hget : text[s0.index]? with
    | none => simp [hget] at hs
    | some c =>
      simp only [hget] at hs
      cases hb : scanBody cfg fs text s0 c with
      | next s1 =>
        simp only [hb] at hs
        obtain ⟨hc1, hp1, hi1, hl1, hm1⟩ := scanBody_next_progress cfg fs text s0 s1 c hcur hget hb
        obtain ⟨hp, hi, hl, hm⟩ := ih s1 s hc1 hi1 hs
        refine ⟨by omega, hi, by omega, ?_⟩
        rcases le_max_iff.mp hm with h | h
        · exact le_trans h hm1
        · exact le_trans h (le_max_right _ _)
      | ret q => simp [hb] at hs

/-- At capacity, an overflow that is not a relocation ends the scan. -/
theorem scanBody_ret_at_capacity (cfg : Env) (fs : Nat) (text : List Int) (s : Scan) (c : Int)
    (hp : 32 ≤ c ∧ c ≤ 128)
    (hfit : ¬ (wAt s.page.widgets s.current).x + (wAt s.page.widgets s.current).width
      + s.addedWidth + advance cfg fs (wAt s.page.widgets s.current).style c
        < cfg.windowWidth)
    (hnr : (wAt s.page.widgets s.current).width ≠ 0 ∨ (wAt s.page.widgets s.current).x = 0)
    (hcap : ¬ s.page.widgets.length < cfg.maxPageWidgets) :
    ∃ q, scanBody cfg fs text s c = .ret q := by
  by_cases hw : (wAt s.page.widgets s.current).width = 0
  · have hx : (wAt s.page.widgets s.current).x = 0 := by
      rcases hnr with h | h
      · exact absurd hw h
      · exact h
    rw [scanBody_hardBreak _ _ _ _ _ hp hfit hw hx,
      CreateWidget_FinishCurrentLine_fail cfg _ (by simpa [addWidth] using hcap)]
    exact ⟨_, rfl⟩
  · rw [scanBody_wrap _ _ _ _ _ hp hfit hw, CreateWidget_FinishCurrentLine_fail cfg _ hcap]
    exact ⟨_, rfl⟩

/-! ## The layout does not depend on the characters the scan skips -/

@[simp] theorem noText_noText (w : Widget) : w.noText.noText = w.noText := by
  cases w with
  | mk x y width height text linkURL style =>
    cases text <;> rfl

theorem noText_default : (default : Widget).noText = default := rfl

theorem wAt_map_noText (ws : List Widget) (j : Nat) :
    wAt (ws.map Widget.noText) j = (wAt ws j).noText := by
  unfold wAt
  rw [List.getElem?_map]
  cases ws[j]? with
  | none => rfl
  | some w => rfl

theorem wUpd_map_noText (ws : List Widget) (i : Nat) (f g : Widget → Widget)
    (h : ∀ w, (f w).noText = g w.noText) :
    (wUpd ws i f).map Widget.noText = wUpd (ws.map Widget.noText) i g := by
  unfold wUpd
  rw [List.map_set, wAt_map_noText, h]

theorem lineLoop_map_noText (ws : List Widget) :
    ∀ a b : Int, lineLoop a b (ws.map Widget.noText) = lineLoop a b ws := by
  induction ws with
  | nil => intro a b; rfl
  | cons w ws ih =>
    intro a b
    simp only [List.map_cons, lineLoop]
    exact ih _ _

theorem alignWidget_noText (h a : Int) (w : Widget) :
    (alignWidget h a w).noText = alignWidget h a w.noText := rfl

@[simp] theorem layout_layout (p : Page) : p.layout.layout = p.layout := by
  simp [Page.layout, Function.comp_def]

theorem layout_wAt {p q : Page} (h : p.layout = q.layout) (j : Nat) :
    (wAt p.widgets j).noText = (wAt q.widgets j).noText := by
  have hw : p.widgets.map Widget.noText = q.widgets.map Widget.noText :=
    congrArg Page.widgets h
  rw [← wAt_map_noText, ← wAt_map_noText, hw]

theorem layout_length {p q : Page} (h : p.layout = q.layout) :
    p.widgets.length = q.widgets.length := by
  have hw : p.widgets.map Widget.noText = q.widgets.map Widget.noText :=
    congrArg Page.widgets h
  simpa using congrArg List.length hw

theorem FinishCurrentWidget_layout (p : Page) :
    (FinishCurrentWidget p).layout = FinishCurrentWidget p.layout := by
  unfold FinishCurrentWidget
  cases hc : p.currentWidgetIndex with
  | none =>
    have : p.layout.currentWidgetIndex = none := hc
    simp only [this]
  | some i =>
    have : p.layout.currentWidgetIndex = some i := hc
    simp only [this]
    have hw := wUpd_map_noText p.widgets i (fun w => { w with text := some p.textBuffer })
      (fun w => { w with text := some [] }) (fun w => rfl)
    have hx : (wAt (p.widgets.map Widget.noText) i).width = (wAt p.widgets i).width := by
      rw [wAt_map_noText]
      rfl
    simp only [Page.layout, hw, hx]

theorem FinishCurrentLine_layout (cfg : Env) (p : Page) :
    (FinishCurrentLine cfg p).layout = FinishCurrentLine cfg p.layout := by
  unfold FinishCurrentLine
  simp only [← FinishCurrentWidget_layout]
  generalize FinishCurrentWidget p = q
  cases hl : q.currentLineStartWidgetIndex with
  | none =>
    have : q.layout.currentLineStartWidgetIndex = none := hl
    simp only [this]
    simp only [Page.layout, hl]
  | some s =>
    have : q.layout.currentLineStartWidgetIndex = some s := hl
    simp only [this]
    have hd : q.layout.widgets.drop s = (q.widgets.drop s).map Widget.noText := by
      simp [Page.layout, List.map_drop]
    have ht : q.layout.widgets.take s = (q.widgets.take s).map Widget.noText := by
      simp [Page.layout, List.map_take]
    simp only [hd, ht, lineLoop_map_noText]
    simp only [Page.layout, List.map_append, List.map_map, List.map_drop, List.map_take,
      Function.comp_def, alignWidget_noText, List.map_cons, List.map_nil, noText_noText]

theorem newWidget_layout (cfg : Env) (q : Page) : newWidget cfg q.layout = newWidget cfg q := rfl

theorem newWidget_noText (cfg : Env) (q : Page) : (newWidget cfg q).noText = newWidget cfg q :=
  rfl

theorem CreateWidget_layout (cfg : Env) (p : Page) :
    CreateWidget cfg p.layout = ((CreateWidget cfg p).1.layout, (CreateWidget cfg p).2) := by
  have hlen : p.layout.widgets.length = p.widgets.length := by simp [Page.layout]
  by_cases hcap : p.widgets.length < cfg.maxPageWidgets
  · rw [CreateWidget_ok cfg p hcap, CreateWidget_ok cfg p.layout (by rw [hlen]; exact hcap),
      ← FinishCurrentWidget_layout, newWidget_layout, hlen]
    simp only [Page.layout, List.map_append, List.map_cons, List.map_nil, newWidget_noText]
  · rw [CreateWidget_fail cfg p hcap, CreateWidget_fail cfg p.layout (by rw [hlen]; exact hcap),
      ← FinishCurrentWidget_layout]

theorem addWidth_layout (p : Page) (cur : Nat) (a : Int) (buf : List Int) :
    (addWidth p cur a buf).layout = addWidth p.layout cur a [] := by
  unfold addWidth
  have hw := wUpd_map_noText p.widgets cur (fun w => { w with width := w.width + a })
    (fun w => { w with width := w.width + a }) (fun w => rfl)
  simp only [Page.layout, hw]

theorem relocate_layout (cfg : Env) (p : Page) (cur : Nat) :
    (relocate cfg p cur).layout = relocate cfg p.layout cur := by
  have h0 : ({ p with currentWidgetIndex := none } : Page).layout
      = { p.layout with currentWidgetIndex := none } := rfl
  unfold relocate
  rw [← h0, ← FinishCurrentLine_layout]
  generalize FinishCurrentLine cfg { p with currentWidgetIndex := none } = q
  have hw := wUpd_map_noText q.widgets cur (fun w => { w with x := q.cursorX, y := q.cursorY })
    (fun w => { w with x := q.cursorX, y := q.cursorY }) (fun w => rfl)
  simp only [Page.layout, hw]

/-- Pages with the same layout have the same layout after each primitive operation. -/
theorem layout_congr {p q : Page} (h : p.layout = q.layout) (cfg : Env) :
    (FinishCurrentLine cfg p).layout = (FinishCurrentLine cfg q).layout ∧
      (CreateWidget cfg p).1.layout = (CreateWidget cfg q).1.layout ∧
      (CreateWidget cfg p).2 = (CreateWidget cfg q).2 ∧
      (∀ cur a b1 b2, (addWidth p cur a b1).layout = (addWidth q cur a b2).layout) ∧
      (∀ cur, (relocate cfg p cur).layout = (relocate cfg q cur).layout) := by
  refine ⟨?_, ?_, ?_, ?_, ?_⟩
  · rw [FinishCurrentLine_layout, FinishCurrentLine_layout, h]
  · have h1 := CreateWidget_layout cfg p
    have h2 := CreateWidget_layout cfg q
    rw [h] at h1
    rw [h1] at h2
    exact (Prod.mk.inj h2).1
  · have h1 := CreateWidget_layout cfg p
    have h2 := CreateWidget_layout cfg q
    rw [h] at h1
    rw [h1] at h2
    exact (Prod.mk.inj h2).2
  · intro cur a b1 b2
    rw [addWidth_layout, addWidth_layout, h]
  · intro cur
    rw [relocate_layout, relocate_layout, h]

/-- On scan states with the same layout, the same current widget and the same pending width,
a pass on the same printable character has the same outcome, whatever the two texts are:
both go on, with the same layout and the same move of the scan index, or both return, with
the same layout. -/
theorem scanBody_layout (cfg : Env) (fs : Nat) (text text' : List Int) (s t : Scan) (c : Int)
    (hl : s.page.layout = t.page.layout) (hc : s.current = t.current)
    (ha : s.addedWidth = t.addedWidth) (hp : 32 ≤ c ∧ c ≤ 128) :
    (∃ s' t', scanBody cfg fs text s c = .next s' ∧ scanBody cfg fs text' t c = .next t' ∧
        s'.page.layout = t'.page.layout ∧ s'.current = t'.current ∧
        s'.addedWidth = t'.addedWidth ∧
        ((s'.index = s.index + 1 ∧ t'.index = t.index + 1) ∨
          (s'.index = s.index ∧ t'.index = t.index))) ∨
      (∃ p q, scanBody cfg fs text s c = .ret p ∧ scanBody cfg fs text' t c = .ret q ∧
        p.layout = q.layout) := by
  have hw := layout_wAt hl s.current
  have hx : (wAt s.page.widgets s.current).x = (wAt t.page.widgets t.current).x := by
    rw [← hc]
    have h0 : (wAt s.page.widgets s.current).noText.x
        = (wAt t.page.widgets s.current).noText.x := congrArg Widget.x hw
    exact h0
  have hwd : (wAt s.page.widgets s.current).width = (wAt t.page.widgets t.current).width := by
    rw [← hc]
    have h0 : (wAt s.page.widgets s.current).noText.width
        = (wAt t.page.widgets s.current).noText.width := congrArg Widget.width hw
    exact h0
  have hst : (wAt s.page.widgets s.current).style = (wAt t.page.widgets t.current).style := by
    rw [← hc]
    have h0 : (wAt s.page.widgets s.current).noText.style
        = (wAt t.page.widgets s.current).noText.style := congrArg Widget.style hw
    exact h0
  by_cases hfit : (wAt s.page.widgets s.current).x + (wAt s.page.widgets s.current).width
      + s.addedWidth + advance cfg fs (wAt s.page.widgets s.current).style c < cfg.windowWidth
  · have hfit' : (wAt t.page.widgets t.current).x + (wAt t.page.widgets t.current).width
        + t.addedWidth + advance cfg fs (wAt t.page.widgets t.current).style c
          < cfg.windowWidth := by
      rw [← hx, ← hwd, ← hst, ← ha]
      exact hfit
    left
    by_cases hsp : c = 32
    · subst hsp
      refine ⟨_, _, scanBody_fit_space cfg fs text s hfit, scanBody_fit_space cfg fs text' t hfit',
        ?_, hc, rfl, Or.inl ⟨rfl, rfl⟩⟩
      simp only
      rw [hst, ha, hc]
      exact (layout_congr hl cfg).2.2.2.1 _ _ _ _
    · refine ⟨_, _, scanBody_fit_char cfg fs text s c hp hsp hfit,
        scanBody_fit_char cfg fs text' t c hp hsp hfit', hl, hc, ?_, Or.inl ⟨rfl, rfl⟩⟩
      simp only
      rw [hst, ha]
  · have hfit' : ¬ ((wAt t.page.widgets t.current).x + (wAt t.page.widgets t.current).width
        + t.addedWidth + advance cfg fs (wAt t.page.widgets t.current).style c
          < cfg.windowWidth) := by
      rw [← hx, ← hwd, ← hst, ← ha]
      exact hfit
    by_cases hw0 : (wAt s.page.widgets s.current).width = 0
    · have hw0' : (wAt t.page.widgets t.current).width = 0 := by rw [← hwd]; exact hw0
      by_cases hx0 : (wAt s.page.widgets s.current).x = 0
      · have hx0' : (wAt t.page.widgets t.current).x = 0 := by rw [← hx]; exact hx0
        rw [scanBody_hardBreak cfg fs text s c hp hfit hw0 hx0,
          scanBody_hardBreak cfg fs text' t c hp hfit' hw0' hx0']
        have h1 := (layout_congr hl cfg).2.2.2.1 s.current s.addedWidth
          (copyChars cfg s.page.textBuffer ((text.drop s.startIndex).take (s.index - s.startIndex)))
          (copyChars cfg t.page.textBuffer
            ((text'.drop t.startIndex).take (t.index - t.startIndex)))
        have h2 := (layout_congr h1 cfg).1
        have h3 := (layout_congr h2 cfg).2
        rw [← hc, ← ha]
        rcases hcs : CreateWidget cfg (FinishCurrentLine cfg (addWidth s.page s.current
          s.addedWidth (copyChars cfg s.page.textBuffer
            ((text.drop s.startIndex).take (s.index - s.startIndex))))) with ⟨ps, os⟩
        rcases hct : CreateWidget cfg (FinishCurrentLine cfg (addWidth t.page s.current
          s.addedWidth (copyChars cfg t.page.textBuffer
            ((text'.drop t.startIndex).take (t.index - t.startIndex))))) with ⟨pt, ot⟩
        rw [hcs, hct] at h3
        have h4 : ps.layout = pt.layout := h3.1
        have h5 : os = ot := h3.2.1
        subst h5
        cases os with
        | none => exact Or.inr ⟨ps, pt, rfl, rfl, h4⟩
        | some cur => exact Or.inl ⟨_, _, rfl, rfl, h4, rfl, rfl, Or.inr ⟨rfl, rfl⟩⟩
      · have hx0' : (wAt t.page.widgets t.current).x ≠ 0 := by rw [← hx]; exact hx0
        left
        refine ⟨_, _, scanBody_relocate cfg fs text s c hp hfit hw0 hx0,
          scanBody_relocate cfg fs text' t c hp hfit' hw0' hx0', ?_, hc, ha,
          Or.inr ⟨rfl, rfl⟩⟩
        simp only
        rw [← hc]
        exact (layout_congr hl cfg).2.2.2.2 _
    · have hw0' : (wAt t.page.widgets t.current).width ≠ 0 := by rw [← hwd]; exact hw0
      rw [scanBody_wrap cfg fs text s c hp hfit hw0, scanBody_wrap cfg fs text' t c hp hfit' hw0']
      have h2 := (layout_congr hl cfg).1
      have h3 := (layout_congr h2 cfg).2
      rcases hcs : CreateWidget cfg (FinishCurrentLine cfg s.page) with ⟨ps, os⟩
      rcases hct : CreateWidget cfg (FinishCurrentLine cfg t.page) with ⟨pt, ot⟩
      rw [hcs, hct] at h3
      have h4 : ps.layout = pt.layout := h3.1
      have h5 : os = ot := h3.2.1
      subst h5
      cases os with
      | none => exact Or.inr ⟨ps, pt, rfl, rfl, h4⟩
      | some cur => exact Or.inl ⟨_, _, rfl, rfl, h4, rfl, ha, Or.inr ⟨rfl, rfl⟩⟩

theorem printable_iff (c : Int) : printable c = true ↔ 32 ≤ c ∧ c ≤ 128 := by
  unfold printable
  simp only [Bool.not_eq_true', decide_eq_false_iff_not]
  omega

theorem not_printable_iff (c : Int) : printable c = false ↔ c < 32 ∨ c > 128 := by
  unfold printable
  rw [Bool.not_eq_false', decide_eq_true_eq]

theorem drop_of_getElem? (l : List Int) (i : Nat) (c : Int) (h : l[i]? = some c) :
    l.drop i = c :: l.drop (i + 1) := by
  have hi : i < l.length := by
    by_contra hcon
    rw [List.getElem?_eq_none (by omega)] at h
    cases h
  rw [List.getElem?_eq_getElem hi] at h
  rw [List.drop_eq_getElem_cons hi, Option.some.inj h]

theorem getElem?_of_drop_cons (l : List Int) (j : Nat) (c : Int) (rest : List Int)
    (h : l.drop j = c :: rest) : l[j]? = some c ∧ l.drop (j + 1) = rest := by
  constructor
  · have : (l.drop j)[0]? = l[j + 0]? := by rw [List.getElem?_drop]
    rw [h] at this
    simpa using this.symm
  · have : (l.drop j).drop 1 = l.drop (j + 1) := by
      rw [List.drop_drop]
    rw [← this, h]
    rfl

theorem getElem?_of_drop_nil (l : List Int) (j : Nat) (h : l.drop j = []) : l[j]? = none := by
  rw [List.drop_eq_nil_iff] at h
  exact List.getElem?_eq_none h

/-- The scan of a text and the scan of the same text without the characters that the filter
skips end the same way, with the same layout. -/
theorem scanLoop_filter (cfg : Env) (fs : Nat) (text : List Int) :
    ∀ (f : Nat) (s t : Scan) (r : Flow),
      s.page.layout = t.page.layout → s.current = t.current → s.addedWidth = t.addedWidth →
      (text.filter printable).drop t.index = (text.drop s.index).filter printable →
      scanLoop cfg fs text f s = some r →
      ∃ f' r', scanLoop cfg fs (text.filter printable) f' t = some r' ∧
        ((∃ s' t', r = .next s' ∧ r' = .next t' ∧ s'.page.layout = t'.page.layout ∧
            s'.current = t'.current ∧ s'.addedWidth = t'.addedWidth) ∨
          (∃ p q, r = .ret p ∧ r' = .ret q ∧ p.layout = q.layout)) := by
  intro f
  induction f with
  | zero =>
    intro s t r _ _ _ _ h
    simp [scanLoop] at h
  | succ f ih =>
    intro s t r hl hc ha hd h
    cases hget : text[s.index]? with
    | none =>
      rw [scanLoop_done cfg fs text f s hget] at h
      cases h
      have hnil : text.drop s.index = [] := by
        rw [List.drop_eq_nil_iff]
        by_contra hcon
        rw [List.getElem?_eq_getElem (by omega)] at hget
        cases hget
      rw [hnil] at hd
      have hget' := getElem?_of_drop_nil _ _ hd
      exact ⟨1, .next t, scanLoop_done cfg fs _ 0 t hget', Or.inl ⟨s, t, rfl, rfl, hl, hc, ha⟩⟩
    | some c =>
      have hdrop := drop_of_getElem? text s.index c hget
      cases hpr : printable c with
      | false =>
        have hskip := (not_printable_iff c).mp hpr
        have hb := scanBody_skip cfg fs text s c hskip
        rw [scanLoop_next cfg fs text f s _ c hget hb] at h
        refine ih { s with index := s.index + 1 } t r hl hc ha ?_ h
        rw [hd, hdrop, List.filter_cons_of_neg (by simp [hpr])]
      | true =>
        have hp := (printable_iff c).mp hpr
        rw [hdrop, List.filter_cons_of_pos (by simp [hpr])] at hd
        obtain ⟨hget', hd'⟩ := getElem?_of_drop_cons _ _ _ _ hd
        rcases scanBody_layout cfg fs text (text.filter printable) s t c hl hc ha hp with
          ⟨s', t', hbs, hbt, hl', hc', ha', hidx⟩ | ⟨p, q, hbs, hbt, hpq⟩
        · rw [scanLoop_next cfg fs text f s s' c hget hbs] at h
          have hd'' : (text.filter printable).drop t'.index
              = (text.drop s'.index).filter printable := by
            rcases hidx with ⟨h1, h2⟩ | ⟨h1, h2⟩
            · rw [h1, h2, hd']
            · rw [h1, h2, hd, hdrop, List.filter_cons_of_pos (by simp [hpr])]
          obtain ⟨f', r', hr', hres⟩ := ih s' t' r hl' hc' ha' hd'' h
          exact ⟨f' + 1, r', by
            rw [scanLoop_next cfg fs _ f' t t' c hget' hbt]
            exact hr', hres⟩
        · rw [scanLoop_ret cfg fs text f s c p hget hbs] at h
          cases h
          exact ⟨1, .ret q, scanLoop_ret cfg fs _ 0 t c q hget' hbt, Or.inr ⟨p, q, rfl, rfl, hpq⟩⟩

theorem scanFlush_layout (cfg : Env) (text text' : List Int) (s t : Scan)
    (hl : s.page.layout = t.page.layout) (hc : s.current = t.current)
    (ha : s.addedWidth = t.addedWidth) :
    (scanFlush cfg text s).layout = (scanFlush cfg text' t).layout := by
  unfold scanFlush
  rw [← ha, ← hc]
  split
  · exact (layout_congr hl cfg).2.2.2.1 s.current s.addedWidth _ _
  · exact hl

/-- `AppendText` on a text and on the same text without the characters that the filter skips
both return, and return pages with the same layout. -/
theorem AppendText_filter (cfg : Env) (p : Page) (text : List Int)
    (hidx : ∀ i, p.currentWidgetIndex = some i → i < p.widgets.length) :
    ∃ q q', AppendText cfg p text = some q ∧
      AppendText cfg p (text.filter printable) = some q' ∧ q.layout = q'.layout := by
  rw [AppendText_eq, AppendText_eq]
  cases hcur : (appendEntry cfg p).currentWidgetIndex with
  | none => exact ⟨_, _, rfl, rfl, rfl⟩
  | some cur =>
    have hlt := appendEntry_current_lt cfg p hidx cur hcur
    obtain ⟨r, hr⟩ := scanLoop_total cfg (wAt (appendEntry cfg p).widgets cur).style.fontSize
      text (scanFuel cfg (appendEntry cfg p) text) (scanInit (appendEntry cfg p) cur) hlt
      (scanMeasure_init_lt cfg _ text cur)
    obtain ⟨r2, hr2⟩ := scanLoop_total cfg (wAt (appendEntry cfg p).widgets cur).style.fontSize
      (text.filter printable) (scanFuel cfg (appendEntry cfg p) (text.filter printable))
      (scanInit (appendEntry cfg p) cur) hlt (scanMeasure_init_lt cfg _ _ cur)
    obtain ⟨f', r', hr', hres⟩ := scanLoop_filter cfg _ text _
      (scanInit (appendEntry cfg p) cur) (scanInit (appendEntry cfg p) cur) r rfl rfl rfl
      (by simp [scanInit]) hr
    have heq : r' = r2 := by
      have h1 := scanLoop_mono cfg _ _ f' _ r' hr'
        (max f' (scanFuel cfg (appendEntry cfg p) (text.filter printable))) (le_max_left _ _)
      have h2 := scanLoop_mono cfg _ _ _ _ r2 hr2
        (max f' (scanFuel cfg (appendEntry cfg p) (text.filter printable))) (le_max_right _ _)
      rw [h1] at h2
      exact Option.some.inj h2
    subst heq
    simp only [hr, hr2]
    rcases hres with ⟨s', t', rfl, rfl, hl, hc, ha⟩ | ⟨p1, q1, rfl, rfl, hpq⟩
    · exact ⟨_, _, rfl, rfl, scanFlush_layout cfg _ _ s' t' hl hc ha⟩
    · exact ⟨_, _, rfl, rfl, hpq⟩

theorem layout_cursor {p q : Page} (h : p.layout = q.layout) :
    p.cursorX = q.cursorX ∧ p.cursorY = q.cursorY := by
  have h1 : p.layout.cursorX = q.layout.cursorX := congrArg Page.cursorX h
  have h2 : p.layout.cursorY = q.layout.cursorY := congrArg Page.cursorY h
  exact ⟨h1, h2⟩

theorem layout_wAt_box {p q : Page} (h : p.layout = q.layout) (j : Nat) :
    (wAt p.widgets j).x = (wAt q.widgets j).x ∧ (wAt p.widgets j).y = (wAt q.widgets j).y ∧
      (wAt p.widgets j).width = (wAt q.widgets j).width ∧
      (wAt p.widgets j).height = (wAt q.widgets j).height := by
  have hw := layout_wAt h j
  have h1 : (wAt p.widgets j).noText.x = (wAt q.widgets j).noText.x := congrArg Widget.x hw
  have h2 : (wAt p.widgets j).noText.y = (wAt q.widgets j).noText.y := congrArg Widget.y hw
  have h3 : (wAt p.widgets j).noText.width = (wAt q.widgets j).noText.width :=
    congrArg Widget.width hw
  have h4 : (wAt p.widgets j).noText.height = (wAt q.widgets j).noText.height :=
    congrArg Widget.height hw
  exact ⟨h1, h2, h3, h4⟩

/-! ## The line in progress stays within the viewport -/

/-- A property of pages that the primitive operations preserve on pages with the index
invariant is preserved by every pass through the body of the scan loop. -/
theorem scanBody_preserves_open (cfg : Env) (P : Page → Prop)
    (hFCL : ∀ p, Idx p → P p → P (FinishCurrentLine cfg p))
    (hCW : ∀ p, Idx p → P p → P (CreateWidget cfg p).1)
    (hadd : ∀ p cur a buf, Idx p → p.currentWidgetIndex = some cur → 0 ≤ a → P p →
      P (addWidth p cur a buf))
    (hrel : ∀ p cur, Idx p → p.currentWidgetIndex = some cur → P p → P (relocate cfg p cur))
    (fs : Nat) (text : List Int) (s : Scan) (c : Int) (hs : ScanIdx s) (h : P s.page) :
    (∀ s', scanBody cfg fs text s c = .next s' → P s'.page) ∧
      (∀ q, scanBody cfg fs text s c = .ret q → P q) := by
  rcases scanBody_cases cfg fs s c with hskip | ⟨h32, h128, hfit | hfit⟩
  · rw [scanBody_skip _ _ _ _ _ hskip]
    constructor
    · intro s' hb
      cases hb
      exact h
    · intro q hb
      cases hb
  · have hadv := advance_nonneg cfg fs (wAt s.page.widgets s.current).style c
    by_cases hsp : c = 32
    · subst hsp
      rw [scanBody_fit_space _ _ _ _ hfit]
      constructor
      · intro s' hb
        cases hb
        exact hadd _ _ _ _ hs.idx hs.cur (by have := hs.added_nonneg; omega) h
      · intro q hb
        cases hb
    · rw [scanBody_fit_char _ _ _ _ _ ⟨h32, h128⟩ hsp hfit]
      constructor
      · intro s' hb
        cases hb
        exact h
      · intro q hb
        cases hb
  · by_cases hw : (wAt s.page.widgets s.current).width = 0
    · by_cases hx : (wAt s.page.widgets s.current).x = 0
      · rw [scanBody_hardBreak _ _ _ _ _ ⟨h32, h128⟩ hfit hw hx]
        have hi0 := hs.idx.idx_of_addWidth s.current s.addedWidth
          (copyChars cfg s.page.textBuffer
            ((text.drop s.startIndex).take (s.index - s.startIndex))) hs.added_nonneg
        have h0 := hadd s.page s.current s.addedWidth
          (copyChars cfg s.page.textBuffer
            ((text.drop s.startIndex).take (s.index - s.startIndex)))
          hs.idx hs.cur hs.added_nonneg h
        have hk := hCW _ (hi0.idx_finishCurrentLine cfg) (hFCL _ hi0 h0)
        constructor
        · intro s' hb
          split at hb
          · cases hb
          · next p' cur' hc =>
            cases hb
            rw [hc] at hk
            exact hk
        · intro q hb
          split at hb
          · next p' hc =>
            cases hb
            rw [hc] at hk
            exact hk
          · cases hb
      · rw [scanBody_relocate _ _ _ _ _ ⟨h32, h128⟩ hfit hw hx]
        constructor
        · intro s' hb
          cases hb
          exact hrel _ _ hs.idx hs.cur h
        · intro q hb
          cases hb
    · rw [scanBody_wrap _ _ _ _ _ ⟨h32, h128⟩ hfit hw]
      have hk := hCW _ (hs.idx.idx_finishCurrentLine cfg) (hFCL _ hs.idx h)
      constructor
      · intro s' hb
        split at hb
        · cases hb
        · next p' cur' hc =>
          cases hb
          rw [hc] at hk
          exact hk
      · intro q hb
        split at hb
        · next p' hc =>
          cases hb
          rw [hc] at hk
          exact hk
        · cases hb

/-- The same for a whole `AppendText`. -/
theorem AppendText_preserves_open (cfg : Env) (P : Page → Prop)
    (hFCL : ∀ p, Idx p → P p → P (FinishCurrentLine cfg p))
    (hCW : ∀ p, Idx p → P p → P (CreateWidget cfg p).1)
    (hadd : ∀ p cur a buf, Idx p → p.currentWidgetIndex = some cur → 0 ≤ a → P p →
      P (addWidth p cur a buf))
    (hrel : ∀ p cur, Idx p → p.currentWidgetIndex = some cur → P p → P (relocate cfg p cur))
    (p p' : Page) (text : List Int) (hi : Idx p) (hp : P p)
    (h : AppendText cfg p text = some p') : P p' := by
  have hentry : P (appendEntry cfg p) := by
    unfold appendEntry
    split
    · exact hCW p hi hp
    · exact hp
  refine AppendText_rule cfg p p' text (fun s => ScanIdx s ∧ P s.page) P ?_ ?_ ?_ ?_ ?_ h
  · intro _
    exact hentry
  · intro cur hc
    exact ⟨⟨hi.idx_appendEntry cfg, hc, le_refl 0⟩, hentry⟩
  · intro fs s c s' hI _ hb
    exact ⟨(ScanIdx.scanIdx_step cfg fs text s c hI.1).1 s' hb,
      (scanBody_preserves_open cfg P hFCL hCW hadd hrel fs text s c hI.1 hI.2).1 s' hb⟩
  · intro fs s c q hI _ hb
    exact (scanBody_preserves_open cfg P hFCL hCW hadd hrel fs text s c hI.1 hI.2).2 q hb
  · intro s hI
    unfold scanFlush
    split
    · exact hadd _ _ _ _ hI.1.idx hI.1.cur hI.1.added_nonneg hI.2
    · exact hI.2

/-- The same for the page after any number of passes of the scan loop. -/
theorem scanSteps_preserves_open (cfg : Env) (P : Page → Prop)
    (hFCL : ∀ p, Idx p → P p → P (FinishCurrentLine cfg p))
    (hCW : ∀ p, Idx p → P p → P (CreateWidget cfg p).1)
    (hadd : ∀ p cur a buf, Idx p → p.currentWidgetIndex = some cur → 0 ≤ a → P p →
      P (addWidth p cur a buf))
    (hrel : ∀ p cur, Idx p → p.currentWidgetIndex = some cur → P p → P (relocate cfg p cur))
    (fs : Nat) (text : List Int) :
    ∀ (k : Nat) (s0 s : Scan), ScanIdx s0 → P s0.page →
      scanSteps cfg fs text k s0 = some s → ScanIdx s ∧ P s.page := by
  intro k
  induction k with
  | zero =>
    intro s0 s h0 hp hs
    simp only [scanSteps, Option.some.injEq] at hs
    subst hs
    exact ⟨h0, hp⟩
  | succ k ih =>
    intro s0 s h0 hp hs
    unfold scanSteps at hs
    cases hget : text[s0.index]? with
    | none => simp [hget] at hs
    | some c =>
      simp only [hget] at hs
      cases hb : scanBody cfg fs text s0 c with
      | next s1 =>
        simp only [hb] at hs
        exact ih s1 s ((ScanIdx.scanIdx_step cfg fs text s0 c h0).1 s1 hb)
          ((scanBody_preserves_open cfg P hFCL hCW hadd hrel fs text s0 c h0 hp).1 s1 hb) hs
      | ret q => simp [hb] at hs

theorem LineFit.fit_fresh (cfg : Env) : LineFit (Page.fresh cfg) := by
  constructor
  · intro j _ hj
    simp [Page.fresh] at hj
  · intro j _ hj
    simp [Page.fresh] at hj

theorem LineFit.fit_finishCurrentWidget {p : Page} (hi : Idx p) (h : LineFit p) :
    LineFit (FinishCurrentWidget p) := by
  constructor
  · simpa [lineBase_finishCurrentWidget] using h.line_x
  · intro j hb hj _
    rw [lineBase_finishCurrentWidget] at hb
    rw [FinishCurrentWidget_length] at hj
    rw [FinishCurrentWidget_cursorX]
    simp only [FinishCurrentWidget_wAt_x, FinishCurrentWidget_wAt_width]
    cases hc : p.currentWidgetIndex with
    | none =>
      simp only
      exact h.line_cursor j hb hj (by simp [hc])
    | some i =>
      simp only
      have hw := hi.width_nonneg i
      by_cases hij : i = j
      · subst hij
        have := hi.open_x i hc
        omega
      · have := h.line_cursor j hb hj (by simp [hc, hij])
        omega

theorem LineFit.fit_finishCurrentLine (cfg : Env) (p : Page) :
    LineFit (FinishCurrentLine cfg p) := by
  constructor
  · intro j hb hj
    rw [lineBase_finishCurrentLine] at hb
    rw [FinishCurrentLine_length] at hj
    omega
  · intro j hb hj _
    rw [lineBase_finishCurrentLine] at hb
    rw [FinishCurrentLine_length] at hj
    omega

theorem LineFit.fit_createWidget (cfg : Env) {p : Page} (hi : Idx p) (h : LineFit p) :
    LineFit (CreateWidget cfg p).1 := by
  have hq := h.fit_finishCurrentWidget hi
  have hqi := hi.idx_finishCurrentWidget
  by_cases hcap : p.widgets.length < cfg.maxPageWidgets
  · rw [CreateWidget_ok cfg p hcap]
    have hx := newWidget_x_of_need_false cfg (FinishCurrentWidget p) hqi.need
    have hlen : (FinishCurrentWidget p).widgets.length = p.widgets.length :=
      FinishCurrentWidget_length p
    have hbq : lineBase (FinishCurrentWidget p) = lineBase p := lineBase_finishCurrentWidget p
    have hbase' : lineBase
        { FinishCurrentWidget p with
          currentWidgetIndex := some p.widgets.length
          widgets := (FinishCurrentWidget p).widgets ++ [newWidget cfg (FinishCurrentWidget p)]
          needLeadingWhiteSpace := false
          cursorX := (newWidget cfg (FinishCurrentWidget p)).x
          cursorY := (FinishCurrentWidget p).cursorY + p.pendingVerticalPadding
          pendingVerticalPadding := 0
          currentLineStartWidgetIndex :=
            if p.currentLineStartWidgetIndex = none then some p.widgets.length
            else p.currentLineStartWidgetIndex } = lineBase p := by
      unfold lineBase
      cases hl : p.currentLineStartWidgetIndex <;> simp
    constructor
    · intro j hb hj
      rw [hbase'] at hb
      simp only [List.length_append, List.length_singleton, hlen] at hj
      simp only [wAt_append, hlen]
      by_cases hjl : j < p.widgets.length
      · simp only [hjl, ↓reduceIte]
        exact hq.line_x j (by rw [hbq]; exact hb) (by rw [hlen]; exact hjl)
      · have hje : j = p.widgets.length := by omega
        subst hje
        simp only [lt_self_iff_false, ↓reduceIte, hx]
        exact hqi.cursorX_nonneg
    · intro j hb hj hne
      rw [hbase'] at hb
      simp only [List.length_append, List.length_singleton, hlen] at hj
      simp only [ne_eq, Option.some.injEq] at hne
      have hjl : j < p.widgets.length := by omega
      simp only [wAt_append, hlen, hjl, ↓reduceIte, hx]
      exact hq.line_cursor j (by rw [hbq]; exact hb) (by rw [hlen]; exact hjl) (by simp)
  · rw [CreateWidget_fail cfg p hcap]
    exact hq

theorem LineFit.fit_of_addWidth {p : Page} (h : LineFit p) (cur : Nat) (a : Int)
    (buf : List Int) (hcur : p.currentWidgetIndex = some cur) :
    LineFit (addWidth p cur a buf) := by
  constructor
  · intro j hbj hj
    rw [lineBase_addWidth] at hbj
    simp only [addWidth_length] at hj
    simp only [addWidth_wAt_x]
    exact h.line_x j hbj hj
  · intro j hbj hj hne
    rw [lineBase_addWidth] at hbj
    simp only [addWidth_length] at hj
    simp only [addWidth_current, hcur, ne_eq, Option.some.injEq] at hne
    simp only [addWidth_wAt_x, addWidth_wAt_width, addWidth_cursorX]
    have hne' : ¬ (cur = j ∧ j < p.widgets.length) := by omega
    simp only [hne', ↓reduceIte]
    exact h.line_cursor j hbj hj (by simp [hcur, hne])

theorem LineFit.fit_of_relocate (cfg : Env) {p : Page} (hi : Idx p) (cur : Nat)
    (hcur : p.currentWidgetIndex = some cur) : LineFit (relocate cfg p cur) := by
  have hlast := hi.open_last cur hcur
  have hbase : lineBase (relocate cfg p cur) = cur := by
    simp [lineBase, hcur]
  constructor
  · intro j hb hj
    rw [hbase] at hb
    simp only [relocate_length] at hj
    have hje : cur = j := by omega
    rw [relocate_wAt]
    simp only [hje, hj, and_self, ↓reduceIte]
    exact le_refl 0
  · intro j hb hj hne
    rw [hbase] at hb
    simp only [relocate_length] at hj
    simp only [relocate_current, hcur, ne_eq, Option.some.injEq] at hne
    omega

theorem LineFit.fit_applyOp (cfg : Env) {p p' : Page} (hi : Idx p) (h : LineFit p) (op : Op)
    (hop : applyOp cfg p op = some p') : LineFit p' := by
  cases op with
  | pushStyle style =>
    simp only [applyOp, Option.some.injEq] at hop
    subst hop
    unfold PushStyle
    split
    · exact LineFit.fit_finishCurrentWidget
        ⟨hi.need, hi.cursorX_nonneg, hi.pending_nonneg, hi.pending_zero, hi.open_last,
          hi.open_line, hi.line_lt, hi.open_x, hi.width_nonneg, hi.height_nonneg⟩
        ⟨h.line_x, h.line_cursor⟩
    · exact h
  | popStyle =>
    simp only [applyOp, Option.some.injEq] at hop
    subst hop
    unfold PopStyle
    split
    · exact LineFit.fit_finishCurrentWidget
        ⟨hi.need, hi.cursorX_nonneg, hi.pending_nonneg, hi.pending_zero, hi.open_last,
          hi.open_line, hi.line_lt, hi.open_x, hi.width_nonneg, hi.height_nonneg⟩
        ⟨h.line_x, h.line_cursor⟩
    · exact h.fit_finishCurrentWidget hi
  | appendText text =>
    simp only [applyOp] at hop
    exact AppendText_preserves_open cfg LineFit
      (fun q _ _ => LineFit.fit_finishCurrentLine cfg q)
      (fun _ hq hp => hp.fit_createWidget cfg hq)
      (fun _ _ _ _ _ hc _ hp => hp.fit_of_addWidth _ _ _ hc)
      (fun _ _ hq hc _ => LineFit.fit_of_relocate cfg hq _ hc)
      p p' text hi h hop
  | breakLine padding =>
    simp only [applyOp, Option.some.injEq] at hop
    subst hop
    have h' := LineFit.fit_finishCurrentLine cfg p
    unfold BreakLine
    dsimp only
    split
    · exact ⟨h'.line_x, h'.line_cursor⟩
    · exact h'
  | setWidgetURL url =>
    simp only [applyOp, Option.some.injEq] at hop
    subst hop
    exact ⟨h.line_x, h.line_cursor⟩
  | clearWidgetURL =>
    simp only [applyOp, Option.some.injEq] at hop
    subst hop
    exact ⟨h.line_x, h.line_cursor⟩

/-- Every run from a fresh page ends on a page with the index, right-edge and line
invariants. -/
theorem runOps_idx_edge_fit {cfg : Env} (hW : 0 < cfg.windowWidth) (ops : List Op) :
    ∃ p, runOps cfg (Page.fresh cfg) ops = some p ∧ Idx p ∧ Edge cfg p ∧ LineFit p := by
  obtain ⟨p, hp, hi, he, hf⟩ := runOps_invariant cfg (fun q => Edge cfg q ∧ LineFit q)
    (fun p op p' hi hj hop => by
      obtain ⟨q, hq, -, hqe⟩ := applyOp_idx_edge hW op hi hj.1
      rw [hq] at hop
      cases hop
      exact ⟨hqe, hj.2.fit_applyOp cfg hi op hq⟩)
    ops (Page.fresh cfg) (Idx.idx_fresh cfg) ⟨Edge.edge_fresh cfg hW, LineFit.fit_fresh cfg⟩
  exact ⟨p, hp, hi, he, hf⟩

theorem LineWithin.within_of_inv {cfg : Env} {p : Page} (hi : Idx p) (he : Edge cfg p)
    (hf : LineFit p) : LineWithin cfg p := by
  intro s hs
  refine ⟨hi.line_lt s hs, ?_⟩
  intro n hsn hn
  have hb : lineBase p ≤ n := by
    simp only [lineBase, hs]
    exact hsn
  have hx := hf.line_x n hb hn
  have hw := hi.width_nonneg n
  refine ⟨by omega, ?_⟩
  by_cases hc : p.currentWidgetIndex = some n
  · exact he.open_edge n hc
  · have := hf.line_cursor n hb hn hc
    have := he.cursorX_lt
    omega

theorem LineWithin.within_clearCurrent {cfg : Env} {p : Page} (h : LineWithin cfg p) :
    LineWithin cfg { p with currentWidgetIndex := none } := h

theorem LineWithin.within_addWidth {cfg : Env} {p : Page} (h : LineWithin cfg p) (cur : Nat)
    (a : Int) (buf : List Int) (ha : 0 ≤ a)
    (hfit : (wAt p.widgets cur).x + (wAt p.widgets cur).width + a < cfg.windowWidth) :
    LineWithin cfg (addWidth p cur a buf) := by
  intro s hs
  obtain ⟨hlt, hn⟩ := h s hs
  refine ⟨by simpa using hlt, ?_⟩
  intro n hsn hnl
  simp only [addWidth_length] at hnl
  obtain ⟨h0, h1⟩ := hn n hsn hnl
  simp only [addWidth_wAt_x, addWidth_wAt_width]
  split
  · next hc =>
    obtain ⟨rfl, -⟩ := hc
    constructor <;> omega
  · exact ⟨h0, h1⟩

/-- The shift `FinishCurrentLine` gives the widgets of the line from `s`: the floor of half
the room left by the line width `L`, which is 0 or the largest right edge of the line. -/
theorem FinishCurrentLine_shift (cfg : Env) (p : Page) (s : Nat)
    (hs : p.currentLineStartWidgetIndex = some s) :
    ∃ L : Int,
      (∀ n, s ≤ n → n < p.numWidgets → (wAt p.widgets n).x + (wAt p.widgets n).width ≤ L) ∧
      (L = 0 ∨ ∃ n, s ≤ n ∧ n < p.numWidgets ∧
        L = (wAt p.widgets n).x + (wAt p.widgets n).width) ∧
      (∀ n, n < p.numWidgets →
        (wAt (FinishCurrentLine cfg p).widgets n).x =
          if s ≤ n ∧ (wAt p.widgets n).style.center then
            (wAt p.widgets n).x + Int.fdiv (cfg.windowWidth - L) 2
          else (wAt p.widgets n).x) := by
  refine ⟨lineWidthOf (FinishCurrentWidget p), ?_, ?_, ?_⟩
  · intro n hsn hn
    have := (lineWidth_spec (FinishCurrentWidget p).widgets s).1 n hsn
      (by simpa [Page.numWidgets] using hn)
    simpa [lineWidthOf, hs] using this
  · rcases (lineWidth_spec (FinishCurrentWidget p).widgets s).2 with h | ⟨n, hsn, hn, h⟩
    · left
      simpa [lineWidthOf, hs] using h
    · right
      exact ⟨n, hsn, by simpa [Page.numWidgets] using hn, by simpa [lineWidthOf, hs] using h⟩
  · intro n hn
    exact FinishCurrentLine_wAt_x cfg p s n hs hn

/-- On a page whose line in progress lies within the viewport, the line width is the largest
right edge of the line, it is less than the viewport width, and the shift is the quotient
truncated toward zero. -/
theorem FinishCurrentLine_center_within (cfg : Env) (q : Page) (hq : LineWithin cfg q) (s : Nat)
    (hs : q.currentLineStartWidgetIndex = some s) :
    ∃ L : Int,
      (∀ n, s ≤ n → n < q.numWidgets → (wAt q.widgets n).x + (wAt q.widgets n).width ≤ L) ∧
      (∃ n, s ≤ n ∧ n < q.numWidgets ∧ L = (wAt q.widgets n).x + (wAt q.widgets n).width) ∧
      L < cfg.windowWidth ∧
      (∀ n, n < q.numWidgets →
        (wAt (FinishCurrentLine cfg q).widgets n).x =
          if s ≤ n ∧ (wAt q.widgets n).style.center then
            (wAt q.widgets n).x + Int.tdiv (cfg.windowWidth - L) 2
          else (wAt q.widgets n).x) := by
  obtain ⟨L, hub, hat, hshift⟩ := FinishCurrentLine_shift cfg q s hs
  obtain ⟨hlt, hn⟩ := hq s hs
  have hatt : ∃ n, s ≤ n ∧ n < q.numWidgets ∧
      L = (wAt q.widgets n).x + (wAt q.widgets n).width := by
    rcases hat with h0 | h
    · refine ⟨s, le_refl s, hlt, ?_⟩
      have h1 := hub s (le_refl s) hlt
      have h2 := (hn s (le_refl s) hlt).1
      omega
    · exact h
  have hL : L < cfg.windowWidth := by
    obtain ⟨n, hsn, hnl, hLn⟩ := hatt
    have := (hn n hsn hnl).2
    omega
  refine ⟨L, hub, hatt, hL, ?_⟩
  intro n hnl
  rw [hshift n hnl, Int.fdiv_eq_tdiv (by omega) (by decide)]

/-! ## The claims -/

/-- C8: `GetWidget(px, py)` returns the widget of smallest index whose half-open box
`[x, x+width) × [y, y+height)` contains the point, returns none exactly when no widget's box
contains the point, and never returns a widget of zero width or zero height. (The function
assigns to no member of the page, so the embedding has no page in its result.) -/
theorem getWidget_first_containing (p : Page) (px py : Int) :
    (∀ n, GetWidget p px py = some n ↔
        n < p.numWidgets ∧ (wAt p.widgets n).contains px py ∧
          ∀ m, m < n → ¬ (wAt p.widgets m).contains px py) ∧
      (GetWidget p px py = none ↔
        ∀ n, n < p.numWidgets → ¬ (wAt p.widgets n).contains px py) ∧
      (∀ n, GetWidget p px py = some n →
        0 < (wAt p.widgets n).width ∧ 0 < (wAt p.widgets n).height) := by
  refine ⟨fun n => GetWidget_eq_some p px py n, GetWidget_eq_none p px py, ?_⟩
  intro n h
  have hc := ((GetWidget_eq_some p px py n).mp h).2.1
  unfold Widget.contains at hc
  omega

/-- C3: single-widget fit. On a page that has no widget yet and whose cursor is at the left
edge (a fresh page, or a fresh page after `PushStyle`), for every text of printable
characters whose total rendered width `S` (the sum of the glyph advances, plus 1 per
character when the active style is bold) is below the viewport width, `AppendText` leaves
exactly one widget, at `x = 0`, of width exactly `S`. -/
theorem appendText_single_widget_fit (cfg : Env) (p : Page) (text : List Int)
    (hcap : 0 < cfg.maxPageWidgets) (hw : p.widgets = []) (hopen : p.currentWidgetIndex = none)
    (hx : p.cursorX = 0) (hprint : ∀ c ∈ text, 32 ≤ c ∧ c ≤ 128)
    (hfit : textWidth cfg (GetStyleStackTop p).fontSize (GetStyleStackTop p) text
      < cfg.windowWidth) :
    ∃ p' w, AppendText cfg p text = some p' ∧ p'.widgets = [w] ∧ w.x = 0 ∧
      w.width = textWidth cfg (GetStyleStackTop p).fontSize (GetStyleStackTop p) text := by
  have hnx : (newWidget cfg p).x = 0 := by
    simp [newWidget, hx]
  obtain ⟨buf, h⟩ := AppendText_blank_fit cfg p text hcap hw hopen hprint (by rw [hnx]; omega)
  exact ⟨_, _, h, rfl, hnx, rfl⟩

/-- C3, on a fresh page with viewport width 100 and advance 10: `"aaaa bbbb"` has rendered
width 90 and ends in one widget of width 90 at `x = 0`. -/
theorem appendText_single_widget_fit_witness :
    ∃ p' w, AppendText (uniformEnv 100 10 8 2000 32 128)
        (Page.fresh (uniformEnv 100 10 8 2000 32 128)) [97, 97, 97, 97, 32, 98, 98, 98, 98]
          = some p' ∧ p'.widgets = [w] ∧ w.x = 0 ∧
      w.width = textWidth (uniformEnv 100 10 8 2000 32 128)
        (GetStyleStackTop (Page.fresh (uniformEnv 100 10 8 2000 32 128))).fontSize
        (GetStyleStackTop (Page.fresh (uniformEnv 100 10 8 2000 32 128)))
        [97, 97, 97, 97, 32, 98, 98, 98, 98] :=
  appendText_single_widget_fit (uniformEnv 100 10 8 2000 32 128)
    (Page.fresh (uniformEnv 100 10 8 2000 32 128)) [97, 97, 97, 97, 32, 98, 98, 98, 98]
    (by decide) rfl rfl rfl (by decide) (by decide)

/-- C6: `BreakLine` padding is a maximum, consumed once. After `BreakLine(padding)` the
pending vertical padding is the larger of the previous pending padding and `padding`; every
successful `CreateWidget` adds exactly the pending padding to `cursorY`, places the new
widget there and resets the pending padding to 0; and on a fresh page (with room for a
widget and a viewport wider than the glyph `a`) `BreakLine(5); BreakLine(3); AppendText("a")`
leaves one widget, at `y = 5`. -/
theorem breakLine_padding_max_consumed_once (cfg : Env) (p : Page) (padding : Int) :
    (BreakLine cfg p padding).pendingVerticalPadding = max p.pendingVerticalPadding padding ∧
      (∀ q : Page, q.numWidgets < cfg.maxPageWidgets →
        (CreateWidget cfg q).2 = some q.numWidgets ∧
        (CreateWidget cfg q).1.cursorY = q.cursorY + q.pendingVerticalPadding ∧
        (wAt (CreateWidget cfg q).1.widgets q.numWidgets).y
          = q.cursorY + q.pendingVerticalPadding ∧
        (CreateWidget cfg q).1.pendingVerticalPadding = 0) ∧
      (0 < cfg.maxPageWidgets →
        advance cfg 1 ⟨cfg.fontStyleRegular, 1, false⟩ 97 < cfg.windowWidth →
        ∃ p' w, AppendText cfg (BreakLine cfg (BreakLine cfg (Page.fresh cfg) 5) 3) [97] = some p' ∧
          p'.widgets = [w] ∧ w.y = 5 ∧ p'.cursorY = 5 ∧ p'.pendingVerticalPadding = 0) := by
  refine ⟨BreakLine_pending cfg p padding, ?_, ?_⟩
  · intro q hq
    unfold Page.numWidgets at hq ⊢
    rw [CreateWidget_ok cfg q hq]
    refine ⟨rfl, by simp, ?_, rfl⟩
    simp only
    have := wAt_append_right (FinishCurrentWidget q).widgets (newWidget cfg (FinishCurrentWidget q))
    rw [FinishCurrentWidget_length] at this
    rw [this]
    simp [newWidget]
  · intro hcap hfit
    rw [BreakLine_twice_fresh]
    obtain ⟨buf, h⟩ := AppendText_blank_fit cfg
      { Page.fresh cfg with pendingVerticalPadding := 5 } [97] hcap rfl rfl
      (by simp)
      (by
        simp only [textWidth_cons, textWidth_nil]
        simpa [newWidget, Page.fresh, GetStyleStackTop] using hfit)
    refine ⟨_, _, h, rfl, ?_, ?_, ?_⟩
    · simp [newWidget, Page.fresh]
    · rw [CreateWidget_ok cfg _ (by simpa [Page.fresh] using hcap)]
      simp [Page.fresh, FinishCurrentWidget]
    · rw [CreateWidget_ok cfg _ (by simpa [Page.fresh] using hcap)]

/-- C6 with viewport width 100, advance 10 and line height 8, on a page with pending
padding 2 and `BreakLine(7)`. -/
theorem breakLine_padding_max_consumed_once_witness :
    (BreakLine (uniformEnv 100 10 8 2000 32 128)
        { Page.fresh (uniformEnv 100 10 8 2000 32 128) with pendingVerticalPadding := 2 }
        7).pendingVerticalPadding = max 2 7 ∧
      ∃ p' w, AppendText (uniformEnv 100 10 8 2000 32 128)
          (BreakLine (uniformEnv 100 10 8 2000 32 128)
            (BreakLine (uniformEnv 100 10 8 2000 32 128)
              (Page.fresh (uniformEnv 100 10 8 2000 32 128)) 5) 3) [97] = some p' ∧
        p'.widgets = [w] ∧ w.y = 5 ∧ p'.cursorY = 5 ∧ p'.pendingVerticalPadding = 0 :=
  have h := breakLine_padding_max_consumed_once (uniformEnv 100 10 8 2000 32 128)
    { Page.fresh (uniformEnv 100 10 8 2000 32 128) with pendingVerticalPadding := 2 } 7
  ⟨h.1, h.2.2 (by decide) (by decide)⟩

/-- C1 at the spec's own witness (20 characters `a` .. `t`, advance 10, viewport width 100):
`AppendText` followed by `BreakLine` leaves three widgets, one per line, each at `x = 0`,
with texts `abcdefghi`, `klmnopqr` and `t`: the widths 90, 90, 20 count all 20 characters,
but `j` and `s`, the characters at which the two hard breaks happen, are in no stored text. -/
theorem hardBreak_drops_characters :
    ∃ p, runOps (uniformEnv 100 10 8 2000 32 128) (Page.fresh (uniformEnv 100 10 8 2000 32 128))
        [.appendText [97, 98, 99, 100, 101, 102, 103, 104, 105, 106, 107, 108, 109, 110, 111,
          112, 113, 114, 115, 116], .breakLine 0] = some p ∧
      p.widgets.map (fun w => (w.x, w.y, w.width, w.text)) =
        [(0, 0, 90, some [97, 98, 99, 100, 101, 102, 103, 104, 105]),
         (0, 8, 90, some [107, 108, 109, 110, 111, 112, 113, 114]),
         (0, 16, 20, some [116])] ∧
      storedText p = [97, 98, 99, 100, 101, 102, 103, 104, 105, 107, 108, 109, 110, 111,
          112, 113, 114, 116] ∧
      storedText p ≠ [97, 98, 99, 100, 101, 102, 103, 104, 105, 106, 107, 108, 109, 110, 111,
          112, 113, 114, 115, 116] := by
  refine ⟨_, rfl, ?_, ?_, ?_⟩ <;> decide

/-- C4: right-edge invariant. With a viewport width above 0, every sequence of
`PushStyle` / `PopStyle` / `AppendText` / `BreakLine` calls on a fresh page runs to a page
`p` (the pending-leading-space flag is never set) such that the open widget, if any, has
`x + width` below the viewport width; and for every further `AppendText(text)`, after every
number `k` of passes through its scan loop the widget being appended to is the open widget
and has `x + width` and `x + width + addedWidth` below the viewport width, and so has the
open widget on return. -/
theorem right_edge_invariant (cfg : Env) (hW : 0 < cfg.windowWidth) (ops : List Op) :
    ∃ p, runOps cfg (Page.fresh cfg) ops = some p ∧
      p.needLeadingWhiteSpace = false ∧
      (∀ i, p.currentWidgetIndex = some i →
        (wAt p.widgets i).x + (wAt p.widgets i).width < cfg.windowWidth) ∧
      (∀ text cur k s, (appendEntry cfg p).currentWidgetIndex = some cur →
        scanSteps cfg (wAt (appendEntry cfg p).widgets cur).style.fontSize text k
          (scanInit (appendEntry cfg p) cur) = some s →
        s.page.currentWidgetIndex = some s.current ∧
        (wAt s.page.widgets s.current).x + (wAt s.page.widgets s.current).width
          < cfg.windowWidth ∧
        (wAt s.page.widgets s.current).x + (wAt s.page.widgets s.current).width
          + s.addedWidth < cfg.windowWidth) ∧
      (∀ text, ∃ p', AppendText cfg p text = some p' ∧
        ∀ i, p'.currentWidgetIndex = some i →
          (wAt p'.widgets i).x + (wAt p'.widgets i).width < cfg.windowWidth) := by
  obtain ⟨p, hp, hi, he⟩ := runOps_idx_edge hW ops (Page.fresh cfg) (Idx.idx_fresh cfg)
    (Edge.edge_fresh cfg hW)
  refine ⟨p, hp, hi.need, he.open_edge, ?_, ?_⟩
  · intro text cur k s hc hs
    have h0 := ScanInv.scanInv_init (hi.idx_appendEntry cfg) (he.edge_appendEntry hi) cur hc
    have h := scanSteps_inv hW _ text k _ s h0 hs
    exact ⟨h.cur, h.edge.open_edge _ h.cur, h.fits⟩
  · intro text
    obtain ⟨p', hp'⟩ := AppendText_total cfg p text hi.idx_current_lt
    exact ⟨p', hp', (AppendText_idx_edge hW text hi he hp').2.open_edge⟩

/-- C4 with viewport width 100 and advance 10, after `AppendText("aaaa bbbb")`,
`PushStyle`, `AppendText("abcdefghijklmnopqrst")`. -/
theorem right_edge_invariant_witness :
    ∃ p, runOps (uniformEnv 100 10 8 2000 32 128) (Page.fresh (uniformEnv 100 10 8 2000 32 128))
        [.appendText [97, 97, 97, 97, 32, 98, 98, 98, 98], .pushStyle ⟨1, 1, false⟩,
          .appendText [97, 98, 99, 100, 101, 102, 103, 104, 105, 106, 107, 108, 109, 110, 111,
            112, 113, 114, 115, 116]] = some p ∧
      ∀ i, p.currentWidgetIndex = some i →
        (wAt p.widgets i).x + (wAt p.widgets i).width < 100 :=
  have h := right_edge_invariant (uniformEnv 100 10 8 2000 32 128) (by decide)
    [.appendText [97, 97, 97, 97, 32, 98, 98, 98, 98], .pushStyle ⟨1, 1, false⟩,
      .appendText [97, 98, 99, 100, 101, 102, 103, 104, 105, 106, 107, 108, 109, 110, 111,
        112, 113, 114, 115, 116]]
  h.elim fun p hp => ⟨p, hp.1, hp.2.2.1⟩

/-- C9, as stated, fails when one line mixes centred and other widgets: with viewport width
100 and advance 10, `PushStyle(centre); AppendText("ab"); PopStyle; AppendText("cd");
BreakLine` leaves the centred widget at `[30, 50) × [0, 8)` and the other at
`[20, 40) × [0, 8)`, and the point `(30, 0)` lies in both. -/
theorem centred_and_plain_widgets_overlap :
    ∃ p, runOps (uniformEnv 100 10 8 2000 32 128) (Page.fresh (uniformEnv 100 10 8 2000 32 128))
        [.pushStyle ⟨0, 1, true⟩, .appendText [97, 98], .popStyle, .appendText [99, 100],
          .breakLine 0] = some p ∧
      p.widgets.map (fun w => (w.x, w.y, w.width, w.height)) = [(30, 0, 20, 8), (20, 0, 20, 8)] ∧
      (wAt p.widgets 0).contains 30 0 ∧ (wAt p.widgets 1).contains 30 0 ∧
      ¬ (wAt p.widgets 0).disjoint (wAt p.widgets 1) := by
  refine ⟨_, rfl, by decide, by decide, by decide, ?_⟩
  intro h
  exact h 30 0 ⟨by decide, by decide⟩

/-- C9 as amended: in every page state reached from a fresh page by `PushStyle` /
`PopStyle` / `AppendText` / `BreakLine` calls in which no pushed style has the centre flag,
the boxes `[x, x+width) × [y, y+height)` of any two distinct widgets are disjoint, so a point
lies in at most one widget, and `GetWidget` returns the widget that contains it. -/
theorem layout_boxes_disjoint_without_centering (cfg : Env) (ops : List Op)
    (hnc : ∀ op ∈ ops, op.notCenter) :
    ∃ p, runOps cfg (Page.fresh cfg) ops = some p ∧
      (∀ i j, i < p.numWidgets → j < p.numWidgets → i ≠ j →
        (wAt p.widgets i).disjoint (wAt p.widgets j)) ∧
      (∀ px py i, i < p.numWidgets → (wAt p.widgets i).contains px py →
        GetWidget p px py = some i ∧
        ∀ j, j < p.numWidgets → (wAt p.widgets j).contains px py → j = i) := by
  obtain ⟨p, hp, -, hl⟩ := runOps_idx_lay cfg ops (Page.fresh cfg) (Idx.idx_fresh cfg)
    (Lay.lay_fresh cfg) hnc
  have hd : ∀ i j, i < p.numWidgets → j < p.numWidgets → i ≠ j →
      (wAt p.widgets i).disjoint (wAt p.widgets j) :=
    fun i j hi hj hne => hl.lay_disjoint i j hne hi hj
  have hu : ∀ px py i, i < p.numWidgets → (wAt p.widgets i).contains px py →
      ∀ j, j < p.numWidgets → (wAt p.widgets j).contains px py → j = i := by
    intro px py i hi hc j hj hcj
    by_contra hne
    exact hd j i hj hi hne px py ⟨hcj, hc⟩
  refine ⟨p, hp, hd, ?_⟩
  intro px py i hi hc
  refine ⟨(GetWidget_eq_some p px py i).mpr ⟨hi, hc, ?_⟩, hu px py i hi hc⟩
  intro m hm hcm
  have := hu px py i hi hc m (by omega) hcm
  omega

/-- C9 as amended, with viewport width 100 and advance 10, for a bold style pushed between
two texts that wrap. -/
theorem layout_boxes_disjoint_without_centering_witness :
    ∃ p, runOps (uniformEnv 100 10 8 2000 32 128) (Page.fresh (uniformEnv 100 10 8 2000 32 128))
        [.appendText [97, 97, 97, 97, 32, 98, 98, 98, 98], .pushStyle ⟨1, 1, false⟩,
          .appendText [99, 99, 99, 32, 100, 100, 100], .breakLine 4] = some p ∧
      ∀ i j, i < p.numWidgets → j < p.numWidgets → i ≠ j →
        (wAt p.widgets i).disjoint (wAt p.widgets j) :=
  have h := layout_boxes_disjoint_without_centering (uniformEnv 100 10 8 2000 32 128)
    [.appendText [97, 97, 97, 97, 32, 98, 98, 98, 98], .pushStyle ⟨1, 1, false⟩,
      .appendText [99, 99, 99, 32, 100, 100, 100], .breakLine 4]
    (by
      intro op hop
      simp only [List.mem_cons, List.mem_singleton, List.not_mem_nil, or_false] at hop
      rcases hop with rfl | rfl | rfl | rfl <;> simp [Op.notCenter])
  h.elim fun p hp => ⟨p, hp.1, hp.2.1⟩

/-- C5, as stated, fails for `PushStyle` on a full style stack: with a stack of capacity 2,
after `PushStyle; AppendText("a")` the stack is full, a second `PushStyle` leaves the widget
open, and `AppendText("b"); BreakLine` stores `"ab"` in that one widget. -/
theorem pushStyle_on_full_stack_keeps_widget_open :
    ∃ p q r, runOps twoStyleEnv (Page.fresh twoStyleEnv)
        [.pushStyle ⟨1, 1, false⟩, .appendText [97]] = some p ∧
      p.styleStackSize = twoStyleEnv.maxPageStyleStackSize ∧
      p.currentWidgetIndex = some 0 ∧
      q = PushStyle twoStyleEnv p ⟨2, 1, false⟩ ∧ q.currentWidgetIndex = some 0 ∧
      runOps twoStyleEnv q [.appendText [98], .breakLine 0] = some r ∧
      r.widgets.map (fun w => w.text) = [some [97, 98]] := by
  refine ⟨_, _, _, rfl, by decide, by decide, rfl, by decide, rfl, by decide⟩

/-- C5 as amended: for every page with an open widget `i`, `PopStyle` at every stack depth,
and `PushStyle` whenever the style stack is not full, finalize the open widget (no widget is
open afterwards, `cursorX` has advanced by the widget's width, its text is the content of the
scratch buffer, the scratch buffer is empty), and a following `AppendText` of any text
returns and leaves that text in place, the widget staying finished: text appended before and
after the call is stored in two different widgets. `PushStyle` on a full stack changes
nothing. -/
theorem pushStyle_popStyle_finalize (cfg : Env) (p : Page) (i : Nat) (style : WidgetStyle)
    (hopen : p.currentWidgetIndex = some i) (hi : i < p.numWidgets) :
    Finalized p (PopStyle p) i ∧
      (∀ text, ∃ q', AppendText cfg (PopStyle p) text = some q' ∧
        (wAt q'.widgets i).text = some p.textBuffer ∧ q'.currentWidgetIndex ≠ some i) ∧
      (p.styleStackSize < cfg.maxPageStyleStackSize →
        Finalized p (PushStyle cfg p style) i ∧
        ∀ text, ∃ q', AppendText cfg (PushStyle cfg p style) text = some q' ∧
          (wAt q'.widgets i).text = some p.textBuffer ∧ q'.currentWidgetIndex ≠ some i) ∧
      (¬ p.styleStackSize < cfg.maxPageStyleStackSize → PushStyle cfg p style = p) := by
  have key : ∀ stack : List WidgetStyle,
      Finalized p (FinishCurrentWidget { p with styleStack := stack }) i ∧
      ∀ text, ∃ q', AppendText cfg (FinishCurrentWidget { p with styleStack := stack }) text
          = some q' ∧
        (wAt q'.widgets i).text = some p.textBuffer ∧ q'.currentWidgetIndex ≠ some i := by
    intro stack
    have hf : Finalized p (FinishCurrentWidget { p with styleStack := stack }) i :=
      Finalized.of_finishCurrentWidget { p with styleStack := stack } i hopen hi
    refine ⟨hf, ?_⟩
    intro text
    have hk : KeepsText i (some p.textBuffer)
        (FinishCurrentWidget { p with styleStack := stack }) :=
      ⟨by simpa [Page.numWidgets] using hi, by simp, hf.2.2.1⟩
    obtain ⟨q', hq', hk'⟩ := hk.keeps_appendText (FinishCurrentWidget_current _) cfg text
    exact ⟨q', hq', hk'.2.2, hk'.2.1⟩
  have hsame : ({ p with styleStack := p.styleStack } : Page) = p := rfl
  refine ⟨?_, ?_, ?_, ?_⟩
  · unfold PopStyle
    split
    · exact (key _).1
    · have := (key p.styleStack).1
      rwa [hsame] at this
  · unfold PopStyle
    split
    · exact (key _).2
    · have := (key p.styleStack).2
      rwa [hsame] at this
  · intro hlt
    unfold PushStyle
    rw [if_pos hlt]
    exact key _
  · intro hfull
    unfold PushStyle
    rw [if_neg hfull]

/-- C5 as amended, on the page after `AppendText("a")` with viewport width 100 and
advance 10: `PopStyle` at depth 1 finalizes widget 0. -/
theorem pushStyle_popStyle_finalize_witness :
    Finalized
      { (CreateWidget (uniformEnv 100 10 8 2000 32 128)
          (Page.fresh (uniformEnv 100 10 8 2000 32 128))).1 with textBuffer := [97] }
      (PopStyle { (CreateWidget (uniformEnv 100 10 8 2000 32 128)
          (Page.fresh (uniformEnv 100 10 8 2000 32 128))).1 with textBuffer := [97] }) 0 :=
  (pushStyle_popStyle_finalize (uniformEnv 100 10 8 2000 32 128)
    { (CreateWidget (uniformEnv 100 10 8 2000 32 128)
        (Page.fresh (uniformEnv 100 10 8 2000 32 128))).1 with textBuffer := [97] }
    0 ⟨1, 1, false⟩ rfl (by decide)).1

/-- C10, as stated, fails when the last widget is still open: with capacity for one widget,
viewport width 100 and advance 10, `AppendText("a")` on a fresh page fills the widget
sequence, and `AppendText("b")` then widens widget 0 from 10 to 20. -/
theorem appendText_at_capacity_widens_open_widget :
    ∃ p q, AppendText oneWidgetEnv (Page.fresh oneWidgetEnv) [97] = some p ∧
      p.numWidgets = oneWidgetEnv.maxPageWidgets ∧ p.currentWidgetIndex = some 0 ∧
      AppendText oneWidgetEnv p [98] = some q ∧
      (wAt p.widgets 0).width = 10 ∧ (wAt q.widgets 0).width = 20 ∧ q.widgets ≠ p.widgets := by
  refine ⟨_, _, rfl, by decide, by decide, rfl, by decide, by decide, by decide⟩

/-- C10 as amended: for every page state in which the widget sequence is at capacity
(with the open-widget index, if set, valid) and every text, `AppendText(text)` returns and
leaves the widget count unchanged; when moreover no widget is open, it leaves the page
height and every widget's contents unchanged. -/
theorem appendText_at_capacity (cfg : Env) (p : Page) (text : List Int)
    (hcap : p.numWidgets = cfg.maxPageWidgets)
    (hidx : ∀ i, p.currentWidgetIndex = some i → i < p.numWidgets) :
    ∃ p', AppendText cfg p text = some p' ∧ p'.numWidgets = p.numWidgets ∧
      (p.currentWidgetIndex = none → p'.pageHeight = p.pageHeight ∧ p'.widgets = p.widgets) := by
  have hcap' : ¬ p.widgets.length < cfg.maxPageWidgets := by
    unfold Page.numWidgets at hcap
    omega
  obtain ⟨p', hp'⟩ := AppendText_total cfg p text hidx
  refine ⟨p', hp', AppendText_length_at_capacity cfg p p' text hcap' hp', ?_⟩
  intro hopen
  rw [AppendText_closed_at_capacity cfg p text hcap' hopen] at hp'
  cases hp'
  exact ⟨rfl, rfl⟩

/-- C10 as amended, with capacity for one widget, on the page after
`AppendText("a"); BreakLine(0)`. -/
theorem appendText_at_capacity_witness :
    ∃ p', AppendText oneWidgetEnv
        (BreakLine oneWidgetEnv
          (addWidth (CreateWidget oneWidgetEnv (Page.fresh oneWidgetEnv)).1 0 10 [97]) 0) [98]
          = some p' ∧
      p'.numWidgets = 1 :=
  have h := appendText_at_capacity oneWidgetEnv
    (BreakLine oneWidgetEnv
      (addWidth (CreateWidget oneWidgetEnv (Page.fresh oneWidgetEnv)).1 0 10 [97]) 0) [98]
    (by decide) (by decide)
  h.elim fun p' hp' => ⟨p', hp'.1, hp'.2.1⟩

/-- C11: once widget creation has failed (the widget sequence is at capacity and no widget
is open), `AppendText(text)` is a no-op for every text: it returns the page it was given,
whole (widgets, count, cursor, pending padding, page height, line-start and open-widget
markers, scratch buffer, style stack, and the record of renderer calls, so the renderer is
not invoked); and `CreateWidget` at capacity returns none, leaves the widget count as it is
and leaves no widget open. -/
theorem appendText_noop_after_failed_creation (cfg : Env) (p : Page) (text : List Int)
    (hcap : p.numWidgets = cfg.maxPageWidgets) (hopen : p.currentWidgetIndex = none) :
    AppendText cfg p text = some p ∧
      (∀ q : Page, q.numWidgets = cfg.maxPageWidgets →
        (CreateWidget cfg q).2 = none ∧ (CreateWidget cfg q).1.numWidgets = q.numWidgets ∧
        (CreateWidget cfg q).1.currentWidgetIndex = none ∧
        ∀ t, AppendText cfg (CreateWidget cfg q).1 t = some (CreateWidget cfg q).1) := by
  have hcap' : ¬ p.widgets.length < cfg.maxPageWidgets := by
    unfold Page.numWidgets at hcap
    omega
  refine ⟨AppendText_closed_at_capacity cfg p text hcap' hopen, ?_⟩
  intro q hq
  have hq' : ¬ q.widgets.length < cfg.maxPageWidgets := by
    unfold Page.numWidgets at hq
    omega
  rw [CreateWidget_fail cfg q hq']
  refine ⟨rfl, by simp [Page.numWidgets], by simp, ?_⟩
  intro t
  exact AppendText_closed_at_capacity cfg _ t (by simpa using hq') (by simp)

/-- C11 with capacity for one widget, on the page after `AppendText("a"); BreakLine(0)`. -/
theorem appendText_noop_after_failed_creation_witness :
    AppendText oneWidgetEnv
        (BreakLine oneWidgetEnv
          (addWidth (CreateWidget oneWidgetEnv (Page.fresh oneWidgetEnv)).1 0 10 [97]) 0) [98]
      = some (BreakLine oneWidgetEnv
          (addWidth (CreateWidget oneWidgetEnv (Page.fresh oneWidgetEnv)).1 0 10 [97]) 0) :=
  (appendText_noop_after_failed_creation oneWidgetEnv
    (BreakLine oneWidgetEnv
      (addWidth (CreateWidget oneWidgetEnv (Page.fresh oneWidgetEnv)).1 0 10 [97]) 0) [98]
    (by decide) (by decide)).1

/-- C13: style stack bounds (the stack has room for the default style, as its declaration
requires). Every sequence of calls on a fresh page runs to a page `p` whose style stack has
depth between 1 and `MAX_PAGE_STYLE_STACK_SIZE` and the default style at depth 0; on it,
`PopStyle` at depth 1 leaves the stack unchanged, `PopStyle` at depth `d > 1` gives depth
`d - 1` with the lower entries unchanged, `PushStyle` on a full stack leaves the stack
unchanged, `PushStyle(s)` on a stack that is not full adds `s` as the top, and `PopStyle`
after it restores the previous stack. -/
theorem style_stack_bounds (cfg : Env) (hmax : 1 ≤ cfg.maxPageStyleStackSize) (ops : List Op) :
    ∃ p, runOps cfg (Page.fresh cfg) ops = some p ∧
      1 ≤ p.styleStackSize ∧ p.styleStackSize ≤ cfg.maxPageStyleStackSize ∧
      p.styleStack[0]? = some (regularStyle cfg) ∧
      (p.styleStackSize = 1 → (PopStyle p).styleStack = p.styleStack) ∧
      (1 < p.styleStackSize →
        (PopStyle p).styleStackSize = p.styleStackSize - 1 ∧
        ∀ k, k < p.styleStackSize - 1 → (PopStyle p).styleStack[k]? = p.styleStack[k]?) ∧
      (∀ s, ¬ p.styleStackSize < cfg.maxPageStyleStackSize →
        (PushStyle cfg p s).styleStack = p.styleStack) ∧
      (∀ s, p.styleStackSize < cfg.maxPageStyleStackSize →
        (PushStyle cfg p s).styleStack = p.styleStack ++ [s] ∧
        GetStyleStackTop (PushStyle cfg p s) = s ∧
        (PopStyle (PushStyle cfg p s)).styleStack = p.styleStack) := by
  obtain ⟨p, hp, -, hs⟩ := runOps_invariant cfg (StackOk cfg)
    (fun p op p' _ hj hop => applyOp_stackOk cfg p p' op hj hop) ops (Page.fresh cfg)
    (Idx.idx_fresh cfg) ⟨by simp [Page.styleStackSize, Page.fresh], by
      simpa [Page.styleStackSize, Page.fresh] using hmax, rfl⟩
  have hpos := hs.pos
  refine ⟨p, hp, hs.pos, hs.le, hs.base, ?_, ?_, ?_, ?_⟩
  · intro h1
    rw [PopStyle_styleStack, if_neg (by omega)]
  · intro hgt
    have hst := PopStyle_styleStack p
    rw [if_pos hgt] at hst
    constructor
    · simp [Page.styleStackSize, hst]
    · intro k hk
      unfold Page.styleStackSize at hk
      rw [hst, List.dropLast_eq_take, List.getElem?_take_of_lt hk]
  · intro s hfull
    rw [PushStyle_styleStack, if_neg hfull]
  · intro s hlt
    have hst := PushStyle_styleStack cfg p s
    rw [if_pos hlt] at hst
    refine ⟨hst, ?_, ?_⟩
    · simp [GetStyleStackTop, hst]
    · rw [PopStyle_styleStack, if_pos (by
        unfold Page.styleStackSize at hpos ⊢
        rw [hst]
        simp
        omega), hst]
      simp

/-- C13 with a stack of capacity 32, after `PushStyle; AppendText("a"); PopStyle; PopStyle`. -/
theorem style_stack_bounds_witness :
    ∃ p, runOps (uniformEnv 100 10 8 2000 32 128) (Page.fresh (uniformEnv 100 10 8 2000 32 128))
        [.pushStyle ⟨1, 1, false⟩, .appendText [97], .popStyle, .popStyle] = some p ∧
      1 ≤ p.styleStackSize ∧ p.styleStackSize ≤ 32 :=
  have h := style_stack_bounds (uniformEnv 100 10 8 2000 32 128) (by decide)
    [.pushStyle ⟨1, 1, false⟩, .appendText [97], .popStyle, .popStyle]
  h.elim fun p hp => ⟨p, hp.1, hp.2.1, hp.2.2.1⟩


/-- C14: link association. `SetWidgetURL(url)` and `ClearWidgetURL` change only the current
URL of the page (to the handle the allocator returns for `url`, and to none): every other
field, the widgets and the open-widget marker among them, is as before. In every run of
calls other than these two that follows `SetWidgetURL(url)`, each widget that existed
before keeps its link and each widget created since has that handle as its link; after
`ClearWidgetURL` each widget created since has no link. Such a run on a page that
satisfies the index invariant reaches a final page. -/
theorem link_association (cfg : Env) (p : Page) (url : List Int) :
    ((SetWidgetURL cfg p url).widgetURL = cfg.allocString url ∧
      { SetWidgetURL cfg p url with widgetURL := p.widgetURL } = p) ∧
    ((ClearWidgetURL p).widgetURL = none ∧
      { ClearWidgetURL p with widgetURL := p.widgetURL } = p) ∧
    (∀ ops : List Op, (∀ op ∈ ops, op.keepsURL) →
      (Idx p → ∃ q, runOps cfg (SetWidgetURL cfg p url) ops = some q) ∧
      ∀ q, runOps cfg (SetWidgetURL cfg p url) ops = some q →
        q.widgetURL = cfg.allocString url ∧ p.numWidgets ≤ q.numWidgets ∧
        (∀ j, j < p.numWidgets → (wAt q.widgets j).linkURL = (wAt p.widgets j).linkURL) ∧
        (∀ j, p.numWidgets ≤ j → j < q.numWidgets →
          (wAt q.widgets j).linkURL = cfg.allocString url)) ∧
    (∀ ops : List Op, (∀ op ∈ ops, op.keepsURL) →
      (Idx p → ∃ q, runOps cfg (ClearWidgetURL p) ops = some q) ∧
      ∀ q, runOps cfg (ClearWidgetURL p) ops = some q →
        q.widgetURL = none ∧ p.numWidgets ≤ q.numWidgets ∧
        (∀ j, j < p.numWidgets → (wAt q.widgets j).linkURL = (wAt p.widgets j).linkURL) ∧
        (∀ j, p.numWidgets ≤ j → j < q.numWidgets → (wAt q.widgets j).linkURL = none)) := by
  refine ⟨⟨rfl, rfl⟩, ⟨rfl, rfl⟩, ?_, ?_⟩
  · intro ops hk
    refine ⟨fun hi => runOps_total cfg ops _ (hi.idx_withURL _), ?_⟩
    intro q hq
    have h0 : LinkInv (p.widgets.map (fun w => w.linkURL)) (cfg.allocString url)
        (SetWidgetURL cfg p url) := LinkInv.link_start (SetWidgetURL cfg p url)
    exact (LinkInv.link_runOps cfg ops _ q h0 hk hq).link_wAt
  · intro ops hk
    refine ⟨fun hi => runOps_total cfg ops _ (hi.idx_withURL _), ?_⟩
    intro q hq
    have h0 : LinkInv (p.widgets.map (fun w => w.linkURL)) none
        (ClearWidgetURL p) := LinkInv.link_start (ClearWidgetURL p)
    exact (LinkInv.link_runOps cfg ops _ q h0 hk hq).link_wAt

/-- C14 on a fresh page: after `SetWidgetURL("u")`, the run `AppendText("a"); PushStyle;
AppendText("b")` ends, and every widget it created has the link `"u"`. -/
theorem link_association_witness :
    ∃ q, runOps (uniformEnv 100 10 8 2000 32 128)
        (SetWidgetURL (uniformEnv 100 10 8 2000 32 128)
          (Page.fresh (uniformEnv 100 10 8 2000 32 128)) [117])
        [.appendText [97], .pushStyle ⟨1, 1, false⟩, .appendText [98]] = some q ∧
      ∀ j, 0 ≤ j → j < q.numWidgets → (wAt q.widgets j).linkURL = some [117] :=
  have hk : ∀ op ∈ [Op.appendText [97], .pushStyle ⟨1, 1, false⟩, .appendText [98]],
      op.keepsURL := by
    intro op hop
    simp only [List.mem_cons, List.mem_singleton, List.not_mem_nil, or_false] at hop
    rcases hop with rfl | rfl | rfl <;> trivial
  have t := (link_association (uniformEnv 100 10 8 2000 32 128)
    (Page.fresh (uniformEnv 100 10 8 2000 32 128)) [117]).2.2.1 _ hk
  (t.1 (Idx.idx_fresh _)).elim fun q hq => ⟨q, hq, (t.2 q hq).2.2.2⟩

/-- C17: bottom alignment and cursor reset. On a page with a line in progress from index
`s` whose widgets all have `y = cursorY`, `FinishCurrentLine` uses a line height `L` that is
at least the height of every widget of the line and, when the line has a widget and no
height is negative, is the height of one of them (the maximum); it adds `L - height` to the
`y` of every widget of the line, so that `y + height = cursorY + L` for each of them, leaves
the `y` of the widgets before `s` alone, advances `cursorY` by `L`, and ends with
`cursorX = 0`, no open widget and no line in progress. With no line in progress it returns
the page after `FinishCurrentWidget` with `cursorX = 0`. -/
theorem finishCurrentLine_bottom_alignment (cfg : Env) (p : Page) :
    (∀ s, p.currentLineStartWidgetIndex = some s →
      (∀ n, s ≤ n → n < p.numWidgets → (wAt p.widgets n).y = p.cursorY) →
      ∃ L : Int,
        (∀ n, s ≤ n → n < p.numWidgets → (wAt p.widgets n).height ≤ L) ∧
        (s < p.numWidgets → (∀ n, s ≤ n → n < p.numWidgets → 0 ≤ (wAt p.widgets n).height) →
          ∃ n, s ≤ n ∧ n < p.numWidgets ∧ L = (wAt p.widgets n).height) ∧
        (∀ n, s ≤ n → n < p.numWidgets →
          (wAt (FinishCurrentLine cfg p).widgets n).y
            = (wAt p.widgets n).y + (L - (wAt p.widgets n).height) ∧
          (wAt (FinishCurrentLine cfg p).widgets n).y
            + (wAt (FinishCurrentLine cfg p).widgets n).height = p.cursorY + L) ∧
        (∀ n, n < s → (wAt (FinishCurrentLine cfg p).widgets n).y = (wAt p.widgets n).y) ∧
        (FinishCurrentLine cfg p).cursorY = p.cursorY + L ∧
        (FinishCurrentLine cfg p).cursorX = 0 ∧
        (FinishCurrentLine cfg p).currentWidgetIndex = none ∧
        (FinishCurrentLine cfg p).currentLineStartWidgetIndex = none) ∧
    (p.currentLineStartWidgetIndex = none →
      FinishCurrentLine cfg p = { FinishCurrentWidget p with cursorX := 0 }) := by
  constructor
  · intro s hs hy
    have hL : lineHeightOf (FinishCurrentWidget p)
        = (lineLoop 0 0 ((FinishCurrentWidget p).widgets.drop s)).2 := by
      simp [lineHeightOf, hs]
    have hle : ∀ n, s ≤ n → n < p.numWidgets →
        (wAt p.widgets n).height ≤ lineHeightOf (FinishCurrentWidget p) := by
      intro n hsn hn
      have := (lineHeight_spec (FinishCurrentWidget p).widgets s).1 n hsn
        (by simpa [Page.numWidgets] using hn)
      rw [hL]
      simpa using this
    have hyn : ∀ n, s ≤ n → n < p.numWidgets →
        (wAt (FinishCurrentLine cfg p).widgets n).y
          = (wAt p.widgets n).y + (lineHeightOf (FinishCurrentWidget p)
            - (wAt p.widgets n).height) := by
      intro n hsn hn
      rw [FinishCurrentLine_wAt_y cfg p n hn, if_pos (by simpa [lineBase, hs] using hsn)]
    refine ⟨lineHeightOf (FinishCurrentWidget p), hle, ?_, ?_, ?_, ?_, by simp, by simp,
      by simp⟩
    · intro hne hnn
      rcases (lineHeight_spec (FinishCurrentWidget p).widgets s).2 with h | ⟨n, hsn, hn, h⟩
      · refine ⟨s, le_refl s, hne, ?_⟩
        have h1 := hle s (le_refl s) hne
        have h2 := hnn s (le_refl s) hne
        rw [hL, h] at h1 ⊢
        omega
      · exact ⟨n, hsn, by simpa [Page.numWidgets] using hn, by rw [hL, h]; simp⟩
    · intro n hsn hn
      refine ⟨hyn n hsn hn, ?_⟩
      rw [hyn n hsn hn, FinishCurrentLine_wAt_height, hy n hsn hn]
      omega
    · intro n hn
      by_cases hlt : n < p.widgets.length
      · rw [FinishCurrentLine_wAt_y cfg p n hlt, if_neg (by simp [lineBase, hs]; omega)]
      · rw [wAt_of_le _ _ (by simp; omega), wAt_of_le _ _ (by omega)]
    · exact FinishCurrentLine_cursorY cfg p
  · intro hnone
    rw [FinishCurrentLine_eq]
    simp [hnone]

/-- C17 on a line at `cursorY = 5` with widgets of heights 8 and 12: the line height is 12,
the two widgets end at `y = 9` and `y = 5`, and `cursorY` becomes 17. -/
theorem finishCurrentLine_bottom_alignment_witness :
    ∃ L : Int,
      (∃ n, 0 ≤ n ∧ n < mixedLinePage.numWidgets ∧ L = (wAt mixedLinePage.widgets n).height) ∧
      (FinishCurrentLine wideEnv mixedLinePage).cursorY = mixedLinePage.cursorY + L ∧
      (FinishCurrentLine wideEnv mixedLinePage).cursorY = 17 ∧
      (wAt (FinishCurrentLine wideEnv mixedLinePage).widgets 0).y = 9 ∧
      (wAt (FinishCurrentLine wideEnv mixedLinePage).widgets 1).y = 5 :=
  have hy : ∀ n, 0 ≤ n → n < mixedLinePage.numWidgets →
      (wAt mixedLinePage.widgets n).y = mixedLinePage.cursorY := by
    intro n _ hn
    have h2 : n < 2 := hn
    interval_cases n <;> decide
  have hh : ∀ n, 0 ≤ n → n < mixedLinePage.numWidgets →
      0 ≤ (wAt mixedLinePage.widgets n).height := by
    intro n _ hn
    have h2 : n < 2 := hn
    interval_cases n <;> decide
  ((finishCurrentLine_bottom_alignment wideEnv mixedLinePage).1 0 rfl hy).elim
    fun L h => ⟨L, h.2.1 (by decide) hh, h.2.2.2.2.1, by decide, by decide, by decide⟩

/-- C18: the page height is a high-water mark. Every sequence of calls on a fresh page runs
to a page `p` with `0 ≤ pendingVerticalPadding`, `0 ≤ cursorY` and
`0 ≤ pageHeight ≤ cursorY`; no later sequence of calls lowers the page height; and the same
bounds hold on the page after every number of passes of the scan loop of an `AppendText`
that starts on `p`. On every page `q` with `pageHeight ≤ cursorY` (so on all of these, and
on those pages with the open-widget marker cleared or a width added, which is what
`AppendText` passes to `FinishCurrentLine`), a `FinishCurrentLine` that closes a line sets
the page height to the maximum of the previous page height and the new `cursorY`, and one
that closes no line leaves the page height as it was. -/
theorem page_height_high_water_mark (cfg : Env) (ops : List Op) :
    (∃ p, runOps cfg (Page.fresh cfg) ops = some p ∧
      0 ≤ p.pendingVerticalPadding ∧ 0 ≤ p.cursorY ∧ 0 ≤ p.pageHeight ∧
      p.pageHeight ≤ p.cursorY ∧
      (∀ more p', runOps cfg p more = some p' → p.pageHeight ≤ p'.pageHeight) ∧
      (∀ text cur fs k s, (appendEntry cfg p).currentWidgetIndex = some cur →
        scanSteps cfg fs text k (scanInit (appendEntry cfg p) cur) = some s →
        0 ≤ s.page.pendingVerticalPadding ∧ p.pageHeight ≤ s.page.pageHeight ∧
        s.page.pageHeight ≤ s.page.cursorY ∧ 0 ≤ s.page.cursorY)) ∧
    (∀ q : Page, q.pageHeight ≤ q.cursorY →
      (∀ s, q.currentLineStartWidgetIndex = some s →
        (FinishCurrentLine cfg q).pageHeight
          = max q.pageHeight (FinishCurrentLine cfg q).cursorY) ∧
      (q.currentLineStartWidgetIndex = none →
        (FinishCurrentLine cfg q).pageHeight = q.pageHeight)) := by
  constructor
  · obtain ⟨p, hp⟩ := runOps_total cfg ops (Page.fresh cfg) (Idx.idx_fresh cfg)
    have hh : High 0 p := High.high_runOps cfg ops _ p (High.high_fresh cfg) hp
    have hself : High p.pageHeight p := ⟨hh.1, le_refl _, hh.2.2⟩
    refine ⟨p, hp, hh.1, le_trans hh.2.1 hh.2.2, hh.2.1, hh.2.2, ?_, ?_⟩
    · intro more p' hp'
      exact (High.high_runOps cfg more p p' hself hp').2.1
    · intro text cur fs k s hcur hs
      have hentry : High p.pageHeight (appendEntry cfg p) := by
        unfold appendEntry
        split
        · exact hself.high_createWidget cfg
        · exact hself
      have h := scanSteps_preserves cfg (High p.pageHeight)
        (fun _ hq => hq.high_finishCurrentLine cfg) (fun _ hq => hq.high_createWidget cfg)
        (fun _ _ _ _ hq => hq.high_addWidth _ _ _) (fun _ _ hq => hq.high_relocate cfg _)
        fs text k (scanInit (appendEntry cfg p) cur) s hentry hs
      exact ⟨h.1, h.2.1, h.2.2, le_trans (le_trans hh.2.1 h.2.1) h.2.2⟩
  · intro q hq
    constructor
    · intro s hs
      exact FinishCurrentLine_pageHeight_max cfg q s hq hs
    · intro hnone
      have hp := FinishCurrentLine_pageHeight cfg q
      rw [hnone] at hp
      exact hp

/-- C18 after `AppendText("a"); BreakLine(5); AppendText("b")`: the run ends on a page whose
height is at most `cursorY`; and on the page with one finished line and a second widget
open, finishing the line sets the page height to the maximum. -/
theorem page_height_high_water_mark_witness :
    (∃ p, runOps wideEnv (Page.fresh wideEnv)
        [.appendText [97], .breakLine 5, .appendText [98]] = some p ∧
      p.pageHeight ≤ p.cursorY) ∧
    (FinishCurrentLine wideEnv (secondPage wideEnv 4 [97])).pageHeight
      = max (secondPage wideEnv 4 [97]).pageHeight
          (FinishCurrentLine wideEnv (secondPage wideEnv 4 [97])).cursorY :=
  have t := page_height_high_water_mark wideEnv
    [.appendText [97], .breakLine 5, .appendText [98]]
  ⟨t.1.elim fun p hp => ⟨p, hp.1, hp.2.2.2.2.1⟩,
    (t.2 (secondPage wideEnv 4 [97]) (by decide)).1 1 rfl⟩

/-- C19 fails in the code on the new page, for its scratch-buffer part: the constructor
assigns every member but `textBufferSize`, whose first assignment is in
`FinishCurrentWidget`. From a new page with any scratch buffer `buf`, every sequence of the
public calls runs to a page on which `numWidgets ≤ MAX_PAGE_WIDGETS`, the open-widget index,
when set, is `numWidgets - 1`, the line-start index, when set, is below `numWidgets`, and an
open widget implies a line in progress that starts at or before it; but the scratch buffer is
within `MAX_TEXT_BUFFER_SIZE` only if it was so on the new page. With capacity 2 and a new
page whose unassigned member reads 3, the bound fails on the new page and after
`AppendText("a ")`, which stores none of its characters; `BreakLine` then gives the widget
the three stale characters as its text. -/
theorem scratch_buffer_size_unassigned :
    (∀ (cfg : Env) (buf : List Int) (ops : List Op),
      ∃ p, runOps cfg (Page.init cfg buf) ops = some p ∧
        0 ≤ p.numWidgets ∧ p.numWidgets ≤ cfg.maxPageWidgets ∧
        (p.currentWidgetIndex = none ∨
          ∃ i, p.currentWidgetIndex = some i ∧ i + 1 = p.numWidgets ∧ i < p.numWidgets) ∧
        (p.currentLineStartWidgetIndex = none ∨
          ∃ s, p.currentLineStartWidgetIndex = some s ∧ 0 ≤ s ∧ s < p.numWidgets) ∧
        (∀ i, p.currentWidgetIndex = some i →
          ∃ s, p.currentLineStartWidgetIndex = some s ∧ s ≤ i) ∧
        p.textBufferSize ≤ max buf.length cfg.maxTextBufferSize ∧
        (buf.length ≤ cfg.maxTextBufferSize → p.textBufferSize ≤ cfg.maxTextBufferSize)) ∧
    (tinyBufferEnv.maxTextBufferSize = 2 ∧
      (Page.init tinyBufferEnv [120, 120, 120]).textBufferSize = 3 ∧
      (∃ p, runOps tinyBufferEnv (Page.init tinyBufferEnv [120, 120, 120])
          [.appendText [97, 32]] = some p ∧
        p.textBufferSize = 3 ∧ p.textBuffer = [120, 120, 120] ∧
        p.widgets.map (fun w => (w.width, w.text)) = [(20, none)]) ∧
      (∃ p, runOps tinyBufferEnv (Page.init tinyBufferEnv [120, 120, 120])
          [.appendText [97, 32], .breakLine 0] = some p ∧
        p.widgets.map (fun w => (w.width, w.text)) = [(20, some [120, 120, 120])] ∧
        p.textBufferSize = 0)) := by
  constructor
  · intro cfg buf ops
    obtain ⟨p, hp, hi, hc⟩ := runOps_invariant cfg (Caps cfg buf.length)
      (fun p op p' _ hj hop => hj.caps_applyOp op hop) ops (Page.init cfg buf)
      (Idx.idx_init cfg buf) ⟨Nat.zero_le _, le_max_left _ _⟩
    refine ⟨p, hp, Nat.zero_le _, hc.1, ?_, ?_, hi.open_line, hc.2, ?_⟩
    · cases hcur : p.currentWidgetIndex with
      | none => exact Or.inl rfl
      | some i =>
        have := hi.open_last i hcur
        exact Or.inr ⟨i, rfl, this, by unfold Page.numWidgets; omega⟩
    · cases hl : p.currentLineStartWidgetIndex with
      | none => exact Or.inl rfl
      | some s => exact Or.inr ⟨s, rfl, Nat.zero_le _, hi.line_lt s hl⟩
    · intro hb
      have := hc.2
      rw [max_eq_right hb] at this
      exact this
  · exact ⟨rfl, rfl, ⟨_, rfl, rfl, rfl, rfl⟩, ⟨_, rfl, rfl, rfl⟩⟩

/-- C15 fails in the code on `AppendText("aaaa "); PushStyle; AppendText("bbbbbbbbb");
BreakLine(0)` with viewport width 100 and advance 10. The second widget is created at
`x = 50` and is still empty when the fifth `b` overflows, so it is moved to the next line; the
`FinishCurrentLine` of that step passes the renderer a batch of two widgets, the second being
this open widget with `x = 50`, `y = 0`, width 0 and no text. The same widget then gets
`x = 0`, `y = 8`, width 90 and the text `bbbbbbbbb`, and is passed to the renderer again in
the batch of the next line. -/
theorem relocated_widget_changes_after_handoff :
    ∃ p, runOps (uniformEnv 100 10 8 2000 32 128) (Page.fresh (uniformEnv 100 10 8 2000 32 128))
        [.appendText [97, 97, 97, 97, 32], .pushStyle ⟨0, 1, false⟩,
          .appendText [98, 98, 98, 98, 98, 98, 98, 98, 98], .breakLine 0] = some p ∧
      p.rendered.map (fun b => (b.1, b.2.map (fun w => (w.x, w.y, w.width, w.text)))) =
        [(0, [(0, 0, 50, some [97, 97, 97, 97, 32]), (50, 0, 0, none)]),
         (1, [(0, 8, 90, some [98, 98, 98, 98, 98, 98, 98, 98, 98])])] ∧
      p.widgets.map (fun w => (w.x, w.y, w.width, w.text)) =
        [(0, 0, 50, some [97, 97, 97, 97, 32]),
         (0, 8, 90, some [98, 98, 98, 98, 98, 98, 98, 98, 98])] :=
  ⟨_, rfl, rfl, rfl⟩

/-- C16 fails in the code on `AppendText("aaaa "); PushStyle(font size 2);
AppendText("bbbbbbbbb")` with viewport width 100, advance 10 and line height 8 times the font
size. Before the second `AppendText` overflows, the line holds widget 0 (height 8) and the
empty open widget 1 (height 16, `x = 50`). The line finalization of the relocation runs over
both: the line height is 16, not 8, so widget 0 is moved down to `y = 8` and `cursorY`
becomes 16, and the batch passed to the renderer holds both widgets. Afterwards widget 1 is
the open widget and the line start, at `x = 0`, `y = 16`, as the claim says. -/
theorem relocation_finalizes_relocated_widget :
    (∃ p, runOps sizedEnv (Page.fresh sizedEnv)
        [.appendText [97, 97, 97, 97, 32], .pushStyle ⟨0, 2, false⟩,
          .appendText [98, 98, 98, 98]] = some p ∧
      p.rendered = [] ∧
      p.widgets.map (fun w => (w.x, w.y, w.width, w.height)) = [(0, 0, 50, 8), (50, 0, 40, 16)] ∧
      p.cursorY = 0 ∧ p.currentLineStartWidgetIndex = some 0) ∧
    (∃ p, runOps sizedEnv (Page.fresh sizedEnv)
        [.appendText [97, 97, 97, 97, 32], .pushStyle ⟨0, 2, false⟩,
          .appendText [98, 98, 98, 98, 98, 98, 98, 98, 98]] = some p ∧
      p.rendered.map (fun b => (b.1, b.2.map (fun w => (w.x, w.y, w.width, w.height)))) =
        [(0, [(0, 8, 50, 8), (50, 0, 0, 16)])] ∧
      p.widgets.map (fun w => (w.x, w.y, w.width, w.height)) = [(0, 8, 50, 8), (0, 16, 90, 16)] ∧
      p.cursorY = 16 ∧ p.pageHeight = 16 ∧
      p.currentWidgetIndex = some 1 ∧ p.currentLineStartWidgetIndex = some 1) := by
  exact ⟨⟨_, rfl, rfl, rfl, rfl, rfl⟩, ⟨_, rfl, rfl, rfl, rfl, rfl, rfl, rfl⟩⟩

/-- C20: `AppendText` terminates. For every environment (every font-metrics function, also
one whose glyphs are all at least as wide as the viewport), every text and every page whose
open-widget index, when set, is valid, `AppendText` returns a page. After `k` passes of the
scan loop the scan index is at most the length of the text and `k` is at most the scan index
plus the number of widgets created during the scan plus one (the one relocation), while the
widget count stays within the capacity: so the passes that step the index back are at most
the remaining capacity plus one. At capacity an overflow that is not a relocation ends the
scan. -/
theorem appendText_terminates (cfg : Env) (p : Page) (text : List Int)
    (hidx : ∀ i, p.currentWidgetIndex = some i → i < p.numWidgets) :
    (∃ p', AppendText cfg p text = some p') ∧
    (∀ cur fs k s, (appendEntry cfg p).currentWidgetIndex = some cur →
      scanSteps cfg fs text k (scanInit (appendEntry cfg p) cur) = some s →
      s.index ≤ text.length ∧
      k + (appendEntry cfg p).numWidgets ≤ s.index + s.page.numWidgets + 1 ∧
      (appendEntry cfg p).numWidgets ≤ s.page.numWidgets ∧
      s.page.numWidgets ≤ max (appendEntry cfg p).numWidgets cfg.maxPageWidgets ∧
      k ≤ text.length + (max (appendEntry cfg p).numWidgets cfg.maxPageWidgets
        - (appendEntry cfg p).numWidgets) + 1) ∧
    (∀ fs (s : Scan) c, 32 ≤ c ∧ c ≤ 128 →
      ¬ (wAt s.page.widgets s.current).x + (wAt s.page.widgets s.current).width
        + s.addedWidth + advance cfg fs (wAt s.page.widgets s.current).style c
          < cfg.windowWidth →
      (wAt s.page.widgets s.current).width ≠ 0 ∨ (wAt s.page.widgets s.current).x = 0 →
      ¬ s.page.numWidgets < cfg.maxPageWidgets →
      ∃ q, scanBody cfg fs text s c = .ret q) := by
  refine ⟨AppendText_total cfg p text hidx, ?_, ?_⟩
  · intro cur fs k s hcur hs
    have hlt := appendEntry_current_lt cfg p hidx cur hcur
    obtain ⟨hp, hi, hl, hm⟩ := scanSteps_progress cfg fs text k
      (scanInit (appendEntry cfg p) cur) s hlt (Nat.zero_le _) hs
    have h0 : (appendEntry cfg p).widgets.length
        ≤ scanProgress (scanInit (appendEntry cfg p) cur) := by
      simp only [scanProgress, scanInit]
      omega
    have h1 : scanProgress s ≤ s.index + s.page.widgets.length + 1 := by
      simp only [scanProgress]
      split <;> omega
    simp only [scanInit] at hl hm
    unfold Page.numWidgets
    refine ⟨hi, by omega, hl, hm, ?_⟩
    omega
  · intro fs s c hp hfit hnr hcap
    exact scanBody_ret_at_capacity cfg fs text s c hp hfit hnr hcap

/-- C20 with glyphs as wide as the viewport and capacity for three widgets: `AppendText("ab")`
on a fresh page returns. -/
theorem appendText_terminates_witness :
    ∃ p', AppendText noFitEnv (Page.fresh noFitEnv) [97, 98] = some p' :=
  (appendText_terminates noFitEnv (Page.fresh noFitEnv) [97, 98]
    (fun _ h => Option.noConfusion h)).1

end MicroWeb
